import Mathlib

/-
Verification of the ddgg generational-arena graph library.

The definitions below are a shallow embedding of `src/gen_vec.rs`,
`src/errors.rs`, `src/graph_diff.rs` and `src/graph.rs`.  Machine integers
(`usize`, `u32`) are modelled as `Nat`; Rust `Vec` as `List`; fallible
lookups as `Option`.  A Rust operation that can panic (out-of-bounds `Vec`
indexing, `unwrap`/`expect` on `None`/`Err`) is modelled with an explicit
"panicked" outcome: `none` for slot-table helpers, the `GRes.panicked`
constructor for graph operations.  The `VertexIndex`/`EdgeIndex` newtypes
of the source are transparent wrappers around `Index` and are modelled as
plain `Index` (the vertex and edge tables are separate fields, as in the
source).  The Rust field `from` is rendered `from_` because `from` is a
Lean keyword.
-/

namespace Ddgg

/-- Index into a `GenVec`: a slot number plus the generation at which the
slot was occupied (gen_vec.rs, `struct Index`). -/
structure Index where
  index : Nat
  generation : Nat
deriving DecidableEq, Repr

/-- One slot of a `GenVec` (gen_vec.rs, `enum Element<T>`). -/
inductive Element (T : Type) where
  | Occupied (value : T) (generation : Nat)
  | Open (generation : Nat) (next : Option Nat)
deriving DecidableEq, Repr

namespace Element

/-- gen_vec.rs `Element::generation`. -/
def generation : Element T → Nat
  | .Occupied _ generation => generation
  | .Open generation _ => generation

/-- gen_vec.rs `Element::next_open`. -/
def next_open : Element T → Option Nat
  | .Occupied _ _ => none
  | .Open _ next => next

end Element

/-- The generational slot table (gen_vec.rs, `struct GenVec<T>`). -/
structure GenVec (T : Type) where
  vec : List (Element T)
  next_open_slot : Option Nat
deriving DecidableEq, Repr

namespace GenVec

/-- gen_vec.rs `GenVec::new`. -/
def new : GenVec T := ⟨[], none⟩

/-- gen_vec.rs `GenVec::add`.  `none` models the panic that Rust's
`self.vec[open_slot_index]` raises when the free head is out of range. -/
def add (v : GenVec T) (value : T) : Option (Index × GenVec T) :=
  match v.next_open_slot with
  | some open_slot_index =>
    match v.vec[open_slot_index]? with
    | none => none
    | some e =>
      some (⟨open_slot_index, e.generation⟩,
        ⟨v.vec.set open_slot_index (.Occupied value e.generation), e.next_open⟩)
  | none =>
      some (⟨v.vec.length, 0⟩, ⟨v.vec ++ [.Occupied value 0], none⟩)

/-- gen_vec.rs `GenVec::get` (uses the non-panicking `Vec::get`). -/
def get (v : GenVec T) (index : Index) : Option T :=
  match v.vec[index.index]? with
  | some (.Occupied value gen) => if gen = index.generation then some value else none
  | _ => none

/-- gen_vec.rs `GenVec::get_mut`, viewed as a lookup.  The outer `none`
models the panic of `self.vec[index.index]` when the slot number is out of
range; `some r` is the `Option<&mut T>` the Rust function returns. -/
def get_mut_lookup (v : GenVec T) (index : Index) : Option (Option T) :=
  match v.vec[index.index]? with
  | none => none
  | some (.Occupied value gen) =>
      some (if gen = index.generation then some value else none)
  | some (.Open _ _) => some none

/-- gen_vec.rs `GenVec::remove`: on success the slot becomes
`Open{generation+1, next=old head}` and the free head points at it. -/
def remove (v : GenVec T) (index : Index) : Option (T × GenVec T) :=
  match v.get index with
  | none => none
  | some value =>
      some (value,
        ⟨v.vec.set index.index (.Open (index.generation + 1) v.next_open_slot),
         some index.index⟩)

/-- gen_vec.rs `GenVec::remove_but_maintain_generation`: like `remove` but
the freed slot keeps generation `index.generation`. -/
def remove_but_maintain_generation (v : GenVec T) (index : Index) :
    Option (T × GenVec T) :=
  match v.get index with
  | none => none
  | some value =>
      some (value,
        ⟨v.vec.set index.index (.Open index.generation v.next_open_slot),
         some index.index⟩)

/-- gen_vec.rs `GenVec::clear`: `self.vec.clear()` only — the source does
not reset `next_open_slot`. -/
def clear (v : GenVec T) : GenVec T := ⟨[], v.next_open_slot⟩

/-- gen_vec.rs `GenVec::is_replaceable_by_index_rollback`.  `none` models
the panic of `self.vec[index.index]` when out of range. -/
def is_replaceable_by_index_rollback (v : GenVec T) (index : Index) :
    Option Bool :=
  match v.vec[index.index]? with
  | none => none
  | some (.Open gen _) => some (decide (gen = index.generation + 1))
  | some (.Occupied _ _) => some false

/-- gen_vec.rs `GenVec::is_replaceable_by_index_apply`. -/
def is_replaceable_by_index_apply (v : GenVec T) (index : Index) :
    Option Bool :=
  match v.vec[index.index]? with
  | none => none
  | some (.Open gen _) => some (decide (gen = index.generation))
  | some (.Occupied _ _) => some false

/-- Write a value in place at a slot just looked up via `get`/`get_mut`.
This models Rust's in-place mutation through the `&mut T` those return
(used by the `ops::IndexMut` call sites in graph.rs); the call sites only
use it right after a successful lookup at `i`, so writing
`Occupied value i.generation` is exactly overwriting the stored value. -/
def setOcc (v : GenVec T) (i : Index) (value : T) : GenVec T :=
  ⟨v.vec.set i.index (.Occupied value i.generation), v.next_open_slot⟩

end GenVec

/-- errors.rs `enum GraphError`. -/
inductive GraphError where
  | VertexDoesNotExist (index : Index)
  | EdgeDoesNotExist (index : Index)
  | InvalidDiff
deriving DecidableEq, Repr

/-- graph.rs `struct Vertex<T>`. -/
structure Vertex (V : Type) where
  connections_from : List (Index × Index)
  connections_to : List (Index × Index)
  data : V
deriving DecidableEq, Repr

/-- graph.rs `struct Edge<T>`; `from` is a Lean keyword, hence `from_`. -/
structure Edge (E : Type) where
  from_ : Index
  to_ : Index
  data : E
deriving DecidableEq, Repr

namespace Vertex

/-- graph.rs `Vertex::new`. -/
def new (data : V) : Vertex V := ⟨[], [], data⟩

/-- graph.rs `Vertex::add_from_unchecked` (a `Vec::push`). -/
def add_from_unchecked (v : Vertex V) (f e : Index) : Vertex V :=
  { v with connections_from := v.connections_from ++ [(f, e)] }

/-- graph.rs `Vertex::add_to_unchecked` (a `Vec::push`). -/
def add_to_unchecked (v : Vertex V) (t e : Index) : Vertex V :=
  { v with connections_to := v.connections_to ++ [(t, e)] }

end Vertex

/-- Remove the first entry whose edge component equals `e`; models
`iter().position(|c| c.1 == edge_index)` followed by `Vec::remove` in
graph.rs `Vertex::remove_from` / `Vertex::remove_to`. -/
def removeFirst (l : List (Index × Index)) (e : Index) : List (Index × Index) :=
  match l with
  | [] => []
  | c :: rest => if c.2 = e then rest else c :: removeFirst rest e

namespace Vertex

/-- graph.rs `Vertex::remove_from`: `none` models the `Err(())` taken when
no entry matches. -/
def remove_from (v : Vertex V) (edge_index : Index) : Option (Vertex V) :=
  if v.connections_from.any (fun c => decide (c.2 = edge_index)) then
    some { v with connections_from := removeFirst v.connections_from edge_index }
  else none

/-- graph.rs `Vertex::remove_to`. -/
def remove_to (v : Vertex V) (edge_index : Index) : Option (Vertex V) :=
  if v.connections_to.any (fun c => decide (c.2 = edge_index)) then
    some { v with connections_to := removeFirst v.connections_to edge_index }
  else none

end Vertex

/-- graph_diff.rs `struct AddVertex<V>`. -/
structure AddVertex (V : Type) where
  vertex_index : Index
  vertex_data : V
deriving DecidableEq, Repr

/-- graph_diff.rs `struct AddEdge<E>`. -/
structure AddEdge (E : Type) where
  edge_index : Index
  from_ : Index
  to_ : Index
  edge_data : E
deriving DecidableEq, Repr

/-- graph_diff.rs `struct RemoveEdge<E>`. -/
structure RemoveEdge (E : Type) where
  edge_index : Index
  edge : Edge E
deriving DecidableEq, Repr

/-- graph_diff.rs `struct RemoveVertex<V, E>`. -/
structure RemoveVertex (V E : Type) where
  vertex_index : Index
  vertex : Vertex V
  removed_edges : List (RemoveEdge E)
deriving DecidableEq, Repr

/-- graph_diff.rs `struct UpdateVertexData<V>`. -/
structure UpdateVertexData (V : Type) where
  index : Index
  before : V
  after : V
deriving DecidableEq, Repr

/-- graph_diff.rs `struct UpdateEdgeData<E>`. -/
structure UpdateEdgeData (E : Type) where
  index : Index
  before : E
  after : E
deriving DecidableEq, Repr

/-- graph_diff.rs `enum GraphDiff<V, E>`. -/
inductive GraphDiff (V E : Type) where
  | AddVertex (d : AddVertex V)
  | AddEdge (d : AddEdge E)
  | RemoveEdge (d : RemoveEdge E)
  | RemoveVertex (d : RemoveVertex V E)
  | UpdateVertexData (d : UpdateVertexData V)
  | UpdateEdgeData (d : UpdateEdgeData E)
deriving DecidableEq, Repr

/-- graph.rs `struct Graph<V, E>` (the source spells it `verticies`). -/
structure Graph (V E : Type) where
  verticies : GenVec (Vertex V)
  edges : GenVec (Edge E)
deriving DecidableEq, Repr

/-- Outcome of a graph operation: Rust `Ok`, Rust `Err`, or a panic.  The
graph carried by `ok`/`err` is the state of `&mut self` when the function
returns (on the source's error paths no mutation has happened yet, which
the definitions below make explicit by returning the entry state). -/
inductive GRes (V E α : Type) where
  | ok (val : α) (g : Graph V E)
  | err (e : GraphError) (g : Graph V E)
  | panicked
deriving DecidableEq, Repr

namespace Graph

/-- graph.rs `Graph::new`. -/
def new : Graph V E := ⟨GenVec.new, GenVec.new⟩

/-- graph.rs `Graph::get_vertex`. -/
def get_vertex (g : Graph V E) (index : Index) : Option (Vertex V) :=
  g.verticies.get index

/-- graph.rs `Graph::get_edge`. -/
def get_edge (g : Graph V E) (index : Index) : Option (Edge E) :=
  g.edges.get index

/-- graph.rs `Graph::get_vertex_data`. -/
def get_vertex_data (g : Graph V E) (index : Index) : Option V :=
  (g.get_vertex index).map Vertex.data

/-- graph.rs `Graph::get_edge_data`. -/
def get_edge_data (g : Graph V E) (index : Index) : Option E :=
  (g.get_edge index).map Edge.data

/-- graph.rs `Graph::get_vertex_mut`, as a lookup; outer `none` is the
out-of-range panic inherited from `GenVec::get_mut`. -/
def get_vertex_mut_lookup (g : Graph V E) (index : Index) :
    Option (Option (Vertex V)) :=
  g.verticies.get_mut_lookup index

/-- graph.rs `Graph::get_edge_mut`, as a lookup. -/
def get_edge_mut_lookup (g : Graph V E) (index : Index) :
    Option (Option (Edge E)) :=
  g.edges.get_mut_lookup index

/-- graph.rs `Graph::get_vertex_data_mut`, as a lookup; outer `none` is the
out-of-range panic. -/
def get_vertex_data_mut_lookup (g : Graph V E) (index : Index) :
    Option (Option V) :=
  (g.get_vertex_mut_lookup index).map (fun r => r.map Vertex.data)

/-- graph.rs `Graph::assert_vertex_exists`: `some e` models `Err(e)`. -/
def assert_vertex_exists (g : Graph V E) (index : Index) : Option GraphError :=
  if (g.verticies.get index).isNone then some (.VertexDoesNotExist index)
  else none

/-- graph.rs `Graph::assert_edge_exists`. -/
def assert_edge_exists (g : Graph V E) (index : Index) : Option GraphError :=
  if (g.edges.get index).isNone then some (.EdgeDoesNotExist index)
  else none

/-- Replace the vertex stored at a slot just verified to be live at `i`
(the `self[i]` / `get_vertex_mut(..).expect(..)` mutation sites). -/
def setVertex (g : Graph V E) (i : Index) (vx : Vertex V) : Graph V E :=
  { g with verticies := g.verticies.setOcc i vx }

/-- The adjacency-linking tail shared by graph.rs `apply_add_edge_diff`
and `rollback_remove_edge_diff`: push `(t, e)` on `f`'s outgoing entries
and `(f, e)` on `t`'s incoming entries, through
`get_vertex_mut(..).expect(..)` (panic when the vertex is gone). -/
def link_edge (g1 : Graph V E) (f t e : Index) : GRes V E Unit :=
  match g1.get_vertex f with
  | none => .panicked
  | some fv =>
    let g2 := g1.setVertex f (fv.add_to_unchecked t e)
    match g2.get_vertex t with
    | none => .panicked
    | some tv => .ok () (g2.setVertex t (tv.add_from_unchecked f e))

/-- graph.rs `Graph::add_vertex`; `none` is the (free-list-corruption)
panic path of `GenVec::add`. -/
def add_vertex (g : Graph V E) (vertex_data : V) :
    Option ((Index × GraphDiff V E) × Graph V E) :=
  match g.verticies.add (Vertex.new vertex_data) with
  | none => none
  | some (vertex_index, vs) =>
      some ((vertex_index, .AddVertex ⟨vertex_index, vertex_data⟩),
        { g with verticies := vs })

/-- graph.rs `Graph::add_edge`. -/
def add_edge (g : Graph V E) (from_index to_index : Index) (edge_data : E) :
    GRes V E (Index × GraphDiff V E) :=
  match g.assert_vertex_exists from_index with
  | some e => .err e g
  | none =>
  match g.assert_vertex_exists to_index with
  | some e => .err e g
  | none =>
  match g.edges.add (Edge.mk from_index to_index edge_data) with
  | none => .panicked
  | some (edge_index, es) =>
    let g1 : Graph V E := { g with edges := es }
    match g1.get_vertex from_index with
    | none => .panicked
    | some fv =>
      let g2 := g1.setVertex from_index (fv.add_to_unchecked to_index edge_index)
      match g2.get_vertex to_index with
      | none => .panicked
      | some tv =>
        let g3 := g2.setVertex to_index (tv.add_from_unchecked from_index edge_index)
        .ok (edge_index, .AddEdge ⟨edge_index, from_index, to_index, edge_data⟩) g3

/-- graph.rs `Graph::update_vertex`. -/
def update_vertex (g : Graph V E) (index : Index) (value : V) :
    GRes V E (V × GraphDiff V E) :=
  match g.get_vertex_mut_lookup index with
  | none => .panicked
  | some none => .err (.VertexDoesNotExist index) g
  | some (some vx) =>
      .ok (vx.data, .UpdateVertexData ⟨index, vx.data, value⟩)
        (g.setVertex index { vx with data := value })

/-- graph.rs `Graph::update_edge`. -/
def update_edge (g : Graph V E) (index : Index) (value : E) :
    GRes V E (E × GraphDiff V E) :=
  match g.get_edge_mut_lookup index with
  | none => .panicked
  | some none => .err (.EdgeDoesNotExist index) g
  | some (some ed) =>
      .ok (ed.data, .UpdateEdgeData ⟨index, ed.data, value⟩)
        { g with edges := g.edges.setOcc index { ed with data := value } }

/-- graph.rs `Graph::remove_edge_internal`: detach the edge from both
endpoints' adjacency lists (panicking `unwrap`s on failure), then free the
edge slot. -/
def remove_edge_internal (g : Graph V E) (edge_index : Index) :
    GRes V E (E × RemoveEdge E) :=
  match g.get_edge edge_index with
  | none => .err (.EdgeDoesNotExist edge_index) g
  | some edge =>
    match (g.get_vertex edge.from_).bind (fun v => v.remove_to edge_index) with
    | none => .panicked
    | some fv =>
      let g1 := g.setVertex edge.from_ fv
      match (g1.get_vertex edge.to_).bind (fun v => v.remove_from edge_index) with
      | none => .panicked
      | some tv =>
        let g2 := g1.setVertex edge.to_ tv
        match g2.edges.remove edge_index with
        | none => .panicked
        | some (edge, es) =>
            .ok (edge.data, ⟨edge_index, edge⟩) { g2 with edges := es }

/-- graph.rs `Graph::remove_edge`. -/
def remove_edge (g : Graph V E) (edge_index : Index) :
    GRes V E (E × GraphDiff V E) :=
  match g.remove_edge_internal edge_index with
  | .ok (d, diff) g1 => .ok (d, .RemoveEdge diff) g1
  | .err e g1 => .err e g1
  | .panicked => .panicked

/-- The edge-removal loop of graph.rs `Graph::remove_vertex`
(`connections.iter().map(|..| self.remove_edge_internal(..).unwrap().1)`);
an `Err` under the `unwrap` is a panic. -/
def remove_edges_collect (g : Graph V E) :
    List (Index × Index) → GRes V E (List (RemoveEdge E))
  | [] => .ok [] g
  | c :: rest =>
    match g.remove_edge_internal c.2 with
    | .ok (_, d) g1 =>
      match remove_edges_collect g1 rest with
      | .ok ds g2 => .ok (d :: ds) g2
      | .err e g2 => .err e g2
      | .panicked => .panicked
    | _ => .panicked

/-- graph.rs `Graph::remove_vertex`. -/
def remove_vertex (g : Graph V E) (vertex_index : Index) :
    GRes V E (V × GraphDiff V E) :=
  match g.get_vertex vertex_index with
  | none => .err (.VertexDoesNotExist vertex_index) g
  | some vertex =>
    let connections := vertex.connections_from ++ vertex.connections_to
    match g.remove_edges_collect connections with
    | .ok edge_diffs g1 =>
      match g1.verticies.remove vertex_index with
      | none => .panicked
      | some (vertex, vs) =>
          .ok (vertex.data,
               .RemoveVertex ⟨vertex_index, vertex, edge_diffs⟩)
            { g1 with verticies := vs }
    | _ => .panicked

/-- graph.rs `Graph::remove_edge_and_reset`: like `remove_edge_internal`
but frees the slot with `remove_but_maintain_generation`. -/
def remove_edge_and_reset (g : Graph V E) (edge_index : Index) :
    GRes V E E :=
  match g.get_edge edge_index with
  | none => .err (.EdgeDoesNotExist edge_index) g
  | some edge =>
    match (g.get_vertex edge.from_).bind (fun v => v.remove_to edge_index) with
    | none => .panicked
    | some fv =>
      let g1 := g.setVertex edge.from_ fv
      match (g1.get_vertex edge.to_).bind (fun v => v.remove_from edge_index) with
      | none => .panicked
      | some tv =>
        let g2 := g1.setVertex edge.to_ tv
        match g2.edges.remove_but_maintain_generation edge_index with
        | none => .panicked
        | some (edge, es) => .ok edge.data { g2 with edges := es }

/-- The edge loop of graph.rs `Graph::remove_vertex_and_reset`
(`self.remove_edge_and_reset(edge_index).unwrap()`). -/
def remove_edges_and_reset (g : Graph V E) :
    List (Index × Index) → GRes V E Unit
  | [] => .ok () g
  | c :: rest =>
    match g.remove_edge_and_reset c.2 with
    | .ok _ g1 => remove_edges_and_reset g1 rest
    | _ => .panicked

/-- graph.rs `Graph::remove_vertex_and_reset`. -/
def remove_vertex_and_reset (g : Graph V E) (index : Index) : GRes V E V :=
  match g.get_vertex index with
  | none => .err (.VertexDoesNotExist index) g
  | some vertex =>
    let connections := vertex.connections_from ++ vertex.connections_to
    match g.remove_edges_and_reset connections with
    | .ok _ g1 =>
      match g1.verticies.remove_but_maintain_generation index with
      | none => .panicked
      | some (vertex, vs) => .ok vertex.data { g1 with verticies := vs }
    | _ => .panicked

/-- graph.rs `Graph::apply_add_vertex_diff`: the slot must be `Open` at
exactly the diff's generation; the value is written directly into the
slot (the free list is not touched by the source). -/
def apply_add_vertex_diff (g : Graph V E) (diff : AddVertex V) :
    GRes V E Unit :=
  match g.verticies.is_replaceable_by_index_apply diff.vertex_index with
  | none => .panicked
  | some false => .err .InvalidDiff g
  | some true =>
      .ok () { g with verticies :=
        ⟨g.verticies.vec.set diff.vertex_index.index
          (.Occupied (Vertex.new diff.vertex_data) diff.vertex_index.generation),
         g.verticies.next_open_slot⟩ }

/-- graph.rs `Graph::apply_add_edge_diff`. -/
def apply_add_edge_diff (g : Graph V E) (diff : AddEdge E) : GRes V E Unit :=
  match g.assert_vertex_exists diff.from_ with
  | some e => .err e g
  | none =>
  match g.assert_vertex_exists diff.to_ with
  | some e => .err e g
  | none =>
  match g.edges.is_replaceable_by_index_apply diff.edge_index with
  | none => .panicked
  | some false => .err .InvalidDiff g
  | some true =>
    let g1 : Graph V E := { g with edges :=
      ⟨g.edges.vec.set diff.edge_index.index
        (.Occupied (Edge.mk diff.from_ diff.to_ diff.edge_data)
          diff.edge_index.generation),
       g.edges.next_open_slot⟩ }
    g1.link_edge diff.from_ diff.to_ diff.edge_index

/-- graph.rs `Graph::apply_update_vertex_diff`. -/
def apply_update_vertex_diff (g : Graph V E) (diff : UpdateVertexData V) :
    GRes V E Unit :=
  match g.get_vertex_mut_lookup diff.index with
  | none => .panicked
  | some none => .err (.VertexDoesNotExist diff.index) g
  | some (some vx) => .ok () (g.setVertex diff.index { vx with data := diff.after })

/-- graph.rs `Graph::apply_update_edge_diff`. -/
def apply_update_edge_diff (g : Graph V E) (diff : UpdateEdgeData E) :
    GRes V E Unit :=
  match g.get_edge_mut_lookup diff.index with
  | none => .panicked
  | some none => .err (.EdgeDoesNotExist diff.index) g
  | some (some ed) =>
      .ok () { g with edges := g.edges.setOcc diff.index { ed with data := diff.after } }

/-- graph.rs `Graph::apply_remove_edge_diff`: re-validates, then
re-executes the normal removal path (`.expect` turns its errors into
panics). -/
def apply_remove_edge_diff (g : Graph V E) (diff : RemoveEdge E) :
    GRes V E Unit :=
  match g.assert_vertex_exists diff.edge.from_ with
  | some e => .err e g
  | none =>
  match g.assert_vertex_exists diff.edge.to_ with
  | some e => .err e g
  | none =>
  match g.assert_edge_exists diff.edge_index with
  | some e => .err e g
  | none =>
  match g.remove_edge diff.edge_index with
  | .ok _ g1 => .ok () g1
  | _ => .panicked

/-- graph.rs `Graph::apply_remove_vertex_diff`. -/
def apply_remove_vertex_diff (g : Graph V E) (diff : RemoveVertex V E) :
    GRes V E Unit :=
  match g.assert_vertex_exists diff.vertex_index with
  | some e => .err e g
  | none =>
  match g.remove_vertex diff.vertex_index with
  | .ok _ g1 => .ok () g1
  | _ => .panicked

/-- graph.rs `Graph::rollback_add_vertex_diff`. -/
def rollback_add_vertex_diff (g : Graph V E) (diff : AddVertex V) :
    GRes V E Unit :=
  match g.assert_vertex_exists diff.vertex_index with
  | some e => .err e g
  | none =>
  match g.remove_vertex_and_reset diff.vertex_index with
  | .ok _ g1 => .ok () g1
  | _ => .panicked

/-- graph.rs `Graph::rollback_add_edge_diff`. -/
def rollback_add_edge_diff (g : Graph V E) (diff : AddEdge E) :
    GRes V E Unit :=
  match g.assert_vertex_exists diff.from_ with
  | some e => .err e g
  | none =>
  match g.assert_vertex_exists diff.to_ with
  | some e => .err e g
  | none =>
  match g.assert_edge_exists diff.edge_index with
  | some e => .err e g
  | none =>
  match g.remove_edge_and_reset diff.edge_index with
  | .ok _ g1 => .ok () g1
  | _ => .panicked

/-- graph.rs `Graph::rollback_update_vertex_diff`. -/
def rollback_update_vertex_diff (g : Graph V E) (diff : UpdateVertexData V) :
    GRes V E Unit :=
  match g.get_vertex_mut_lookup diff.index with
  | none => .panicked
  | some none => .err (.VertexDoesNotExist diff.index) g
  | some (some vx) => .ok () (g.setVertex diff.index { vx with data := diff.before })

/-- graph.rs `Graph::rollback_update_edge_diff`. -/
def rollback_update_edge_diff (g : Graph V E) (diff : UpdateEdgeData E) :
    GRes V E Unit :=
  match g.get_edge_mut_lookup diff.index with
  | none => .panicked
  | some none => .err (.EdgeDoesNotExist diff.index) g
  | some (some ed) =>
      .ok () { g with edges := g.edges.setOcc diff.index { ed with data := diff.before } }

/-- graph.rs `Graph::rollback_remove_edge_diff`: the slot must be `Open`
at generation+1; the preserved edge is written back and adjacency entries
are re-pushed on both endpoints (the free list is not touched). -/
def rollback_remove_edge_diff (g : Graph V E) (diff : RemoveEdge E) :
    GRes V E Unit :=
  match g.assert_vertex_exists diff.edge.from_ with
  | some e => .err e g
  | none =>
  match g.assert_vertex_exists diff.edge.to_ with
  | some e => .err e g
  | none =>
  match g.edges.is_replaceable_by_index_rollback diff.edge_index with
  | none => .panicked
  | some false => .err .InvalidDiff g
  | some true =>
    let g1 : Graph V E := { g with edges :=
      ⟨g.edges.vec.set diff.edge_index.index
        (.Occupied diff.edge diff.edge_index.generation),
       g.edges.next_open_slot⟩ }
    g1.link_edge diff.edge.from_ diff.edge.to_ diff.edge_index

/-- The replaceability-check loop of graph.rs
`Graph::rollback_remove_vertex_diff`. -/
def check_edges_replaceable (ev : GenVec (Edge E)) :
    List (RemoveEdge E) → Option Bool
  | [] => some true
  | d :: rest =>
    match ev.is_replaceable_by_index_rollback d.edge_index with
    | none => none
    | some false => some false
    | some true => check_edges_replaceable ev rest

/-- The restore loop of graph.rs `Graph::rollback_remove_vertex_diff`:
re-link adjacency on both endpoints (`.expect` is a panic) and write the
preserved edge back into its slot (`self.edges.vec[i] = ..`, a panicking
indexed write, modelled by the range guard). -/
def restore_edges (g : Graph V E) :
    List (RemoveEdge E) → GRes V E Unit
  | [] => .ok () g
  | d :: rest =>
    match g.get_vertex d.edge.from_ with
    | none => .panicked
    | some fv =>
      let g1 := g.setVertex d.edge.from_ (fv.add_to_unchecked d.edge.to_ d.edge_index)
      match g1.get_vertex d.edge.to_ with
      | none => .panicked
      | some tv =>
        let g2 := g1.setVertex d.edge.to_ (tv.add_from_unchecked d.edge.from_ d.edge_index)
        if d.edge_index.index < g2.edges.vec.length then
          restore_edges
            { g2 with edges :=
              ⟨g2.edges.vec.set d.edge_index.index
                (.Occupied d.edge d.edge_index.generation),
               g2.edges.next_open_slot⟩ }
            rest
        else .panicked

/-- graph.rs `Graph::rollback_remove_vertex_diff`. -/
def rollback_remove_vertex_diff (g : Graph V E) (diff : RemoveVertex V E) :
    GRes V E Unit :=
  match g.verticies.is_replaceable_by_index_rollback diff.vertex_index with
  | none => .panicked
  | some false => .err .InvalidDiff g
  | some true =>
  match check_edges_replaceable g.edges diff.removed_edges with
  | none => .panicked
  | some false => .err .InvalidDiff g
  | some true =>
    let g1 : Graph V E := { g with verticies :=
      ⟨g.verticies.vec.set diff.vertex_index.index
        (.Occupied diff.vertex diff.vertex_index.generation),
       g.verticies.next_open_slot⟩ }
    g1.restore_edges diff.removed_edges

/-- graph.rs `Graph::apply_diff`. -/
def apply_diff (g : Graph V E) : GraphDiff V E → GRes V E Unit
  | .AddVertex d => g.apply_add_vertex_diff d
  | .AddEdge d => g.apply_add_edge_diff d
  | .UpdateVertexData d => g.apply_update_vertex_diff d
  | .UpdateEdgeData d => g.apply_update_edge_diff d
  | .RemoveEdge d => g.apply_remove_edge_diff d
  | .RemoveVertex d => g.apply_remove_vertex_diff d

/-- graph.rs `Graph::rollback_diff`. -/
def rollback_diff (g : Graph V E) : GraphDiff V E → GRes V E Unit
  | .AddVertex d => g.rollback_add_vertex_diff d
  | .AddEdge d => g.rollback_add_edge_diff d
  | .UpdateVertexData d => g.rollback_update_vertex_diff d
  | .UpdateEdgeData d => g.rollback_update_edge_diff d
  | .RemoveEdge d => g.rollback_remove_edge_diff d
  | .RemoveVertex d => g.rollback_remove_vertex_diff d

end Graph

/-! Specification-side definitions: occupied-entry enumeration, slot-table
operation sequences, graph operation sequences, the adjacency invariant,
free-list well-formedness, observational equivalence, and the compact
string serialization of `Index`. -/

namespace GenVec

/-- gen_vec.rs `GenVec::iter`: the occupied entries, in slot order, each
with the `Index` that currently validates for it. -/
def iter (v : GenVec T) : List (Index × T) :=
  v.vec.enum.filterMap fun p =>
    match p.2 with
    | .Occupied value gen => some (⟨p.1, gen⟩, value)
    | .Open _ _ => none

end GenVec

/-- A mutating slot-table operation (the public `GenVec` surface that can
change the table, minus `clear`). -/
inductive SOp (T : Type) where
  | add (value : T)
  | remove (i : Index)

/-- Run a list of slot-table operations; a failed `remove` returns `None`
and leaves the table unchanged (as in the source), a panicking `add`
aborts the run (`none`). -/
def runS (g : GenVec T) : List (SOp T) → Option (GenVec T)
  | [] => some g
  | .add v :: rest =>
    match g.add v with
    | none => none
    | some (_, g1) => runS g1 rest
  | .remove i :: rest =>
    match g.remove i with
    | none => runS g rest
    | some (_, g1) => runS g1 rest

/-- The slot at `i.index` exists and carries a generation strictly above
`i.generation`: the `Index` `i` is permanently stale. -/
def stale (g : GenVec T) (i : Index) : Prop :=
  ∃ e, g.vec[i.index]? = some e ∧ i.generation < e.generation

/-- One public mutating graph operation (graph.rs mutation surface). -/
inductive GOp (V E : Type) where
  | addVertex (data : V)
  | addEdge (f t : Index) (data : E)
  | updateVertex (i : Index) (data : V)
  | updateEdge (i : Index) (data : E)
  | removeEdge (i : Index)
  | removeVertex (i : Index)

/-- Execute one graph operation: an `Err` leaves the graph unchanged (the
source returns before mutating) and the run continues; a panic aborts. -/
def stepG (g : Graph V E) : GOp V E → Option (Graph V E)
  | .addVertex d => (g.add_vertex d).map Prod.snd
  | .addEdge f t d =>
    match g.add_edge f t d with
    | .ok _ g1 => some g1
    | .err _ g1 => some g1
    | .panicked => none
  | .updateVertex i d =>
    match g.update_vertex i d with
    | .ok _ g1 => some g1
    | .err _ g1 => some g1
    | .panicked => none
  | .updateEdge i d =>
    match g.update_edge i d with
    | .ok _ g1 => some g1
    | .err _ g1 => some g1
    | .panicked => none
  | .removeEdge i =>
    match g.remove_edge i with
    | .ok _ g1 => some g1
    | .err _ g1 => some g1
    | .panicked => none
  | .removeVertex i =>
    match g.remove_vertex i with
    | .ok _ g1 => some g1
    | .err _ g1 => some g1
    | .panicked => none

/-- Run a list of graph operations from a starting graph. -/
def runG (g : Graph V E) : List (GOp V E) → Option (Graph V E)
  | [] => some g
  | op :: rest =>
    match stepG g op with
    | none => none
    | some g1 => runG g1 rest

/-- Spec invariants I2 and I3 together with entry uniqueness: every live
edge is recorded once in each endpoint's matching adjacency list, every
adjacency entry resolves to a live edge whose endpoints match the vertex
holding the entry, and no adjacency list mentions the same edge twice. -/
def AdjInv (g : Graph V E) : Prop :=
  (∀ ei ed, g.get_edge ei = some ed →
     (∃ fv, g.get_vertex ed.from_ = some fv ∧ (ed.to_, ei) ∈ fv.connections_to) ∧
     (∃ tv, g.get_vertex ed.to_ = some tv ∧ (ed.from_, ei) ∈ tv.connections_from)) ∧
  (∀ vi vx, g.get_vertex vi = some vx →
     (∀ p ∈ vx.connections_to,
        ∃ ed, g.get_edge p.2 = some ed ∧ ed.from_ = vi ∧ ed.to_ = p.1) ∧
     (∀ p ∈ vx.connections_from,
        ∃ ed, g.get_edge p.2 = some ed ∧ ed.from_ = p.1 ∧ ed.to_ = vi) ∧
     (vx.connections_to.map Prod.snd).Nodup ∧
     (vx.connections_from.map Prod.snd).Nodup)

/-- Decidable form of `AdjInv`, checking every occupied slot. -/
def adjInvB (g : Graph V E) : Bool :=
  (g.edges.iter.all fun p =>
    (match g.get_vertex p.2.from_ with
     | some fv => decide ((p.2.to_, p.1) ∈ fv.connections_to)
     | none => false) &&
    (match g.get_vertex p.2.to_ with
     | some tv => decide ((p.2.from_, p.1) ∈ tv.connections_from)
     | none => false)) &&
  (g.verticies.iter.all fun p =>
    (p.2.connections_to.all fun c =>
      match g.get_edge c.2 with
      | some ed => decide (ed.from_ = p.1) && decide (ed.to_ = c.1)
      | none => false) &&
    (p.2.connections_from.all fun c =>
      match g.get_edge c.2 with
      | some ed => decide (ed.from_ = c.1) && decide (ed.to_ = p.1)
      | none => false) &&
    decide (p.2.connections_to.map Prod.snd).Nodup &&
    decide (p.2.connections_from.map Prod.snd).Nodup)

/-- The free list starting at `o` passes through exactly the slots of `l`,
all of them `Open`, ending at `none` (spec invariant I4, reachability
direction). -/
inductive ChainL (vec : List (Element T)) : Option Nat → List Nat → Prop where
  | nil : ChainL vec none []
  | cons (s : Nat) (gen : Nat) (nxt : Option Nat) (l : List Nat)
      (hs : vec[s]? = some (.Open gen nxt)) (hrest : ChainL vec nxt l) :
      ChainL vec (some s) (s :: l)

/-- Fuelled free-list check (any valid chain is duplicate-free, hence no
longer than the table). -/
def chainB (vec : List (Element T)) : Nat → Option Nat → Bool
  | _, none => true
  | 0, some _ => false
  | fuel + 1, some s =>
    match vec[s]? with
    | some (.Open _ next) => chainB vec fuel next
    | _ => false

/-- Decidable free-list soundness of a slot table. -/
def chainOk (v : GenVec T) : Bool := chainB v.vec v.vec.length v.next_open_slot

/-- Well-formed graph: adjacency invariant plus sound free lists in both
tables.  Every graph reachable through the public mutation surface from
`Graph.new` satisfies this. -/
def WF (g : Graph V E) : Prop :=
  adjInvB g = true ∧ chainOk g.verticies = true ∧ chainOk g.edges = true

/-- Observational match of two vertex lookups: both absent, or both live
with the same data and the same adjacency entries up to order. -/
def OptVertexPerm : Option (Vertex V) → Option (Vertex V) → Prop
  | none, none => True
  | some a, some b =>
      a.data = b.data ∧ a.connections_from.Perm b.connections_from ∧
        a.connections_to.Perm b.connections_to
  | _, _ => False

/-- Observational equivalence of graphs: every `Index` resolves the same
way in both — to the same live edge, and to observationally equal vertices
(same data, same adjacency entries up to order).  Free-list internals are
not observable. -/
def GraphObsEq (g g1 : Graph V E) : Prop :=
  (∀ i : Index, OptVertexPerm (g.get_vertex i) (g1.get_vertex i)) ∧
  (∀ i : Index, g.get_edge i = g1.get_edge i)

/-- Value stored in one slot element as seen by a lookup at generation
`gen`. -/
def elemLookup (e : Element T) (gen : Nat) : Option T :=
  match e with
  | .Occupied t g => if g = gen then some t else none
  | .Open _ _ => none

/-- The outgoing adjacency entries that a pass of the edge-removal loop
over `entries` deletes from vertex `w` (one `(to, e)` entry for each
listed edge whose source is `w`, edge data read in `g`). -/
def outEntriesOf (g : Graph V E) (entries : List (Index × Index)) (w : Index) :
    List (Index × Index) :=
  entries.filterMap fun p =>
    match g.get_edge p.2 with
    | some ed => if ed.from_ = w then some (ed.to_, p.2) else none
    | none => none

/-- The incoming adjacency entries that a pass of the edge-removal loop
over `entries` deletes from vertex `w`. -/
def inEntriesOf (g : Graph V E) (entries : List (Index × Index)) (w : Index) :
    List (Index × Index) :=
  entries.filterMap fun p =>
    match g.get_edge p.2 with
    | some ed => if ed.to_ = w then some (ed.from_, p.2) else none
    | none => none

/-- The outgoing adjacency entries the restore loop appends to vertex `w`
for a list of preserved edge diffs, in loop order. -/
def outEntriesD (ds : List (RemoveEdge E)) (w : Index) : List (Index × Index) :=
  ds.filterMap fun d =>
    if d.edge.from_ = w then some (d.edge.to_, d.edge_index) else none

/-- The incoming adjacency entries the restore loop appends to vertex `w`. -/
def inEntriesD (ds : List (RemoveEdge E)) (w : Index) : List (Index × Index) :=
  ds.filterMap fun d =>
    if d.edge.to_ = w then some (d.edge.from_, d.edge_index) else none

/-- Proof-level invariant carried through operation sequences: the
adjacency invariant plus valid free-list chains in both tables. -/
def InvP (g : Graph V E) : Prop :=
  AdjInv g ∧
  (∃ l, ChainL g.verticies.vec g.verticies.next_open_slot l) ∧
  (∃ l, ChainL g.edges.vec g.edges.next_open_slot l)

/-! The compact string form of `Index` (gen_vec.rs `Serialize` /
`Deserialize` for `Index`, strings modelled as `List Char`). -/

/-- Bound of Rust `usize` (64-bit target). -/
def USIZE : Nat := 2 ^ 64

/-- Bound of Rust `u32`. -/
def U32 : Nat := 2 ^ 32

/-- ASCII decimal digit test. -/
def isDigitCh (c : Char) : Bool := 48 ≤ c.toNat && c.toNat ≤ 57

/-- The ASCII digit character for `d < 10`. -/
def digitCh (d : Nat) : Char := Char.ofNat (48 + d)

/-- Decimal digits of `n`, most significant first (the output of Rust's
`{}` formatting of an unsigned integer). -/
def natToDigits (n : Nat) : List Char :=
  if h : n < 10 then [digitCh n]
  else
    have : n / 10 < n := Nat.div_lt_self (by omega) (by omega)
    natToDigits (n / 10) ++ [digitCh (n % 10)]

/-- Value of a digit string, most significant first. -/
def digitsVal (l : List Char) : Nat :=
  l.foldl (fun acc c => acc * 10 + (c.toNat - 48)) 0

/-- Strip one optional leading '+' (Rust's integer `FromStr` accepts it). -/
def stripPlus (l : List Char) : List Char :=
  match l with
  | [] => []
  | c :: rest => if c = '+' then rest else c :: rest

/-- Rust `str::parse` for an unsigned integer type with exclusive bound
`bound`: an optional leading '+', then one or more ASCII digits, and the
value must fit (overflow is a parse error). -/
def parseUnsigned (bound : Nat) (l : List Char) : Option Nat :=
  let digits := stripPlus l
  if digits.isEmpty then none
  else if digits.all isDigitCh then
    if digitsVal digits < bound then some (digitsVal digits) else none
  else none

/-- Rust `str::split_once`: split at the first occurrence of `c`. -/
def splitOnce (l : List Char) (c : Char) : Option (List Char × List Char) :=
  match l with
  | [] => none
  | x :: xs =>
      if x = c then some ([], xs)
      else (splitOnce xs c).map fun p => (x :: p.1, p.2)

/-- gen_vec.rs `impl Serialize for Index`: the string
`"{index}.{generation}"`. -/
def serializeIndex (i : Index) : List Char :=
  natToDigits i.index ++ '.' :: natToDigits i.generation

/-- gen_vec.rs `impl Deserialize for Index` (`visit_str`): split at the
first '.', parse the left part as `usize` and the right as `u32`; any
failure is a decode error (`none`). -/
def deserializeIndex (l : List Char) : Option Index :=
  match splitOnce l '.' with
  | none => none
  | some (index_str, generation_str) =>
    match parseUnsigned USIZE index_str with
    | none => none
    | some idx =>
      match parseUnsigned U32 generation_str with
      | none => none
      | some gen => some ⟨idx, gen⟩

/-! ### Theorems -/

/-- Claim C6 (code bug): the spec's failure policy says public graph
operations never panic on caller-supplied bad indices, but `GenVec::get_mut`
indexes `self.vec[index.index]` directly, so `update_vertex` (and
`get_vertex_data_mut`) panic with an out-of-range index — for example any
index on an empty graph — while the read path `get_vertex` safely returns
`None` on the very same index. -/
theorem C6_bad_index_panics :
    Graph.update_vertex (Graph.new : Graph Nat Nat) ⟨0, 0⟩ 5 = GRes.panicked ∧
    Graph.get_vertex_data_mut_lookup (Graph.new : Graph Nat Nat) ⟨0, 0⟩ = none ∧
    Graph.get_vertex (Graph.new : Graph Nat Nat) ⟨0, 0⟩ = none := by
  exact ⟨rfl, rfl, rfl⟩

/-- Claim C7 (code bug): `GenVec::clear` empties the element array but
does not reset `next_open_slot`, so a table that had a free-list head is
not equivalent to a fresh table after `clear()`: the head still points at
a (now nonexistent) slot and the very next `add` panics with an
out-of-bounds index instead of appending at slot 0 — unlike a fresh
table, on which `add` appends at slot 0 with generation 0. -/
theorem C7_clear_leaves_free_list :
    GenVec.add (GenVec.new : GenVec Nat) 5 =
      some (⟨0, 0⟩, ⟨[.Occupied 5 0], none⟩) ∧
    GenVec.remove (⟨[.Occupied 5 0], none⟩ : GenVec Nat) ⟨0, 0⟩ =
      some (5, ⟨[.Open 1 none], some 0⟩) ∧
    GenVec.clear (⟨[.Open 1 none], some 0⟩ : GenVec Nat) = ⟨[], some 0⟩ ∧
    GenVec.add (⟨[], some 0⟩ : GenVec Nat) 7 = none ∧
    GenVec.add (GenVec.new : GenVec Nat) 7 =
      some (⟨0, 0⟩, ⟨[.Occupied 7 0], none⟩) := by
  exact ⟨rfl, rfl, rfl, rfl, rfl⟩

/-- Claim C5 (code bug): a vertex with a self-loop is live and has exactly
one incident edge, but `remove_vertex` panics on it instead of succeeding:
the loop edge appears in both adjacency lists, so the collected connection
list mentions it twice, and the second `remove_edge_internal(..).unwrap()`
hits `EdgeDoesNotExist`.  The first two conjuncts build the graph through
the public API; the third is the panic. -/
theorem C5_remove_vertex_self_loop_panics :
    Graph.add_vertex (Graph.new : Graph Nat Nat) 0 =
      some ((⟨0, 0⟩, .AddVertex ⟨⟨0, 0⟩, 0⟩),
        ⟨⟨[.Occupied ⟨[], [], 0⟩ 0], none⟩, ⟨[], none⟩⟩) ∧
    Graph.add_edge
        (⟨⟨[.Occupied ⟨[], [], 0⟩ 0], none⟩, ⟨[], none⟩⟩ : Graph Nat Nat)
        ⟨0, 0⟩ ⟨0, 0⟩ 5 =
      .ok (⟨0, 0⟩, .AddEdge ⟨⟨0, 0⟩, ⟨0, 0⟩, ⟨0, 0⟩, 5⟩)
        ⟨⟨[.Occupied ⟨[(⟨0, 0⟩, ⟨0, 0⟩)], [(⟨0, 0⟩, ⟨0, 0⟩)], 0⟩ 0], none⟩,
         ⟨[.Occupied ⟨⟨0, 0⟩, ⟨0, 0⟩, 5⟩ 0], none⟩⟩ ∧
    Graph.remove_vertex
        (⟨⟨[.Occupied ⟨[(⟨0, 0⟩, ⟨0, 0⟩)], [(⟨0, 0⟩, ⟨0, 0⟩)], 0⟩ 0], none⟩,
          ⟨[.Occupied ⟨⟨0, 0⟩, ⟨0, 0⟩, 5⟩ 0], none⟩⟩ : Graph Nat Nat)
        ⟨0, 0⟩ = .panicked := by
  exact ⟨rfl, rfl, rfl⟩

/-! Support for claim C3: a successful `remove` makes the index stale, the
mutating operations `add`/`remove` keep it stale, and a stale index never
resolves. -/

theorem GenVec.get_eq_some_iff {v : GenVec T} {i : Index} {t : T} :
    v.get i = some t ↔ v.vec[i.index]? = some (.Occupied t i.generation) := by
  unfold GenVec.get
  rcases h : v.vec[i.index]? with - | e
  · simp
  · cases e with
    | Occupied value gen =>
        by_cases hg : gen = i.generation <;> simp [hg]
    | Open gen nxt => simp


theorem GenVec.stale_get {v : GenVec T} {i : Index} (h : stale v i) :
    v.get i = none := by
  obtain ⟨e, he, hgen⟩ := h
  unfold GenVec.get
  rw [he]
  cases e with
  | Occupied value gen =>
      simp only [Element.generation] at hgen
      simp [Nat.ne_of_gt hgen]
  | Open gen nxt => rfl

theorem GenVec.stale_get_mut {v : GenVec T} {i : Index} (h : stale v i) :
    v.get_mut_lookup i = some none := by
  obtain ⟨e, he, hgen⟩ := h
  unfold GenVec.get_mut_lookup
  rw [he]
  cases e with
  | Occupied value gen =>
      simp only [Element.generation] at hgen
      simp [Nat.ne_of_gt hgen]
  | Open gen nxt => rfl

theorem GenVec.stale_remove {v : GenVec T} {i : Index} (h : stale v i) :
    v.remove i = none := by
  unfold GenVec.remove
  rw [GenVec.stale_get h]

theorem GenVec.add_spec_append {v : GenVec T} {x : T}
    (hh : v.next_open_slot = none) :
    v.add x = some (⟨v.vec.length, 0⟩, ⟨v.vec ++ [.Occupied x 0], none⟩) := by
  simp [GenVec.add, hh]

theorem GenVec.add_spec_reuse {v : GenVec T} {x : T} {s : Nat} {e : Element T}
    (hh : v.next_open_slot = some s) (hs : v.vec[s]? = some e) :
    v.add x = some (⟨s, e.generation⟩,
      ⟨v.vec.set s (.Occupied x e.generation), e.next_open⟩) := by
  simp [GenVec.add, hh, hs]

theorem GenVec.add_spec_panic {v : GenVec T} {x : T} {s : Nat}
    (hh : v.next_open_slot = some s) (hs : v.vec[s]? = none) :
    v.add x = none := by
  simp [GenVec.add, hh, hs]

theorem GenVec.remove_spec {v : GenVec T} {i : Index} {value : T}
    (hg : v.get i = some value) :
    v.remove i = some (value,
      ⟨v.vec.set i.index (.Open (i.generation + 1) v.next_open_slot),
       some i.index⟩) := by
  simp [GenVec.remove, hg]

theorem GenVec.remove_but_maintain_generation_spec {v : GenVec T} {i : Index}
    {value : T} (hg : v.get i = some value) :
    v.remove_but_maintain_generation i = some (value,
      ⟨v.vec.set i.index (.Open i.generation v.next_open_slot),
       some i.index⟩) := by
  simp [GenVec.remove_but_maintain_generation, hg]

theorem GenVec.get_index_lt {v : GenVec T} {i : Index} {value : T}
    (hg : v.get i = some value) : i.index < v.vec.length :=
  (List.getElem?_eq_some.mp (GenVec.get_eq_some_iff.mp hg)).1

theorem GenVec.remove_makes_stale {v v1 : GenVec T} {i : Index} {x : T}
    (h : v.remove i = some (x, v1)) : stale v1 i := by
  rcases hg : v.get i with - | value
  · rw [GenVec.remove, hg] at h; exact absurd h (by simp)
  · rw [GenVec.remove_spec hg] at h
    obtain ⟨-, hv1⟩ := Prod.mk.injEq .. ▸ (Option.some_injective _ h)
    refine ⟨.Open (i.generation + 1) v.next_open_slot, ?_, by simp [Element.generation]⟩
    rw [← hv1]
    exact List.getElem?_set_self (GenVec.get_index_lt hg)

theorem GenVec.add_preserves_stale {v v1 : GenVec T} {i j : Index} {x : T}
    (h : stale v i) (hadd : v.add x = some (j, v1)) : stale v1 i := by
  obtain ⟨e, he, hgen⟩ := h
  rcases hh : v.next_open_slot with - | s
  · rw [GenVec.add_spec_append hh] at hadd
    obtain ⟨-, hv1⟩ := Prod.mk.injEq .. ▸ (Option.some_injective _ hadd)
    refine ⟨e, ?_, hgen⟩
    rw [← hv1]
    have hlt : i.index < v.vec.length := (List.getElem?_eq_some.mp he).1
    simpa [List.getElem?_append_left hlt] using he
  · rcases hs : v.vec[s]? with - | es
    · rw [GenVec.add_spec_panic hh hs] at hadd; exact absurd hadd (by simp)
    · rw [GenVec.add_spec_reuse hh hs] at hadd
      obtain ⟨-, hv1⟩ := Prod.mk.injEq .. ▸ (Option.some_injective _ hadd)
      by_cases hsi : s = i.index
      · subst hsi
        have : es = e := by rw [hs] at he; exact Option.some_injective _ he
        subst this
        refine ⟨.Occupied x es.generation, ?_, hgen⟩
        rw [← hv1]
        exact List.getElem?_set_self (List.getElem?_eq_some.mp hs).1
      · refine ⟨e, ?_, hgen⟩
        rw [← hv1]
        simpa [List.getElem?_set_ne hsi] using he

theorem GenVec.remove_preserves_stale {v v1 : GenVec T} {i j : Index} {x : T}
    (h : stale v i) (hrem : v.remove j = some (x, v1)) : stale v1 i := by
  obtain ⟨e, he, hgen⟩ := h
  rcases hg : v.get j with - | value
  · rw [GenVec.remove, hg] at hrem; exact absurd hrem (by simp)
  · rw [GenVec.remove_spec hg] at hrem
    obtain ⟨-, hv1⟩ := Prod.mk.injEq .. ▸ (Option.some_injective _ hrem)
    have hvec : v.vec[j.index]? = some (.Occupied value j.generation) :=
      GenVec.get_eq_some_iff.mp hg
    by_cases hji : j.index = i.index
    · rw [hji] at hvec
      have he2 : Element.Occupied value j.generation = e := by
        rw [hvec] at he; exact Option.some_injective _ he
      refine ⟨.Open (j.generation + 1) v.next_open_slot, ?_, ?_⟩
      · rw [← hv1, ← hji]
        exact List.getElem?_set_self
          (hji ▸ (List.getElem?_eq_some.mp hvec).1)
      · have : e.generation = j.generation := by rw [← he2]; rfl
        simp only [Element.generation]
        omega
    · refine ⟨e, ?_, hgen⟩
      rw [← hv1]
      simpa [List.getElem?_set_ne hji] using he

theorem runS_preserves_stale {v vf : GenVec T} {i : Index} {ops : List (SOp T)}
    (h : stale v i) (hrun : runS v ops = some vf) : stale vf i := by
  induction ops generalizing v with
  | nil =>
      simp only [runS] at hrun
      exact (Option.some_injective _ hrun) ▸ h
  | cons op rest ih =>
    cases op with
    | add x =>
      unfold runS at hrun
      rcases ha : v.add x with - | p
      · rw [ha] at hrun; exact absurd hrun (by simp)
      · rw [ha] at hrun
        exact ih (GenVec.add_preserves_stale h ha) hrun
    | remove j =>
      unfold runS at hrun
      rcases hr : v.remove j with - | p
      · rw [hr] at hrun; exact ih h hrun
      · rw [hr] at hrun
        exact ih (GenVec.remove_preserves_stale h hr) hrun

/-- Claim C3 (amended): once a value at Index `i` has been removed, any
later sequence of the mutating table operations `add`/`remove` — `clear`
excluded — leaves `i` permanently unresolvable: `get`, `get_mut` and
`remove` at `i` all answer "absent" (and `get_mut` does not panic), even
when a later `add` reuses the same slot number. -/
theorem C3_stale_index_rejection {v v1 vf : GenVec T} {i : Index} {x : T}
    (hrem : v.remove i = some (x, v1)) (ops : List (SOp T))
    (hrun : runS v1 ops = some vf) :
    vf.get i = none ∧ vf.get_mut_lookup i = some none ∧ vf.remove i = none := by
  have hstale : stale vf i :=
    runS_preserves_stale (GenVec.remove_makes_stale hrem) hrun
  exact ⟨GenVec.stale_get hstale, GenVec.stale_get_mut hstale,
    GenVec.stale_remove hstale⟩

/-- Witness for C3: remove the only entry, then add a value that reuses
slot 0; the captured index no longer resolves. -/
theorem C3_stale_index_rejection_witness :
    GenVec.get (⟨[.Occupied 7 1], none⟩ : GenVec Nat) ⟨0, 0⟩ = none ∧
    GenVec.get_mut_lookup (⟨[.Occupied 7 1], none⟩ : GenVec Nat) ⟨0, 0⟩ = some none ∧
    GenVec.remove (⟨[.Occupied 7 1], none⟩ : GenVec Nat) ⟨0, 0⟩ = none :=
  C3_stale_index_rejection (v := ⟨[.Occupied 5 0], none⟩) (x := 5) rfl
    [.add 7] rfl

/-- Counterexample for C3 as stated: with `clear` among the slot-table
operations, a stale index resolves to a different live value afterward —
add 5 at slot 0, remove it, add 7 (reusing slot 0 at generation 1), then
`clear` and add 9: the cleared table restarts at generation 0, so the
stale index `(0,0)` now resolves to the new value 9. -/
theorem C3_clear_breaks_staleness :
    GenVec.add (GenVec.new : GenVec Nat) 5 =
      some (⟨0, 0⟩, ⟨[.Occupied 5 0], none⟩) ∧
    GenVec.remove (⟨[.Occupied 5 0], none⟩ : GenVec Nat) ⟨0, 0⟩ =
      some (5, ⟨[.Open 1 none], some 0⟩) ∧
    GenVec.add (⟨[.Open 1 none], some 0⟩ : GenVec Nat) 7 =
      some (⟨0, 1⟩, ⟨[.Occupied 7 1], none⟩) ∧
    GenVec.clear (⟨[.Occupied 7 1], none⟩ : GenVec Nat) = ⟨[], none⟩ ∧
    GenVec.add (⟨[], none⟩ : GenVec Nat) 9 =
      some (⟨0, 0⟩, ⟨[.Occupied 9 0], none⟩) ∧
    GenVec.get (⟨[.Occupied 9 0], none⟩ : GenVec Nat) ⟨0, 0⟩ = some 9 := by
  exact ⟨rfl, rfl, rfl, rfl, rfl, rfl⟩

/-- Claim C8 (confirmed): `add` with a set free-list head reuses exactly
that slot — it unlinks the slot (the head becomes the slot's `next`),
stores `Occupied` with the generation the `Open` slot already carried (no
increment), and returns that slot/generation as the `Index`; with an empty
free list it appends a new slot at the end with generation 0. -/
theorem C8_add_contract (v : GenVec T) (x : T) :
    (∀ s gen nxt, v.next_open_slot = some s →
      v.vec[s]? = some (.Open gen nxt) →
      v.add x = some (⟨s, gen⟩, ⟨v.vec.set s (.Occupied x gen), nxt⟩)) ∧
    (v.next_open_slot = none →
      v.add x = some (⟨v.vec.length, 0⟩, ⟨v.vec ++ [.Occupied x 0], none⟩)) := by
  constructor
  · intro s gen nxt hh hs
    simpa [Element.generation, Element.next_open] using
      GenVec.add_spec_reuse (x := x) hh hs
  · intro hh
    exact GenVec.add_spec_append hh

/-- Witness for C8: both branches of the contract at concrete tables. -/
theorem C8_add_contract_witness :
    GenVec.add (⟨[.Open 4 none], some 0⟩ : GenVec Nat) 9 =
      some (⟨0, 4⟩, ⟨[.Occupied 9 4], none⟩) ∧
    GenVec.add (GenVec.new : GenVec Nat) 9 =
      some (⟨0, 0⟩, ⟨[.Occupied 9 0], none⟩) :=
  ⟨(C8_add_contract (⟨[.Open 4 none], some 0⟩ : GenVec Nat) 9).1 0 4 none rfl rfl,
   (C8_add_contract (GenVec.new : GenVec Nat) 9).2 rfl⟩

/-! Support for updates and in-place writes at a live slot. -/

theorem Index.ext_iff2 {i j : Index} :
    i = j ↔ i.index = j.index ∧ i.generation = j.generation := by
  cases i; cases j; simp

theorem GenVec.get_mut_lookup_eq_get {v : GenVec T} {i : Index} {t : T} :
    v.get_mut_lookup i = some (some t) ↔ v.get i = some t := by
  unfold GenVec.get_mut_lookup GenVec.get
  rcases h : v.vec[i.index]? with - | e
  · simp
  · cases e with
    | Occupied value gen => by_cases hg : gen = i.generation <;> simp [hg]
    | Open gen nxt => simp

theorem GenVec.get_setOcc_self {v : GenVec T} {i : Index} {t t2 : T}
    (hg : v.get i = some t) : (v.setOcc i t2).get i = some t2 := by
  rw [GenVec.get_eq_some_iff]
  exact List.getElem?_set_self (GenVec.get_index_lt hg)

theorem GenVec.get_setOcc_ne {v : GenVec T} {i j : Index} {t t2 : T}
    (hg : v.get i = some t) (hj : j ≠ i) : (v.setOcc i t2).get j = v.get j := by
  by_cases hidx : j.index = i.index
  · have hgen : j.generation ≠ i.generation := by
      intro hg2; exact hj (Index.ext_iff2.mpr ⟨hidx, hg2⟩)
    have hvec : v.vec[i.index]? = some (.Occupied t i.generation) :=
      GenVec.get_eq_some_iff.mp hg
    unfold GenVec.get GenVec.setOcc
    rw [show ((⟨v.vec.set i.index (.Occupied t2 i.generation),
        v.next_open_slot⟩ : GenVec T)).vec = v.vec.set i.index
        (.Occupied t2 i.generation) from rfl]
    rw [hidx, List.getElem?_set_self (GenVec.get_index_lt hg), hvec]
    have hne : i.generation ≠ j.generation := fun h => hgen h.symm
    simp [hne]
  · unfold GenVec.get GenVec.setOcc
    rw [show ((⟨v.vec.set i.index (.Occupied t2 i.generation),
        v.next_open_slot⟩ : GenVec T)).vec = v.vec.set i.index
        (.Occupied t2 i.generation) from rfl]
    rw [List.getElem?_set_ne (fun h => hidx h.symm)]

theorem Graph.update_vertex_spec {g : Graph V E} {i : Index} {vx : Vertex V}
    (hg : g.get_vertex i = some vx) (x : V) :
    g.update_vertex i x =
      .ok (vx.data, .UpdateVertexData ⟨i, vx.data, x⟩)
        (g.setVertex i { vx with data := x }) := by
  unfold Graph.update_vertex
  rw [show g.get_vertex_mut_lookup i = some (some vx) from
    GenVec.get_mut_lookup_eq_get.mpr hg]

theorem Graph.update_edge_spec {g : Graph V E} {i : Index} {ed : Edge E}
    (hg : g.get_edge i = some ed) (x : E) :
    g.update_edge i x =
      .ok (ed.data, .UpdateEdgeData ⟨i, ed.data, x⟩)
        { g with edges := g.edges.setOcc i { ed with data := x } } := by
  unfold Graph.update_edge
  rw [show g.get_edge_mut_lookup i = some (some ed) from
    GenVec.get_mut_lookup_eq_get.mpr hg]

theorem Graph.update_vertex_panic {g : Graph V E} {i : Index} (x : V)
    (hm : g.get_vertex_mut_lookup i = none) :
    g.update_vertex i x = .panicked := by
  unfold Graph.update_vertex
  rw [hm]

theorem Graph.update_vertex_err {g : Graph V E} {i : Index} (x : V)
    (hm : g.get_vertex_mut_lookup i = some none) :
    g.update_vertex i x = .err (.VertexDoesNotExist i) g := by
  unfold Graph.update_vertex
  rw [hm]

theorem Graph.update_edge_panic {g : Graph V E} {i : Index} (x : E)
    (hm : g.get_edge_mut_lookup i = none) :
    g.update_edge i x = .panicked := by
  unfold Graph.update_edge
  rw [hm]

theorem Graph.update_edge_err {g : Graph V E} {i : Index} (x : E)
    (hm : g.get_edge_mut_lookup i = some none) :
    g.update_edge i x = .err (.EdgeDoesNotExist i) g := by
  unfold Graph.update_edge
  rw [hm]

theorem Graph.update_vertex_ok_inv {g g1 : Graph V E} {i : Index} {x old : V}
    {d : GraphDiff V E} (h : g.update_vertex i x = .ok (old, d) g1) :
    ∃ vx, g.get_vertex i = some vx ∧ old = vx.data ∧
      g1 = g.setVertex i { vx with data := x } := by
  rcases hm : g.get_vertex_mut_lookup i with - | r
  · rw [Graph.update_vertex_panic x hm] at h; exact absurd h (by simp)
  · rcases r with - | vx
    · rw [Graph.update_vertex_err x hm] at h; exact absurd h (by simp)
    · have hg := GenVec.get_mut_lookup_eq_get.mp hm
      rw [Graph.update_vertex_spec hg x] at h
      injection h with h1 h2
      exact ⟨vx, hg, (congrArg Prod.fst h1).symm, h2.symm⟩

theorem Graph.update_edge_ok_inv {g g1 : Graph V E} {i : Index} {x old : E}
    {d : GraphDiff V E} (h : g.update_edge i x = .ok (old, d) g1) :
    ∃ ed, g.get_edge i = some ed ∧ old = ed.data ∧
      g1 = { g with edges := g.edges.setOcc i { ed with data := x } } := by
  rcases hm : g.get_edge_mut_lookup i with - | r
  · rw [Graph.update_edge_panic x hm] at h; exact absurd h (by simp)
  · rcases r with - | ed
    · rw [Graph.update_edge_err x hm] at h; exact absurd h (by simp)
    · have hg := GenVec.get_mut_lookup_eq_get.mp hm
      rw [Graph.update_edge_spec hg x] at h
      injection h with h1 h2
      exact ⟨ed, hg, (congrArg Prod.fst h1).symm, h2.symm⟩

/-- Claim C10 (confirmed): a successful `update_vertex` changes only the
data field of the addressed vertex — it returns the previous data, keeps
that vertex's two adjacency lists, leaves every other vertex lookup, the
entire edge table (including its free list) and the vertex table's free
list untouched; symmetrically for `update_edge`. -/
theorem C10_update_frame (g : Graph V E) (i : Index) :
    (∀ (x old : V) (d : GraphDiff V E) (g1 : Graph V E),
      g.update_vertex i x = .ok (old, d) g1 →
      ∃ vx, g.get_vertex i = some vx ∧ old = vx.data ∧
        g1.get_vertex i = some ⟨vx.connections_from, vx.connections_to, x⟩ ∧
        (∀ j, j ≠ i → g1.get_vertex j = g.get_vertex j) ∧
        g1.edges = g.edges ∧
        g1.verticies.next_open_slot = g.verticies.next_open_slot) ∧
    (∀ (y old : E) (d : GraphDiff V E) (g1 : Graph V E),
      g.update_edge i y = .ok (old, d) g1 →
      ∃ ed, g.get_edge i = some ed ∧ old = ed.data ∧
        g1.get_edge i = some ⟨ed.from_, ed.to_, y⟩ ∧
        (∀ j, j ≠ i → g1.get_edge j = g.get_edge j) ∧
        g1.verticies = g.verticies ∧
        g1.edges.next_open_slot = g.edges.next_open_slot) := by
  constructor
  · intro x old d g1 h
    obtain ⟨vx, hg, hold, hg1⟩ := Graph.update_vertex_ok_inv h
    subst hg1
    refine ⟨vx, hg, hold, ?_, ?_, rfl, rfl⟩
    · exact GenVec.get_setOcc_self hg
    · intro j hj
      exact GenVec.get_setOcc_ne hg hj
  · intro y old d g1 h
    obtain ⟨ed, hg, hold, hg1⟩ := Graph.update_edge_ok_inv h
    subst hg1
    refine ⟨ed, hg, hold, ?_, ?_, rfl, rfl⟩
    · exact GenVec.get_setOcc_self hg
    · intro j hj
      exact GenVec.get_setOcc_ne hg hj

/-- Witness for C10: on a concrete one-vertex, one-self-loop graph, the
frame parts of both conjuncts at the untouched index `(1,1)`. -/
theorem C10_update_frame_witness :
    Graph.get_vertex
      (⟨⟨[.Occupied ⟨[(⟨0, 0⟩, ⟨0, 0⟩)], [(⟨0, 0⟩, ⟨0, 0⟩)], 3⟩ 0], none⟩,
        ⟨[.Occupied ⟨⟨0, 0⟩, ⟨0, 0⟩, 5⟩ 0], none⟩⟩ : Graph Nat Nat) ⟨1, 1⟩ =
    Graph.get_vertex
      (⟨⟨[.Occupied ⟨[(⟨0, 0⟩, ⟨0, 0⟩)], [(⟨0, 0⟩, ⟨0, 0⟩)], 0⟩ 0], none⟩,
        ⟨[.Occupied ⟨⟨0, 0⟩, ⟨0, 0⟩, 5⟩ 0], none⟩⟩ : Graph Nat Nat) ⟨1, 1⟩ ∧
    Graph.get_edge
      (⟨⟨[.Occupied ⟨[(⟨0, 0⟩, ⟨0, 0⟩)], [(⟨0, 0⟩, ⟨0, 0⟩)], 0⟩ 0], none⟩,
        ⟨[.Occupied ⟨⟨0, 0⟩, ⟨0, 0⟩, 7⟩ 0], none⟩⟩ : Graph Nat Nat) ⟨1, 1⟩ =
    Graph.get_edge
      (⟨⟨[.Occupied ⟨[(⟨0, 0⟩, ⟨0, 0⟩)], [(⟨0, 0⟩, ⟨0, 0⟩)], 0⟩ 0], none⟩,
        ⟨[.Occupied ⟨⟨0, 0⟩, ⟨0, 0⟩, 5⟩ 0], none⟩⟩ : Graph Nat Nat) ⟨1, 1⟩ := by
  constructor
  · obtain ⟨vx, h1, h2, h3, h4, h5, h6⟩ :=
      (C10_update_frame
        (⟨⟨[.Occupied ⟨[(⟨0, 0⟩, ⟨0, 0⟩)], [(⟨0, 0⟩, ⟨0, 0⟩)], 0⟩ 0], none⟩,
          ⟨[.Occupied ⟨⟨0, 0⟩, ⟨0, 0⟩, 5⟩ 0], none⟩⟩ : Graph Nat Nat) ⟨0, 0⟩).1
        3 0 (.UpdateVertexData ⟨⟨0, 0⟩, 0, 3⟩)
        (⟨⟨[.Occupied ⟨[(⟨0, 0⟩, ⟨0, 0⟩)], [(⟨0, 0⟩, ⟨0, 0⟩)], 3⟩ 0], none⟩,
          ⟨[.Occupied ⟨⟨0, 0⟩, ⟨0, 0⟩, 5⟩ 0], none⟩⟩) rfl
    exact h4 ⟨1, 1⟩ (by decide)
  · obtain ⟨ed, h1, h2, h3, h4, h5, h6⟩ :=
      (C10_update_frame
        (⟨⟨[.Occupied ⟨[(⟨0, 0⟩, ⟨0, 0⟩)], [(⟨0, 0⟩, ⟨0, 0⟩)], 0⟩ 0], none⟩,
          ⟨[.Occupied ⟨⟨0, 0⟩, ⟨0, 0⟩, 5⟩ 0], none⟩⟩ : Graph Nat Nat) ⟨0, 0⟩).2
        7 5 (.UpdateEdgeData ⟨⟨0, 0⟩, 5, 7⟩)
        (⟨⟨[.Occupied ⟨[(⟨0, 0⟩, ⟨0, 0⟩)], [(⟨0, 0⟩, ⟨0, 0⟩)], 0⟩ 0], none⟩,
          ⟨[.Occupied ⟨⟨0, 0⟩, ⟨0, 0⟩, 7⟩ 0], none⟩⟩) rfl
    exact h4 ⟨1, 1⟩ (by decide)

/-! Support for claim C9: decimal printing/parsing of `Index`. -/

theorem digitCh_toNat {d : Nat} (h : d < 10) : (digitCh d).toNat = 48 + d := by
  have hv : Nat.isValidChar (48 + d) := by
    unfold Nat.isValidChar
    left; omega
  rw [digitCh, Char.ofNat, dif_pos hv]
  simp [Char.toNat, Char.ofNatAux, UInt32.toNat, UInt32.ofNatCore]

theorem isDigitCh_digitCh {d : Nat} (h : d < 10) : isDigitCh (digitCh d) = true := by
  simp [isDigitCh, digitCh_toNat h]
  omega

theorem natToDigits_all_digits (n : Nat) :
    ∀ c ∈ natToDigits n, isDigitCh c = true := by
  induction n using Nat.strong_induction_on with
  | _ n ih =>
    intro c hc
    unfold natToDigits at hc
    by_cases h : n < 10
    · rw [dif_pos h] at hc
      rcases List.mem_singleton.mp hc with rfl
      exact isDigitCh_digitCh h
    · rw [dif_neg h] at hc
      rcases List.mem_append.mp hc with h2 | h2
      · exact ih (n / 10) (Nat.div_lt_self (by omega) (by omega)) c h2
      · rcases List.mem_singleton.mp h2 with rfl
        exact isDigitCh_digitCh (Nat.mod_lt _ (by omega))

theorem natToDigits_ne_nil (n : Nat) : natToDigits n ≠ [] := by
  unfold natToDigits
  by_cases h : n < 10
  · rw [dif_pos h]; simp
  · rw [dif_neg h]; simp

theorem digitsVal_append_single (l : List Char) (c : Char) :
    digitsVal (l ++ [c]) = digitsVal l * 10 + (c.toNat - 48) := by
  simp [digitsVal, List.foldl_append]

theorem digitsVal_natToDigits (n : Nat) : digitsVal (natToDigits n) = n := by
  induction n using Nat.strong_induction_on with
  | _ n ih =>
    unfold natToDigits
    by_cases h : n < 10
    · rw [dif_pos h]
      simp [digitsVal, digitCh_toNat h]
    · rw [dif_neg h]
      rw [digitsVal_append_single,
        ih (n / 10) (Nat.div_lt_self (by omega) (by omega)),
        digitCh_toNat (Nat.mod_lt _ (by omega))]
      omega

theorem isDigitCh_ne {c x : Char} (hc : isDigitCh c = true)
    (hx : x.toNat < 48) : c ≠ x := by
  intro h
  subst h
  simp [isDigitCh] at hc
  omega

theorem stripPlus_of_digits {l : List Char} (hne : l ≠ [])
    (hd : ∀ c ∈ l, isDigitCh c = true) : stripPlus l = l := by
  cases l with
  | nil => exact absurd rfl hne
  | cons c rest =>
    have : c ≠ '+' := isDigitCh_ne (hd c (by simp)) (by decide)
    simp [stripPlus, this]

theorem parseUnsigned_natToDigits {bound n : Nat} (h : n < bound) :
    parseUnsigned bound (natToDigits n) = some n := by
  unfold parseUnsigned
  rw [stripPlus_of_digits (natToDigits_ne_nil n) (natToDigits_all_digits n)]
  rw [if_neg (by simp [List.isEmpty_iff, natToDigits_ne_nil n]),
    if_pos (List.all_eq_true.mpr (natToDigits_all_digits n))]
  rw [digitsVal_natToDigits]
  exact if_pos h

theorem splitOnce_not_mem {l : List Char} {c : Char} (h : c ∉ l) :
    splitOnce l c = none := by
  induction l with
  | nil => rfl
  | cons x xs ih =>
    have hx : ¬ (x = c) := by rintro rfl; exact h (by simp)
    simp [splitOnce, hx, ih (fun hm => h (by simp [hm]))]

theorem splitOnce_append {s1 : List Char} (s2 : List Char) {c : Char}
    (h : c ∉ s1) : splitOnce (s1 ++ c :: s2) c = some (s1, s2) := by
  induction s1 with
  | nil => simp [splitOnce]
  | cons x xs ih =>
    have hx : ¬ (x = c) := by rintro rfl; exact h (by simp)
    simp [splitOnce, hx, ih (fun hm => h (by simp [hm]))]

theorem dot_not_mem_natToDigits (n : Nat) : '.' ∉ natToDigits n := by
  intro h
  exact isDigitCh_ne (natToDigits_all_digits n _ h) (by decide) rfl

/-- Claim C9 (confirmed): serializing an `Index` yields exactly the string
`"{slot}.{generation}"` and deserializing it returns the identical pair
(for values representable in `usize`/`u32`, which every real `Index` is);
strings without a '.' separator are rejected, and so are strings whose
slot part or generation part does not parse as the unsigned integer of
the expected width. -/
theorem C9_index_string_round_trip (i : Index) (s s1 s2 : List Char)
    (hidx : i.index < USIZE) (hgen : i.generation < U32)
    (hs : '.' ∉ s) (hs1 : '.' ∉ s1) :
    serializeIndex i = natToDigits i.index ++ '.' :: natToDigits i.generation ∧
    deserializeIndex (serializeIndex i) = some i ∧
    deserializeIndex s = none ∧
    (parseUnsigned USIZE s1 = none → deserializeIndex (s1 ++ '.' :: s2) = none) ∧
    (parseUnsigned U32 s2 = none →
      parseUnsigned USIZE s1 ≠ none → deserializeIndex (s1 ++ '.' :: s2) = none) := by
  refine ⟨rfl, ?_, ?_, ?_, ?_⟩
  · simp only [deserializeIndex, serializeIndex,
      splitOnce_append _ (dot_not_mem_natToDigits i.index),
      parseUnsigned_natToDigits hidx, parseUnsigned_natToDigits hgen]
  · simp only [deserializeIndex, splitOnce_not_mem hs]
  · intro hfail
    simp only [deserializeIndex, splitOnce_append _ hs1, hfail]
  · intro hfail hok
    rcases hp : parseUnsigned USIZE s1 with - | idx
    · exact absurd hp hok
    · simp only [deserializeIndex, splitOnce_append _ hs1, hp, hfail]

/-- Witness for C9: round trip of the index `(3,7)` (serialized as
`"3.7"`), rejection of `"a"` (no separator), `"x.3"` (bad slot part) and
`"3.x"` (bad generation part). -/
theorem C9_index_string_round_trip_witness :
    deserializeIndex (serializeIndex ⟨3, 7⟩) = some ⟨3, 7⟩ ∧
    deserializeIndex ['a'] = none ∧
    deserializeIndex ('x' :: '.' :: ['3']) = none ∧
    deserializeIndex ('3' :: '.' :: ['x']) = none := by
  obtain ⟨-, h2, h3, h4, h5⟩ :=
    C9_index_string_round_trip ⟨3, 7⟩ ['a'] ['x'] ['3']
      (by decide) (by decide) (by decide) (by decide)
  refine ⟨h2, h3, h4 (by decide), ?_⟩
  obtain ⟨-, -, -, -, h5'⟩ :=
    C9_index_string_round_trip ⟨3, 7⟩ ['a'] ['3'] ['x']
      (by decide) (by decide) (by decide) (by decide)
  exact h5' (by decide) (by decide)

/-! Support for claim C2: every error path of `apply_diff` /
`rollback_diff` returns before any mutation, so the graph carried by an
`err` result is the entry state. -/

theorem Graph.restore_edges_no_err {g g' : Graph V E} {l : List (RemoveEdge E)}
    {e : GraphError} : g.restore_edges l ≠ .err e g' := by
  induction l generalizing g with
  | nil => simp [Graph.restore_edges]
  | cons d rest ih =>
    unfold Graph.restore_edges
    rcases h1 : g.get_vertex d.edge.from_ with - | fv
    · simp only [h1]; simp
    · simp only [h1]
      rcases h2 : (g.setVertex d.edge.from_
        (fv.add_to_unchecked d.edge.to_ d.edge_index)).get_vertex d.edge.to_ with - | tv
      · simp only [h2]; simp
      · simp only [h2]
        by_cases h3 : d.edge_index.index <
          ((g.setVertex d.edge.from_ (fv.add_to_unchecked d.edge.to_ d.edge_index)).setVertex
            d.edge.to_ (tv.add_from_unchecked d.edge.from_ d.edge_index)).edges.vec.length
        · simp only [if_pos h3]
          exact ih
        · simp only [if_neg h3]; simp

theorem Graph.link_edge_no_err {g1 g' : Graph V E} {f t e : Index}
    {er : GraphError} : g1.link_edge f t e ≠ .err er g' := by
  unfold Graph.link_edge
  rcases h1 : g1.get_vertex f with - | fv
  · simp
  · simp only []
    rcases h2 : (g1.setVertex f (fv.add_to_unchecked t e)).get_vertex t with - | tv
    · simp only [h2]; simp
    · simp only [h2]; simp

theorem Graph.apply_add_vertex_err {g g' : Graph V E} {d : AddVertex V}
    {e : GraphError} (h : g.apply_add_vertex_diff d = .err e g') :
    g' = g ∧ e = .InvalidDiff := by
  unfold Graph.apply_add_vertex_diff at h
  rcases hr : g.verticies.is_replaceable_by_index_apply d.vertex_index with - | b
  · rw [hr] at h; simp at h
  · rw [hr] at h
    cases b
    · simp at h
      exact ⟨h.2.symm, h.1.symm⟩
    · simp at h

theorem Graph.apply_add_edge_err {g g' : Graph V E} {d : AddEdge E}
    {e : GraphError} (h : g.apply_add_edge_diff d = .err e g') : g' = g := by
  unfold Graph.apply_add_edge_diff at h
  rcases ha : g.assert_vertex_exists d.from_ with - | e1
  swap
  · rw [ha] at h; simp at h; exact h.2.symm
  rw [ha] at h
  rcases hb : g.assert_vertex_exists d.to_ with - | e2
  swap
  · rw [hb] at h; simp at h; exact h.2.symm
  rw [hb] at h
  rcases hr : g.edges.is_replaceable_by_index_apply d.edge_index with - | b
  · rw [hr] at h; simp at h
  · rw [hr] at h
    cases b
    · simp at h; exact h.2.symm
    · exact absurd h Graph.link_edge_no_err

theorem Graph.apply_update_vertex_err {g g' : Graph V E} {d : UpdateVertexData V}
    {e : GraphError} (h : g.apply_update_vertex_diff d = .err e g') : g' = g := by
  unfold Graph.apply_update_vertex_diff at h
  rcases hm : g.get_vertex_mut_lookup d.index with - | r
  · rw [hm] at h; simp at h
  · rw [hm] at h
    rcases r with - | vx
    · simp at h; exact h.2.symm
    · simp at h

theorem Graph.apply_update_edge_err {g g' : Graph V E} {d : UpdateEdgeData E}
    {e : GraphError} (h : g.apply_update_edge_diff d = .err e g') : g' = g := by
  unfold Graph.apply_update_edge_diff at h
  rcases hm : g.get_edge_mut_lookup d.index with - | r
  · rw [hm] at h; simp at h
  · rw [hm] at h
    rcases r with - | ed
    · simp at h; exact h.2.symm
    · simp at h

theorem Graph.apply_remove_edge_err {g g' : Graph V E} {d : RemoveEdge E}
    {e : GraphError} (h : g.apply_remove_edge_diff d = .err e g') : g' = g := by
  unfold Graph.apply_remove_edge_diff at h
  rcases ha : g.assert_vertex_exists d.edge.from_ with - | e1
  swap
  · rw [ha] at h; simp at h; exact h.2.symm
  rw [ha] at h
  rcases hb : g.assert_vertex_exists d.edge.to_ with - | e2
  swap
  · rw [hb] at h; simp at h; exact h.2.symm
  rw [hb] at h
  rcases hc : g.assert_edge_exists d.edge_index with - | e3
  swap
  · rw [hc] at h; simp at h; exact h.2.symm
  simp only [hc] at h
  cases hd : g.remove_edge d.edge_index with
  | ok a gr => simp only [hd] at h; simp at h
  | err ea gr => simp only [hd] at h; simp at h
  | panicked => simp only [hd] at h; simp at h

theorem Graph.apply_remove_vertex_err {g g' : Graph V E} {d : RemoveVertex V E}
    {e : GraphError} (h : g.apply_remove_vertex_diff d = .err e g') : g' = g := by
  unfold Graph.apply_remove_vertex_diff at h
  rcases ha : g.assert_vertex_exists d.vertex_index with - | e1
  swap
  · rw [ha] at h; simp at h; exact h.2.symm
  simp only [ha] at h
  cases hd : g.remove_vertex d.vertex_index with
  | ok a gr => simp only [hd] at h; simp at h
  | err ea gr => simp only [hd] at h; simp at h
  | panicked => simp only [hd] at h; simp at h

theorem Graph.rollback_add_vertex_err {g g' : Graph V E} {d : AddVertex V}
    {e : GraphError} (h : g.rollback_add_vertex_diff d = .err e g') : g' = g := by
  unfold Graph.rollback_add_vertex_diff at h
  rcases ha : g.assert_vertex_exists d.vertex_index with - | e1
  swap
  · rw [ha] at h; simp at h; exact h.2.symm
  simp only [ha] at h
  cases hd : g.remove_vertex_and_reset d.vertex_index with
  | ok a gr => simp only [hd] at h; simp at h
  | err ea gr => simp only [hd] at h; simp at h
  | panicked => simp only [hd] at h; simp at h

theorem Graph.rollback_add_edge_err {g g' : Graph V E} {d : AddEdge E}
    {e : GraphError} (h : g.rollback_add_edge_diff d = .err e g') : g' = g := by
  unfold Graph.rollback_add_edge_diff at h
  rcases ha : g.assert_vertex_exists d.from_ with - | e1
  swap
  · rw [ha] at h; simp at h; exact h.2.symm
  rw [ha] at h
  rcases hb : g.assert_vertex_exists d.to_ with - | e2
  swap
  · rw [hb] at h; simp at h; exact h.2.symm
  rw [hb] at h
  rcases hc : g.assert_edge_exists d.edge_index with - | e3
  swap
  · rw [hc] at h; simp at h; exact h.2.symm
  simp only [hc] at h
  cases hd : g.remove_edge_and_reset d.edge_index with
  | ok a gr => simp only [hd] at h; simp at h
  | err ea gr => simp only [hd] at h; simp at h
  | panicked => simp only [hd] at h; simp at h

theorem Graph.rollback_update_vertex_err {g g' : Graph V E}
    {d : UpdateVertexData V} {e : GraphError}
    (h : g.rollback_update_vertex_diff d = .err e g') : g' = g := by
  unfold Graph.rollback_update_vertex_diff at h
  rcases hm : g.get_vertex_mut_lookup d.index with - | r
  · rw [hm] at h; simp at h
  · rw [hm] at h
    rcases r with - | vx
    · simp at h; exact h.2.symm
    · simp at h

theorem Graph.rollback_update_edge_err {g g' : Graph V E}
    {d : UpdateEdgeData E} {e : GraphError}
    (h : g.rollback_update_edge_diff d = .err e g') : g' = g := by
  unfold Graph.rollback_update_edge_diff at h
  rcases hm : g.get_edge_mut_lookup d.index with - | r
  · rw [hm] at h; simp at h
  · rw [hm] at h
    rcases r with - | ed
    · simp at h; exact h.2.symm
    · simp at h

theorem Graph.rollback_remove_edge_err {g g' : Graph V E} {d : RemoveEdge E}
    {e : GraphError} (h : g.rollback_remove_edge_diff d = .err e g') : g' = g := by
  unfold Graph.rollback_remove_edge_diff at h
  rcases ha : g.assert_vertex_exists d.edge.from_ with - | e1
  swap
  · rw [ha] at h; simp at h; exact h.2.symm
  rw [ha] at h
  rcases hb : g.assert_vertex_exists d.edge.to_ with - | e2
  swap
  · rw [hb] at h; simp at h; exact h.2.symm
  rw [hb] at h
  rcases hr : g.edges.is_replaceable_by_index_rollback d.edge_index with - | b
  · rw [hr] at h; simp at h
  · rw [hr] at h
    cases b
    · simp at h; exact h.2.symm
    · exact absurd h Graph.link_edge_no_err

theorem Graph.rollback_remove_vertex_err {g g' : Graph V E}
    {d : RemoveVertex V E} {e : GraphError}
    (h : g.rollback_remove_vertex_diff d = .err e g') :
    g' = g ∧ e = .InvalidDiff := by
  unfold Graph.rollback_remove_vertex_diff at h
  rcases hr : g.verticies.is_replaceable_by_index_rollback d.vertex_index with - | b
  · rw [hr] at h; simp at h
  · rw [hr] at h
    cases b
    · simp at h; exact ⟨h.2.symm, h.1.symm⟩
    · simp only [] at h
      rcases hc : check_edges_replaceable g.edges d.removed_edges with - | b2
      · rw [hc] at h; simp at h
      · rw [hc] at h
        cases b2
        · simp at h; exact ⟨h.2.symm, h.1.symm⟩
        · simp only [] at h
          exact absurd h Graph.restore_edges_no_err

/-- Counterexample for C2 as stated: the claim says every failed
precondition yields `GraphError::InvalidDiff`, but applying an
`UpdateVertexData` diff whose vertex has been removed (its precondition
fails) returns `VertexDoesNotExist`, not `InvalidDiff`.  The first two
conjuncts reach the state through the public API. -/
theorem C2_error_is_not_always_invalid_diff :
    Graph.add_vertex (Graph.new : Graph Nat Nat) 0 =
      some ((⟨0, 0⟩, .AddVertex ⟨⟨0, 0⟩, 0⟩),
        ⟨⟨[.Occupied ⟨[], [], 0⟩ 0], none⟩, ⟨[], none⟩⟩) ∧
    Graph.remove_vertex
        (⟨⟨[.Occupied ⟨[], [], 0⟩ 0], none⟩, ⟨[], none⟩⟩ : Graph Nat Nat)
        ⟨0, 0⟩ =
      .ok (0, .RemoveVertex ⟨⟨0, 0⟩, ⟨[], [], 0⟩, []⟩)
        ⟨⟨[.Open 1 none], some 0⟩, ⟨[], none⟩⟩ ∧
    Graph.apply_diff
        (⟨⟨[.Open 1 none], some 0⟩, ⟨[], none⟩⟩ : Graph Nat Nat)
        (.UpdateVertexData ⟨⟨0, 0⟩, 0, 1⟩) =
      .err (.VertexDoesNotExist ⟨0, 0⟩)
        ⟨⟨[.Open 1 none], some 0⟩, ⟨[], none⟩⟩ ∧
    (GraphError.VertexDoesNotExist ⟨0, 0⟩ ≠ .InvalidDiff) := by
  exact ⟨rfl, rfl, rfl, by decide⟩

/-! Generic lookup lemmas about modified slot tables. -/

theorem GenVec.get_eq_bind (v : GenVec T) (j : Index) :
    v.get j = (v.vec[j.index]?).bind (fun e => elemLookup e j.generation) := by
  unfold GenVec.get elemLookup
  rcases h : v.vec[j.index]? with - | e
  · rfl
  · cases e <;> rfl

theorem GenVec.get_mk_set (v : GenVec T) (s : Nat) (e : Element T)
    (ns : Option Nat) (j : Index) (hs : s < v.vec.length) :
    (⟨v.vec.set s e, ns⟩ : GenVec T).get j =
      if j.index = s then elemLookup e j.generation else v.get j := by
  rw [GenVec.get_eq_bind, GenVec.get_eq_bind]
  by_cases hj : j.index = s
  · rw [if_pos hj, hj]
    rw [show (⟨v.vec.set s e, ns⟩ : GenVec T).vec = v.vec.set s e from rfl]
    rw [List.getElem?_set_self hs]
    rfl
  · rw [if_neg hj]
    rw [show (⟨v.vec.set s e, ns⟩ : GenVec T).vec = v.vec.set s e from rfl]
    rw [List.getElem?_set_ne (fun h => hj h.symm)]

theorem GenVec.get_mk_append (v : GenVec T) (e : Element T)
    (ns : Option Nat) (j : Index) :
    (⟨v.vec ++ [e], ns⟩ : GenVec T).get j =
      if j.index = v.vec.length then elemLookup e j.generation else v.get j := by
  rw [GenVec.get_eq_bind, GenVec.get_eq_bind]
  by_cases hj : j.index = v.vec.length
  · rw [if_pos hj, hj]
    rw [show (⟨v.vec ++ [e], ns⟩ : GenVec T).vec = v.vec ++ [e] from rfl]
    rw [List.getElem?_concat_length]
    rfl
  · rw [if_neg hj]
    rw [show (⟨v.vec ++ [e], ns⟩ : GenVec T).vec = v.vec ++ [e] from rfl]
    rcases Nat.lt_or_ge j.index v.vec.length with hlt | hge
    · rw [List.getElem?_append_left hlt]
    · have h1 : v.vec.length ≤ j.index := hge
      rw [List.getElem?_eq_none h1]
      rw [List.getElem?_eq_none (by simp; omega)]

theorem GenVec.get_none_of_ge {v : GenVec T} {j : Index}
    (h : v.vec.length ≤ j.index) : v.get j = none := by
  rw [GenVec.get_eq_bind, List.getElem?_eq_none h]
  rfl

/-! Free-list chain lemmas. -/

theorem ChainL.all_open {vec : List (Element T)} {o : Option Nat} {l : List Nat}
    (h : ChainL vec o l) : ∀ s ∈ l, ∃ gen nxt, vec[s]? = some (.Open gen nxt) := by
  induction h with
  | nil => intro s hs; cases hs
  | cons s gen nxt l hs hrest ih =>
    intro c hc
    rcases List.mem_cons.mp hc with rfl | hc2
    · exact ⟨gen, nxt, hs⟩
    · exact ih c hc2

theorem ChainL.frame {vec vec' : List (Element T)} {o : Option Nat}
    {l : List Nat} (h : ChainL vec o l)
    (hf : ∀ s ∈ l, vec'[s]? = vec[s]?) : ChainL vec' o l := by
  induction h with
  | nil => exact .nil
  | cons s gen nxt l hs hrest ih =>
    refine .cons s gen nxt l ?_ (ih (fun c hc => hf c (by simp [hc])))
    rw [hf s (by simp)]
    exact hs

theorem ChainL.deterministic {vec : List (Element T)} {o : Option Nat}
    {l1 l2 : List Nat} (h1 : ChainL vec o l1) (h2 : ChainL vec o l2) :
    l1 = l2 := by
  induction h1 generalizing l2 with
  | nil => cases h2; rfl
  | cons s gen nxt l hs hrest ih =>
    cases h2 with
    | cons s2 gen2 nxt2 l2 hs2 hrest2 =>
      rw [hs] at hs2
      have he := Option.some_injective _ hs2
      have hnxt : nxt2 = nxt := by cases he; rfl
      rw [hnxt] at hrest2
      rw [ih hrest2]

theorem ChainL.mem_suffix {vec : List (Element T)} {o : Option Nat}
    {l : List Nat} (h : ChainL vec o l) :
    ∀ s ∈ l, ∃ l2, ChainL vec (some s) (s :: l2) ∧ (s :: l2).length ≤ l.length := by
  induction h with
  | nil => intro s hs; cases hs
  | cons a gen nxt l hs hrest ih =>
    intro s hsm
    rcases List.mem_cons.mp hsm with rfl | hc
    · exact ⟨l, .cons s gen nxt l hs hrest, Nat.le_refl _⟩
    · obtain ⟨l2, hc2, hlen⟩ := ih s hc
      exact ⟨l2, hc2, Nat.le_trans hlen (by simp)⟩

theorem ChainL.head_not_mem {vec : List (Element T)} {s : Nat} {l : List Nat}
    (h : ChainL vec (some s) (s :: l)) : s ∉ l := by
  intro hmem
  cases h with
  | cons _ gen nxt _ hs hrest =>
    obtain ⟨l2, hc2, hlen⟩ := hrest.mem_suffix s hmem
    have hd := ChainL.deterministic (ChainL.cons s gen nxt l hs hrest) hc2
    rw [← hd] at hlen
    simp at hlen

theorem chainB_sound {vec : List (Element T)} :
    ∀ (fuel : Nat) (o : Option Nat), chainB vec fuel o = true →
      ∃ l, ChainL vec o l := by
  intro fuel
  induction fuel with
  | zero =>
    intro o h
    cases o with
    | none => exact ⟨[], .nil⟩
    | some s => exact absurd h (by simp [chainB])
  | succ fuel ih =>
    intro o h
    cases o with
    | none => exact ⟨[], .nil⟩
    | some s =>
      unfold chainB at h
      rcases hs : vec[s]? with - | e
      · rw [hs] at h; simp at h
      · rw [hs] at h
        cases e with
        | Occupied t gen => simp at h
        | Open gen nxt =>
          simp only [] at h
          obtain ⟨l, hl⟩ := ih nxt h
          exact ⟨s :: l, .cons s gen nxt l hs hl⟩

theorem chainOk_chain {v : GenVec T} (h : chainOk v = true) :
    ∃ l, ChainL v.vec v.next_open_slot l :=
  chainB_sound _ _ h

/-! `removeFirst` and the `Vertex` detach operations. -/

theorem removeFirst_sublist (l : List (Index × Index)) (e : Index) :
    (removeFirst l e).Sublist l := by
  induction l with
  | nil => simp [removeFirst]
  | cons c rest ih =>
    unfold removeFirst
    by_cases hc : c.2 = e
    · rw [if_pos hc]
      exact List.sublist_cons_self c rest
    · rw [if_neg hc]
      exact List.Sublist.cons₂ c ih

theorem removeFirst_multiset {l : List (Index × Index)} {u e : Index}
    (hmem : (u, e) ∈ l) (hnd : (l.map Prod.snd).Nodup) :
    (↑(removeFirst l e) : Multiset (Index × Index)) = ↑l - {(u, e)} := by
  induction l with
  | nil => cases hmem
  | cons c rest ih =>
    unfold removeFirst
    by_cases hc : c.2 = e
    · rw [if_pos hc]
      have hcu : c = (u, e) := by
        rcases List.mem_cons.mp hmem with h | h
        · exact h.symm
        · exfalso
          have h1 : e ∈ rest.map Prod.snd :=
            List.mem_map.mpr ⟨(u, e), h, rfl⟩
          have h2 : c.2 ∉ rest.map Prod.snd := (List.nodup_cons.mp (by
            simpa using hnd)).1
          rw [hc] at h2
          exact h2 h1
      rw [hcu]
      rw [show ((((u, e) : Index × Index) :: rest : List (Index × Index)) :
        Multiset (Index × Index)) = (u, e) ::ₘ ↑rest from rfl]
      rw [Multiset.sub_singleton, Multiset.erase_cons_head]
    · rw [if_neg hc]
      have hmem2 : (u, e) ∈ rest := by
        rcases List.mem_cons.mp hmem with h | h
        · exact absurd (congrArg Prod.snd h.symm) hc
        · exact h
      have hnd2 : (rest.map Prod.snd).Nodup := (List.nodup_cons.mp (by
        simpa using hnd)).2
      have := ih hmem2 hnd2
      rw [show ((c :: removeFirst rest e : List (Index × Index)) :
        Multiset (Index × Index)) = c ::ₘ ↑(removeFirst rest e) by rfl]
      rw [show ((c :: rest : List (Index × Index)) :
        Multiset (Index × Index)) = c ::ₘ ↑rest by rfl]
      rw [this]
      rw [Multiset.sub_singleton, Multiset.sub_singleton]
      rw [Multiset.erase_cons_tail_of_mem hmem2]

theorem Vertex.remove_to_spec {v : Vertex V} {u e : Index}
    (hmem : (u, e) ∈ v.connections_to) :
    v.remove_to e = some { v with connections_to := removeFirst v.connections_to e } := by
  unfold Vertex.remove_to
  rw [if_pos]
  exact List.any_eq_true.mpr ⟨(u, e), hmem, by simp⟩

theorem Vertex.remove_from_spec {v : Vertex V} {u e : Index}
    (hmem : (u, e) ∈ v.connections_from) :
    v.remove_from e = some { v with connections_from := removeFirst v.connections_from e } := by
  unfold Vertex.remove_from
  rw [if_pos]
  exact List.any_eq_true.mpr ⟨(u, e), hmem, by simp⟩

/-! Graph-level wrappers for vertex writes. -/

theorem Graph.get_vertex_setVertex_self {g : Graph V E} {i : Index}
    {vx vx2 : Vertex V} (hg : g.get_vertex i = some vx) :
    (g.setVertex i vx2).get_vertex i = some vx2 :=
  GenVec.get_setOcc_self hg

theorem Graph.get_vertex_setVertex_ne {g : Graph V E} {i j : Index}
    {vx vx2 : Vertex V} (hg : g.get_vertex i = some vx) (hj : j ≠ i) :
    (g.setVertex i vx2).get_vertex j = g.get_vertex j :=
  GenVec.get_setOcc_ne hg hj

theorem Graph.get_edge_setVertex (g : Graph V E) (i : Index) (vx : Vertex V)
    (j : Index) : (g.setVertex i vx).get_edge j = g.get_edge j := rfl

theorem Graph.setVertex_verticies_len (g : Graph V E) (i : Index)
    (vx2 : Vertex V) :
    (g.setVertex i vx2).verticies.vec.length = g.verticies.vec.length := by
  simp [Graph.setVertex, GenVec.setOcc]

theorem GenVec.setOcc_open_frame {v : GenVec T} {i : Index} {t t2 : T}
    (hg : v.get i = some t) :
    ∀ (s gen : Nat) (nxt : Option Nat), v.vec[s]? = some (.Open gen nxt) →
      (v.setOcc i t2).vec[s]? = some (.Open gen nxt) := by
  intro s gen nxt hs
  have hvec := GenVec.get_eq_some_iff.mp hg
  by_cases hsi : s = i.index
  · rw [hsi, hvec] at hs
    exact absurd (Option.some_injective _ hs) (by simp)
  · rw [show (v.setOcc i t2).vec = v.vec.set i.index (.Occupied t2 i.generation)
      from rfl]
    rw [List.getElem?_set_ne (fun h => hsi h.symm)]
    exact hs

theorem Graph.get_vertex_setVertex_none {g : Graph V E} {i w : Index}
    {vx vx2 : Vertex V} (hg : g.get_vertex i = some vx)
    (hw : g.get_vertex w = none) : (g.setVertex i vx2).get_vertex w = none := by
  have hwi : w ≠ i := by rintro rfl; rw [hg] at hw; cases hw
  rw [Graph.get_vertex_setVertex_ne hg hwi]
  exact hw

/-- Full lookup-level description of a successful `remove_edge_internal`:
the returned data and diff, the freed edge slot (generation bumped, slot
pushed on the edge free list), every other edge untouched, and per-vertex
adjacency lists losing exactly the entries of the removed edge (as
multisets), with data, table shape and the vertex free list untouched. -/
theorem Graph.remove_edge_internal_spec {g : Graph V E} {e : Index} {ed : Edge E}
    (hinv : AdjInv g) (hed : g.get_edge e = some ed) :
    ∃ g', g.remove_edge_internal e = .ok (ed.data, ⟨e, ed⟩) g' ∧
      g'.edges.vec = g.edges.vec.set e.index
        (.Open (e.generation + 1) g.edges.next_open_slot) ∧
      g'.edges.next_open_slot = some e.index ∧
      (∀ j : Index, g'.get_edge j = if j.index = e.index then none
        else g.get_edge j) ∧
      g'.verticies.next_open_slot = g.verticies.next_open_slot ∧
      g'.verticies.vec.length = g.verticies.vec.length ∧
      (∀ (s gen : Nat) (nxt : Option Nat),
        g.verticies.vec[s]? = some (.Open gen nxt) →
        g'.verticies.vec[s]? = some (.Open gen nxt)) ∧
      (∀ w, g.get_vertex w = none → g'.get_vertex w = none) ∧
      (∀ w wx, g.get_vertex w = some wx → ∃ wx',
        g'.get_vertex w = some wx' ∧
        wx'.data = wx.data ∧
        (↑wx'.connections_to : Multiset (Index × Index)) =
          ↑wx.connections_to - (if ed.from_ = w then {(ed.to_, e)} else 0) ∧
        (↑wx'.connections_from : Multiset (Index × Index)) =
          ↑wx.connections_from - (if ed.to_ = w then {(ed.from_, e)} else 0)) := by
  obtain ⟨⟨fv, hfv, hmemTo⟩, ⟨tv, htv, hmemFrom⟩⟩ := hinv.1 e ed hed
  obtain ⟨-, -, hndTo_f, hndFrom_f⟩ := hinv.2 ed.from_ fv hfv
  obtain ⟨-, -, hndTo_t, hndFrom_t⟩ := hinv.2 ed.to_ tv htv
  set fv1 : Vertex V :=
    { fv with connections_to := removeFirst fv.connections_to e } with hfv1
  have h1 : (g.get_vertex ed.from_).bind (fun v => v.remove_to e) = some fv1 := by
    rw [hfv]
    simpa using Vertex.remove_to_spec hmemTo
  set g1 := g.setVertex ed.from_ fv1 with hg1
  have hg1from : g1.get_vertex ed.from_ = some fv1 :=
    Graph.get_vertex_setVertex_self hfv
  by_cases hft : ed.to_ = ed.from_
  · -- self-loop: both detachments hit the same vertex
    have htvfv : tv = fv := by
      rw [hft, hfv] at htv
      exact (Option.some_injective _ htv).symm
    have hmemFrom1 : (ed.from_, e) ∈ fv1.connections_from := by
      rw [hfv1]
      exact htvfv ▸ hmemFrom
    set tv3 : Vertex V :=
      { fv1 with connections_from := removeFirst fv1.connections_from e } with htv3
    have h2 : (g1.get_vertex ed.to_).bind (fun v => v.remove_from e) = some tv3 := by
      rw [hft, hg1from]
      simpa using Vertex.remove_from_spec hmemFrom1
    set g2 := g1.setVertex ed.to_ tv3 with hg2
    have hedix : e.index < g.edges.vec.length := GenVec.get_index_lt hed
    have hrem : g2.edges.remove e = some (ed,
        ⟨g.edges.vec.set e.index (.Open (e.generation + 1) g.edges.next_open_slot),
         some e.index⟩) := by
      have : g2.edges = g.edges := rfl
      rw [this]
      exact GenVec.remove_spec hed
    refine ⟨{ g2 with edges := ⟨g.edges.vec.set e.index
        (.Open (e.generation + 1) g.edges.next_open_slot), some e.index⟩ },
      ?_, rfl, rfl, ?_, rfl, ?_, ?_, ?_, ?_⟩
    · unfold Graph.remove_edge_internal
      rw [hed]
      simp only [h1, hg1.symm, h2, hg2.symm, hrem]
    · intro j
      have := GenVec.get_mk_set g.edges e.index
        (.Open (e.generation + 1) g.edges.next_open_slot) (some e.index) j hedix
      rw [show ({ g2 with edges := ⟨g.edges.vec.set e.index
          (.Open (e.generation + 1) g.edges.next_open_slot), some e.index⟩} :
          Graph V E).get_edge j = (⟨g.edges.vec.set e.index
          (.Open (e.generation + 1) g.edges.next_open_slot), some e.index⟩ :
          GenVec (Edge E)).get j from rfl]
      rw [this]
      rcases Nat.decEq j.index e.index with h | h
      · rw [if_neg h, if_neg h]
        rfl
      · rw [if_pos h, if_pos h]
        rfl
    · show g2.verticies.vec.length = _
      rw [hg2, Graph.setVertex_verticies_len, hg1, Graph.setVertex_verticies_len]
    · intro s gen nxt hs
      have hg1to : g1.get_vertex ed.to_ = some fv1 := by
        rw [hft]; exact hg1from
      exact GenVec.setOcc_open_frame hg1to s gen nxt
        (GenVec.setOcc_open_frame hfv s gen nxt hs)
    · intro w hw
      have hg1to : g1.get_vertex ed.to_ = some fv1 := by
        rw [hft]; exact hg1from
      exact Graph.get_vertex_setVertex_none hg1to
        (Graph.get_vertex_setVertex_none hfv hw)
    · intro w wx hwx
      by_cases hwf : w = ed.from_
      · have hwxfv : wx = fv := by
          rw [hwf, hfv] at hwx
          exact (Option.some_injective _ hwx).symm
        refine ⟨tv3, ?_, by rw [hwxfv], ?_, ?_⟩
        · show g2.get_vertex w = _
          rw [hg2, hft, hwf]
          exact Graph.get_vertex_setVertex_self hg1from
        · rw [if_pos hwf.symm, hwxfv, htv3, hfv1]
          exact removeFirst_multiset hmemTo hndTo_f
        · rw [if_pos (by rw [hft, hwf]), hwxfv, htv3, hfv1]
          exact removeFirst_multiset (htvfv ▸ hmemFrom) hndFrom_f
      · have hne : w ≠ ed.from_ := hwf
        refine ⟨wx, ?_, rfl, ?_, ?_⟩
        · show g2.get_vertex w = _
          rw [hg2, hft]
          rw [Graph.get_vertex_setVertex_ne hg1from hne, hg1,
            Graph.get_vertex_setVertex_ne hfv hne]
          exact hwx
        · rw [if_neg (fun h => hne h.symm)]
          simp
        · rw [if_neg (fun h => hne (hft ▸ h).symm)]
          simp
  · -- distinct endpoints
    have htv1 : g1.get_vertex ed.to_ = some tv := by
      rw [hg1, Graph.get_vertex_setVertex_ne hfv hft]
      exact htv
    set tv3 : Vertex V :=
      { tv with connections_from := removeFirst tv.connections_from e } with htv3
    have h2 : (g1.get_vertex ed.to_).bind (fun v => v.remove_from e) = some tv3 := by
      rw [htv1]
      simpa using Vertex.remove_from_spec hmemFrom
    set g2 := g1.setVertex ed.to_ tv3 with hg2
    have hedix : e.index < g.edges.vec.length := GenVec.get_index_lt hed
    have hrem : g2.edges.remove e = some (ed,
        ⟨g.edges.vec.set e.index (.Open (e.generation + 1) g.edges.next_open_slot),
         some e.index⟩) := by
      have : g2.edges = g.edges := rfl
      rw [this]
      exact GenVec.remove_spec hed
    refine ⟨{ g2 with edges := ⟨g.edges.vec.set e.index
        (.Open (e.generation + 1) g.edges.next_open_slot), some e.index⟩ },
      ?_, rfl, rfl, ?_, rfl, ?_, ?_, ?_, ?_⟩
    · unfold Graph.remove_edge_internal
      rw [hed]
      simp only [h1, hg1.symm, h2, hg2.symm, hrem]
    · intro j
      have := GenVec.get_mk_set g.edges e.index
        (.Open (e.generation + 1) g.edges.next_open_slot) (some e.index) j hedix
      rw [show ({ g2 with edges := ⟨g.edges.vec.set e.index
          (.Open (e.generation + 1) g.edges.next_open_slot), some e.index⟩} :
          Graph V E).get_edge j = (⟨g.edges.vec.set e.index
          (.Open (e.generation + 1) g.edges.next_open_slot), some e.index⟩ :
          GenVec (Edge E)).get j from rfl]
      rw [this]
      rcases Nat.decEq j.index e.index with h | h
      · rw [if_neg h, if_neg h]
        rfl
      · rw [if_pos h, if_pos h]
        rfl
    · show g2.verticies.vec.length = _
      rw [hg2, Graph.setVertex_verticies_len, hg1, Graph.setVertex_verticies_len]
    · intro s gen nxt hs
      exact GenVec.setOcc_open_frame htv1 s gen nxt
        (GenVec.setOcc_open_frame hfv s gen nxt hs)
    · intro w hw
      exact Graph.get_vertex_setVertex_none htv1
        (Graph.get_vertex_setVertex_none hfv hw)
    · intro w wx hwx
      by_cases hwf : w = ed.from_
      · have hwxfv : wx = fv := by
          rw [hwf, hfv] at hwx
          exact (Option.some_injective _ hwx).symm
        refine ⟨fv1, ?_, by rw [hwxfv, hfv1], ?_, ?_⟩
        · show g2.get_vertex w = _
          rw [hg2, hwf]
          rw [Graph.get_vertex_setVertex_ne htv1 (fun h => hft h.symm)]
          exact hg1from
        · rw [if_pos hwf.symm, hwxfv, hfv1]
          exact removeFirst_multiset hmemTo hndTo_f
        · rw [if_neg (fun h => hft (hwf ▸ h)), hwxfv, hfv1]
          simp
      · by_cases hwt : w = ed.to_
        · have hwxtv : wx = tv := by
            rw [hwt, htv] at hwx
            exact (Option.some_injective _ hwx).symm
          refine ⟨tv3, ?_, by rw [hwxtv, htv3], ?_, ?_⟩
          · show g2.get_vertex w = _
            rw [hg2, hwt]
            exact Graph.get_vertex_setVertex_self htv1
          · rw [if_neg (fun h => hwf h.symm), hwxtv, htv3]
            simp
          · rw [if_pos hwt.symm, hwxtv, htv3]
            exact removeFirst_multiset hmemFrom hndFrom_t
        · refine ⟨wx, ?_, rfl, ?_, ?_⟩
          · show g2.get_vertex w = _
            rw [hg2, Graph.get_vertex_setVertex_ne htv1 hwt, hg1,
              Graph.get_vertex_setVertex_ne hfv hwf]
            exact hwx
          · rw [if_neg (fun h => hwf h.symm)]
            simp
          · rw [if_neg (fun h => hwt h.symm)]
            simp

/-! Multiset bookkeeping helpers for adjacency lists. -/

theorem nodup_snd_count_le_one {l : List (Index × Index)}
    (hnd : (l.map Prod.snd).Nodup) (p : Index × Index) :
    (↑l : Multiset (Index × Index)).count p ≤ 1 := by
  have hl : l.Nodup := hnd.of_map
  have h2 : (↑l : Multiset (Index × Index)).Nodup := Multiset.coe_nodup.mpr hl
  exact Multiset.nodup_iff_count_le_one.mp h2 p

theorem mem_coe_sub_singleton_of_ne {l : List (Index × Index)}
    {a b : Index × Index} (hne : a ≠ b) (ha : a ∈ l) :
    a ∈ (↑l : Multiset (Index × Index)) - {b} := by
  rw [Multiset.sub_singleton]
  exact Multiset.mem_erase_of_ne hne |>.mpr (by simpa using ha)

theorem not_mem_coe_sub_self {l : List (Index × Index)} {a : Index × Index}
    (hcount : (↑l : Multiset (Index × Index)).count a ≤ 1) :
    a ∉ (↑l : Multiset (Index × Index)) - {a} := by
  rw [Multiset.sub_singleton]
  intro hmem
  have h1 := Multiset.count_erase_self a (↑l : Multiset (Index × Index))
  have h2 : 0 < ((↑l : Multiset (Index × Index)).erase a).count a :=
    Multiset.count_pos.mpr hmem
  omega

theorem mem_of_mem_coe_sub {l : List (Index × Index)} {a b : Index × Index}
    {l' : List (Index × Index)}
    (heq : (↑l' : Multiset (Index × Index)) = ↑l - {b}) (ha : a ∈ l') :
    a ∈ l := by
  have h1 : a ∈ (↑l' : Multiset (Index × Index)) := by simpa using ha
  rw [heq, Multiset.sub_singleton] at h1
  have := Multiset.mem_of_mem_erase h1
  simpa using this

theorem nodup_snd_of_coe_sub {l l' : List (Index × Index)}
    {m : Multiset (Index × Index)}
    (heq : (↑l' : Multiset (Index × Index)) = ↑l - m)
    (hnd : (l.map Prod.snd).Nodup) : (l'.map Prod.snd).Nodup := by
  have hle : (↑l' : Multiset (Index × Index)) ≤ ↑l := by
    rw [heq]; exact Multiset.sub_le_self _ _
  have hmaple : Multiset.map Prod.snd (↑l' : Multiset (Index × Index)) ≤
      Multiset.map Prod.snd (↑l : Multiset (Index × Index)) :=
    Multiset.map_le_map hle
  have h2 : Multiset.Nodup (Multiset.map Prod.snd
      (↑l : Multiset (Index × Index))) := by
    rw [show Multiset.map Prod.snd (↑l : Multiset (Index × Index)) =
      ↑(l.map Prod.snd) by simp]
    rw [Multiset.coe_nodup]
    exact hnd
  have h3 : Multiset.Nodup (Multiset.map Prod.snd
      (↑l' : Multiset (Index × Index))) := Multiset.nodup_of_le hmaple h2
  rw [show Multiset.map Prod.snd (↑l' : Multiset (Index × Index)) =
    ↑(l'.map Prod.snd) by simp] at h3
  rw [← Multiset.coe_nodup]
  exact h3

theorem sub_if_singleton_mem {l : List (Index × Index)} {l' : List (Index × Index)}
    {c : Prop} [Decidable c] {x a : Index × Index}
    (heq : (↑l' : Multiset (Index × Index)) =
      ↑l - (if c then ({x} : Multiset (Index × Index)) else 0))
    (ha : a ∈ l) (hax : a ≠ x) : a ∈ l' := by
  by_cases hc : c
  · rw [if_pos hc] at heq
    have : a ∈ (↑l : Multiset (Index × Index)) - {x} :=
      mem_coe_sub_singleton_of_ne hax ha
    rw [← heq] at this
    simpa using this
  · rw [if_neg hc, Multiset.sub_zero] at heq
    have : a ∈ (↑l : Multiset (Index × Index)) := by simpa using ha
    rw [← heq] at this
    simpa using this

/-- Two simultaneously live edges occupy distinct slots, or are equal. -/
theorem GenVec.live_same_slot {v : GenVec T} {i j : Index} {a b : T}
    (hi : v.get i = some a) (hj : v.get j = some b)
    (hij : i.index = j.index) : i = j := by
  have h1 := GenVec.get_eq_some_iff.mp hi
  have h2 := GenVec.get_eq_some_iff.mp hj
  rw [hij, h2] at h1
  have h3 := Option.some_injective _ h1
  refine Index.ext_iff2.mpr ⟨hij, ?_⟩
  injection h3 with h4 h5
  exact h5.symm

/-- The adjacency invariant survives the removal of one edge, stated
against the lookup summary produced by `remove_edge_internal_spec`. -/
theorem AdjInv_after_edge_removal {g g' : Graph V E} {e : Index} {ed : Edge E}
    (hinv : AdjInv g) (hed : g.get_edge e = some ed)
    (hedge : ∀ j : Index, g'.get_edge j =
      if j.index = e.index then none else g.get_edge j)
    (hnone : ∀ w, g.get_vertex w = none → g'.get_vertex w = none)
    (hsome : ∀ w wx, g.get_vertex w = some wx → ∃ wx',
      g'.get_vertex w = some wx' ∧
      wx'.data = wx.data ∧
      (↑wx'.connections_to : Multiset (Index × Index)) =
        ↑wx.connections_to - (if ed.from_ = w then {(ed.to_, e)} else 0) ∧
      (↑wx'.connections_from : Multiset (Index × Index)) =
        ↑wx.connections_from - (if ed.to_ = w then {(ed.from_, e)} else 0)) :
    AdjInv g' := by
  have hlive_rev : ∀ w wx', g'.get_vertex w = some wx' →
      ∃ wx, g.get_vertex w = some wx := by
    intro w wx' h
    rcases hw : g.get_vertex w with - | wx
    · rw [hnone w hw] at h; cases h
    · exact ⟨wx, rfl⟩
  have hedge_live : ∀ (j : Index) (ed' : Edge E), g'.get_edge j = some ed' →
      j ≠ e ∧ g.get_edge j = some ed' := by
    intro j ed' h
    rw [hedge j] at h
    by_cases hj : j.index = e.index
    · rw [if_pos hj] at h; cases h
    · rw [if_neg hj] at h
      exact ⟨fun hje => hj (congrArg Index.index hje), h⟩
  constructor
  · -- every live edge still has both adjacency entries
    intro ei ed' hei
    obtain ⟨heine, heig⟩ := hedge_live ei ed' hei
    obtain ⟨⟨fv, hfv, hmemTo⟩, ⟨tv, htv, hmemFrom⟩⟩ := hinv.1 ei ed' heig
    obtain ⟨fv', hfv', -, hto', -⟩ := hsome ed'.from_ fv hfv
    obtain ⟨tv', htv', -, -, hfrom'⟩ := hsome ed'.to_ tv htv
    refine ⟨⟨fv', hfv', ?_⟩, ⟨tv', htv', ?_⟩⟩
    · exact sub_if_singleton_mem hto' hmemTo
        (fun h => heine (congrArg Prod.snd h))
    · exact sub_if_singleton_mem hfrom' hmemFrom
        (fun h => heine (congrArg Prod.snd h))
  · -- every adjacency entry still resolves, and no duplicates appear
    intro vi vx' hvi
    obtain ⟨vx, hvx⟩ := hlive_rev vi vx' hvi
    obtain ⟨vx'', hvx'', -, hto', hfrom'⟩ := hsome vi vx hvx
    have hvxeq : vx'' = vx' := by
      rw [hvi] at hvx''
      exact (Option.some_injective _ hvx'').symm
    subst hvxeq
    obtain ⟨hI3to, hI3from, hndTo, hndFrom⟩ := hinv.2 vi vx hvx
    refine ⟨?_, ?_, ?_, ?_⟩
    · intro p hp
      have hpmem : p ∈ vx.connections_to := by
        by_cases hc : ed.from_ = vi
        · rw [if_pos hc] at hto'
          exact mem_of_mem_coe_sub hto' hp
        · rw [if_neg hc, Multiset.sub_zero] at hto'
          have : p ∈ (↑vx.connections_to : Multiset (Index × Index)) := by
            rw [← hto']; simpa using hp
          simpa using this
      obtain ⟨ed2, hed2, hfromeq, htoeq⟩ := hI3to p hpmem
      have hp2ne : p.2 ≠ e := by
        intro hpe
        rw [hpe] at hed2
        rw [hed] at hed2
        have hed2ed : ed2 = ed := (Option.some_injective _ hed2).symm
        have hc : ed.from_ = vi := by rw [← hed2ed]; exact hfromeq
        rw [if_pos hc] at hto'
        have hpent : p = (ed.to_, e) := by
          have : p.1 = ed.to_ := by rw [← htoeq, ← hed2ed]
          cases p with
          | mk p1 p2 => cases this; cases hpe; rfl
        rw [hpent] at hp
        have hcount : (↑vx.connections_to :
            Multiset (Index × Index)).count ((ed.to_, e) : Index × Index) ≤ 1 :=
          nodup_snd_count_le_one hndTo _
        have : ((ed.to_, e) : Index × Index) ∈
            (↑vx.connections_to : Multiset (Index × Index)) - {(ed.to_, e)} := by
          rw [← hto']; simpa using hp
        exact not_mem_coe_sub_self hcount this
      refine ⟨ed2, ?_, hfromeq, htoeq⟩
      rw [hedge p.2]
      rw [if_neg ?_]
      · exact hed2
      · intro hidx
        exact hp2ne (GenVec.live_same_slot hed2 hed hidx)
    · intro p hp
      have hpmem : p ∈ vx.connections_from := by
        by_cases hc : ed.to_ = vi
        · rw [if_pos hc] at hfrom'
          exact mem_of_mem_coe_sub hfrom' hp
        · rw [if_neg hc, Multiset.sub_zero] at hfrom'
          have : p ∈ (↑vx.connections_from : Multiset (Index × Index)) := by
            rw [← hfrom']; simpa using hp
          simpa using this
      obtain ⟨ed2, hed2, hfromeq, htoeq⟩ := hI3from p hpmem
      have hp2ne : p.2 ≠ e := by
        intro hpe
        rw [hpe] at hed2
        rw [hed] at hed2
        have hed2ed : ed2 = ed := (Option.some_injective _ hed2).symm
        have hc : ed.to_ = vi := by rw [← hed2ed]; exact htoeq
        rw [if_pos hc] at hfrom'
        have hpent : p = (ed.from_, e) := by
          have : p.1 = ed.from_ := by rw [← hfromeq, ← hed2ed]
          cases p with
          | mk p1 p2 => cases this; cases hpe; rfl
        rw [hpent] at hp
        have hcount : (↑vx.connections_from :
            Multiset (Index × Index)).count ((ed.from_, e) : Index × Index) ≤ 1 :=
          nodup_snd_count_le_one hndFrom _
        have : ((ed.from_, e) : Index × Index) ∈
            (↑vx.connections_from : Multiset (Index × Index)) - {(ed.from_, e)} := by
          rw [← hfrom']; simpa using hp
        exact not_mem_coe_sub_self hcount this
      refine ⟨ed2, ?_, hfromeq, htoeq⟩
      rw [hedge p.2]
      rw [if_neg ?_]
      · exact hed2
      · intro hidx
        exact hp2ne (GenVec.live_same_slot hed2 hed hidx)
    · exact nodup_snd_of_coe_sub hto' hndTo
    · exact nodup_snd_of_coe_sub hfrom' hndFrom

/-! The edge-removal loop of `remove_vertex`. -/

theorem outEntriesOf_congr {g g1 : Graph V E} {entries : List (Index × Index)}
    (h : ∀ q ∈ entries, g1.get_edge q.2 = g.get_edge q.2) (w : Index) :
    outEntriesOf g1 entries w = outEntriesOf g entries w := by
  unfold outEntriesOf
  exact List.filterMap_congr (fun q hq => by rw [h q hq])

theorem inEntriesOf_congr {g g1 : Graph V E} {entries : List (Index × Index)}
    (h : ∀ q ∈ entries, g1.get_edge q.2 = g.get_edge q.2) (w : Index) :
    inEntriesOf g1 entries w = inEntriesOf g entries w := by
  unfold inEntriesOf
  exact List.filterMap_congr (fun q hq => by rw [h q hq])

theorem outEntriesOf_cons {g : Graph V E} {p : Index × Index}
    {entries : List (Index × Index)} {ed : Edge E}
    (hed : g.get_edge p.2 = some ed) (w : Index) :
    (↑(outEntriesOf g (p :: entries) w) : Multiset (Index × Index)) =
      (if ed.from_ = w then ({(ed.to_, p.2)} : Multiset (Index × Index)) else 0) +
      ↑(outEntriesOf g entries w) := by
  by_cases hc : ed.from_ = w
  · simp only [outEntriesOf, List.filterMap_cons, hed, if_pos hc]
    rfl
  · simp only [outEntriesOf, List.filterMap_cons, hed, if_neg hc]
    simp

theorem inEntriesOf_cons {g : Graph V E} {p : Index × Index}
    {entries : List (Index × Index)} {ed : Edge E}
    (hed : g.get_edge p.2 = some ed) (w : Index) :
    (↑(inEntriesOf g (p :: entries) w) : Multiset (Index × Index)) =
      (if ed.to_ = w then ({(ed.from_, p.2)} : Multiset (Index × Index)) else 0) +
      ↑(inEntriesOf g entries w) := by
  by_cases hc : ed.to_ = w
  · simp only [inEntriesOf, List.filterMap_cons, hed, if_pos hc]
    rfl
  · simp only [inEntriesOf, List.filterMap_cons, hed, if_neg hc]
    simp

/-- Full lookup-level description of a successful run of the edge-removal
loop (`remove_edges_collect`) over a duplicate-free list of live edges:
the collected diffs record exactly the listed edges with their data, the
listed edge slots end `Open` one generation up, everything else in the
edge table is untouched, and each vertex's adjacency lists lose exactly
the entries of the removed edges; the adjacency invariant is preserved. -/
theorem Graph.remove_edges_collect_spec :
    ∀ (entries : List (Index × Index)) (g : Graph V E),
    AdjInv g →
    (∀ p ∈ entries, ∃ ed, g.get_edge p.2 = some ed) →
    ((entries.map Prod.snd).Nodup) →
    ∃ ds g', g.remove_edges_collect entries = .ok ds g' ∧
      AdjInv g' ∧
      ds.map (fun d => d.edge_index) = entries.map Prod.snd ∧
      (∀ d ∈ ds, g.get_edge d.edge_index = some d.edge) ∧
      (∀ s : Nat, s ∉ entries.map (fun p => p.2.index) →
        g'.edges.vec[s]? = g.edges.vec[s]?) ∧
      (∀ p ∈ entries, ∃ nxt : Option Nat, g'.edges.vec[p.2.index]? =
        some (.Open (p.2.generation + 1) nxt)) ∧
      g'.edges.vec.length = g.edges.vec.length ∧
      g'.verticies.next_open_slot = g.verticies.next_open_slot ∧
      g'.verticies.vec.length = g.verticies.vec.length ∧
      (∀ (s gen : Nat) (nxt : Option Nat),
        g.verticies.vec[s]? = some (.Open gen nxt) →
        g'.verticies.vec[s]? = some (.Open gen nxt)) ∧
      (∀ w, g.get_vertex w = none → g'.get_vertex w = none) ∧
      (∀ w wx, g.get_vertex w = some wx → ∃ wx',
        g'.get_vertex w = some wx' ∧
        wx'.data = wx.data ∧
        (↑wx'.connections_to : Multiset (Index × Index)) =
          ↑wx.connections_to - ↑(outEntriesOf g entries w) ∧
        (↑wx'.connections_from : Multiset (Index × Index)) =
          ↑wx.connections_from - ↑(inEntriesOf g entries w)) := by
  intro entries
  induction entries with
  | nil =>
    intro g hinv hlive hnd
    refine ⟨[], g, rfl, hinv, rfl, by simp, by simp, by simp, rfl, rfl, rfl,
      fun s gen nxt h => h, fun w h => h, ?_⟩
    intro w wx hwx
    exact ⟨wx, hwx, rfl, by simp [outEntriesOf], by simp [inEntriesOf]⟩
  | cons p rest ih =>
    intro g hinv hlive hnd
    obtain ⟨ed, hed⟩ := hlive p (by simp)
    obtain ⟨g1, hrun1, hevec1, hehead1, helook1, hvhead1, hvlen1, hvopen1,
      hvnone1, hvsome1⟩ := Graph.remove_edge_internal_spec hinv hed
    have hinv1 : AdjInv g1 := AdjInv_after_edge_removal hinv hed helook1 hvnone1 hvsome1
    rw [List.map_cons] at hnd
    have hpe_not_rest : p.2 ∉ rest.map Prod.snd := (List.nodup_cons.mp hnd).1
    have hndrest : (rest.map Prod.snd).Nodup := (List.nodup_cons.mp hnd).2
    have hslot_ne : ∀ q ∈ rest, q.2.index ≠ p.2.index := by
      intro q hq hqi
      obtain ⟨edq, hedq⟩ := hlive q (by simp [hq])
      have : q.2 = p.2 := GenVec.live_same_slot hedq hed hqi
      exact hpe_not_rest (this ▸ List.mem_map.mpr ⟨q, hq, rfl⟩)
    have hlook_rest : ∀ q ∈ rest, g1.get_edge q.2 = g.get_edge q.2 := by
      intro q hq
      rw [helook1 q.2, if_neg (hslot_ne q hq)]
    have hlive1 : ∀ q ∈ rest, ∃ edq, g1.get_edge q.2 = some edq := by
      intro q hq
      obtain ⟨edq, hedq⟩ := hlive q (by simp [hq])
      exact ⟨edq, by rw [hlook_rest q hq]; exact hedq⟩
    obtain ⟨ds', g', hrun2, hinv', hmap', hds', hsframe', hsopen', helen',
      hvhead', hvlen', hvopen', hvnone', hvsome'⟩ := ih g1 hinv1 hlive1 hndrest
    refine ⟨⟨p.2, ed⟩ :: ds', g', ?_, hinv', ?_, ?_, ?_, ?_, ?_, ?_, ?_, ?_, ?_, ?_⟩
    · unfold Graph.remove_edges_collect
      rw [hrun1]
      simp only [hrun2]
    · simp [hmap']
    · intro d hd
      rcases List.mem_cons.mp hd with rfl | hd2
      · exact hed
      · have hdm : d.edge_index ∈ rest.map Prod.snd := by
          rw [← hmap']
          exact List.mem_map.mpr ⟨d, hd2, rfl⟩
        obtain ⟨q, hq, hqe⟩ := List.mem_map.mp hdm
        have hlk : g1.get_edge d.edge_index = g.get_edge d.edge_index := by
          rw [← hqe]; exact hlook_rest q hq
        rw [← hlk]
        exact hds' d hd2
    · intro s hs
      have hs1 : s ∉ rest.map (fun p => p.2.index) := by
        intro hmem; exact hs (by simp at hmem ⊢; tauto)
      have hs2 : s ≠ p.2.index := by
        intro hmem; exact hs (by simp [hmem])
      rw [hsframe' s hs1, hevec1]
      rw [List.getElem?_set_ne (fun h => hs2 h.symm)]
    · intro q hq
      rcases List.mem_cons.mp hq with rfl | hq2
      · have hpnotrest : q.2.index ∉ rest.map (fun r => r.2.index) := by
          intro hmem
          obtain ⟨r, hr, hre⟩ := List.mem_map.mp hmem
          exact hslot_ne r hr hre
        rw [hsframe' q.2.index hpnotrest, hevec1]
        refine ⟨g.edges.next_open_slot, ?_⟩
        exact List.getElem?_set_self (GenVec.get_index_lt hed)
      · exact hsopen' q hq2
    · rw [helen', hevec1]
      simp
    · rw [hvhead', hvhead1]
    · rw [hvlen', hvlen1]
    · intro s gen nxt h
      exact hvopen' s gen nxt (hvopen1 s gen nxt h)
    · intro w hw
      exact hvnone' w (hvnone1 w hw)
    · intro w wx hwx
      obtain ⟨wx1, hwx1, hdata1, hto1, hfrom1⟩ := hvsome1 w wx hwx
      obtain ⟨wx', hwx', hdata', hto', hfrom'⟩ := hvsome' w wx1 hwx1
      refine ⟨wx', hwx', by rw [hdata', hdata1], ?_, ?_⟩
      · rw [hto', hto1, outEntriesOf_cons hed w,
          outEntriesOf_congr hlook_rest w]
        rw [tsub_tsub]
      · rw [hfrom', hfrom1, inEntriesOf_cons hed w,
          inEntriesOf_congr hlook_rest w]
        rw [tsub_tsub]

/-! Inversion of a successful removal run: the listed edges must have been
live and pairwise distinct (a dead or repeated edge makes the `unwrap`
panic), independent of any invariant. -/

theorem Graph.remove_edge_internal_ok_edges {g g1 : Graph V E} {e : Index}
    {x : E × RemoveEdge E} (h : g.remove_edge_internal e = .ok x g1) :
    ∃ ed, g.get_edge e = some ed ∧
      g1.edges.vec = g.edges.vec.set e.index
        (.Open (e.generation + 1) g.edges.next_open_slot) ∧
      g1.edges.next_open_slot = some e.index ∧
      (∀ j : Index, g1.get_edge j =
        if j.index = e.index then none else g.get_edge j) ∧
      g1.verticies.next_open_slot = g.verticies.next_open_slot ∧
      (∀ (s gen : Nat) (nxt : Option Nat),
        g.verticies.vec[s]? = some (.Open gen nxt) →
        g1.verticies.vec[s]? = some (.Open gen nxt)) := by
  unfold Graph.remove_edge_internal at h
  rcases hed : g.get_edge e with - | edge
  · rw [hed] at h; exact absurd h (by simp)
  · refine ⟨edge, rfl, ?_⟩
    rw [hed] at h
    simp only [] at h
    rcases h1 : (g.get_vertex edge.from_).bind (fun v => v.remove_to e) with - | fv
    · rw [h1] at h; exact absurd h (by simp)
    · simp only [h1] at h
      rcases h2 : ((g.setVertex edge.from_ fv).get_vertex edge.to_).bind
          (fun v => v.remove_from e) with - | tv
      · rw [h2] at h; exact absurd h (by simp)
      · simp only [h2] at h
        rcases h3 : ((g.setVertex edge.from_ fv).setVertex edge.to_ tv).edges.remove e
            with - | pr
        · rw [h3] at h; exact absurd h (by simp)
        · rw [h3] at h
          have hg1 : g1 = { (g.setVertex edge.from_ fv).setVertex edge.to_ tv
              with edges := pr.2 } := by
            rcases pr with ⟨prv, pre⟩
            injection h with h4 h5
            exact h5.symm
          have hedges : ((g.setVertex edge.from_ fv).setVertex edge.to_ tv).edges
              = g.edges := rfl
          rw [hedges] at h3
          have hpr : pr = (edge,
              ⟨g.edges.vec.set e.index (.Open (e.generation + 1)
                g.edges.next_open_slot), some e.index⟩) := by
            have := GenVec.remove_spec hed
            rw [this] at h3
            exact (Option.some_injective _ h3).symm
          obtain ⟨fv0, hfv0, -⟩ := Option.bind_eq_some.mp h1
          obtain ⟨tv0, htv0, -⟩ := Option.bind_eq_some.mp h2
          refine ⟨?_, ?_, ?_, ?_, ?_⟩
          · rw [hg1, hpr]
          · rw [hg1, hpr]
          · intro j
            rw [hg1, hpr]
            rw [show ({ (g.setVertex edge.from_ fv).setVertex edge.to_ tv with
              edges := (⟨g.edges.vec.set e.index (.Open (e.generation + 1)
                g.edges.next_open_slot), some e.index⟩ : GenVec (Edge E)) } :
              Graph V E).get_edge j = (⟨g.edges.vec.set e.index
                (.Open (e.generation + 1) g.edges.next_open_slot),
                some e.index⟩ : GenVec (Edge E)).get j from rfl]
            rw [GenVec.get_mk_set g.edges e.index _ _ j (GenVec.get_index_lt hed)]
            rcases Nat.decEq j.index e.index with hj | hj
            · rw [if_neg hj, if_neg hj]
              rfl
            · rw [if_pos hj, if_pos hj]
              rfl
          · rw [hg1]
            rfl
          · intro s gen nxt hs
            rw [hg1]
            rw [show ({ (g.setVertex edge.from_ fv).setVertex edge.to_ tv with
              edges := pr.2 } : Graph V E).verticies =
              ((g.verticies.setOcc edge.from_ fv).setOcc edge.to_ tv) from rfl]
            exact GenVec.setOcc_open_frame htv0 s gen nxt
              (GenVec.setOcc_open_frame hfv0 s gen nxt hs)

theorem Graph.remove_edges_collect_ok_facts :
    ∀ (entries : List (Index × Index)) (g : Graph V E) (ds : List (RemoveEdge E))
      (g' : Graph V E), g.remove_edges_collect entries = .ok ds g' →
    (∀ p ∈ entries, ∃ ed, g.get_edge p.2 = some ed) ∧
    (entries.map Prod.snd).Nodup := by
  intro entries
  induction entries with
  | nil => intro g ds g' h; exact ⟨by simp, by simp⟩
  | cons p rest ih =>
    intro g ds g' h
    unfold Graph.remove_edges_collect at h
    cases h1 : g.remove_edge_internal p.2 with
    | ok x g1 =>
      rcases x with ⟨ex, dx⟩
      simp only [h1] at h
      cases h2 : g1.remove_edges_collect rest with
      | ok ds2 g2 =>
        obtain ⟨ed, hed, -, -, hlook, -, -⟩ := Graph.remove_edge_internal_ok_edges h1
        obtain ⟨hlive2, hnd2⟩ := ih g1 ds2 g2 h2
        have hrest_glive : ∀ q ∈ rest, ∃ edq, g.get_edge q.2 = some edq := by
          intro q hq
          obtain ⟨edq, hedq⟩ := hlive2 q hq
          rw [hlook q.2] at hedq
          by_cases hqi : q.2.index = p.2.index
          · rw [if_pos hqi] at hedq; cases hedq
          · rw [if_neg hqi] at hedq; exact ⟨edq, hedq⟩
        refine ⟨?_, ?_⟩
        · intro q hq
          rcases List.mem_cons.mp hq with rfl | hq2
          · exact ⟨ed, hed⟩
          · exact hrest_glive q hq2
        · rw [List.map_cons]
          refine List.nodup_cons.mpr ⟨?_, hnd2⟩
          intro hmem
          obtain ⟨q, hq, hqe⟩ := List.mem_map.mp hmem
          obtain ⟨edq, hedq⟩ := hlive2 q hq
          rw [hlook q.2, hqe] at hedq
          rw [if_pos rfl] at hedq
          cases hedq
      | err e2 gg => rw [h2] at h; exact absurd h (by simp)
      | panicked => rw [h2] at h; exact absurd h (by simp)
    | err e1 gg =>
      simp only [h1] at h
      exact absurd h (by simp)
    | panicked =>
      simp only [h1] at h
      exact absurd h (by simp)

/-- For a live vertex whose incident-edge list is duplicate-free, the
entries the removal loop deletes at the vertex itself are exactly its own
adjacency lists (the outgoing ones from its `connections_to`, the incoming
ones from its `connections_from`). -/
theorem entries_at_self {g : Graph V E} {v : Index} {vx : Vertex V}
    (hinv : AdjInv g) (hvx : g.get_vertex v = some vx)
    (hnd : (((vx.connections_from ++ vx.connections_to).map Prod.snd)).Nodup) :
    outEntriesOf g (vx.connections_from ++ vx.connections_to) v =
      vx.connections_to ∧
    inEntriesOf g (vx.connections_from ++ vx.connections_to) v =
      vx.connections_from := by
  obtain ⟨hI3to, hI3from, -, -⟩ := hinv.2 v vx hvx
  rw [List.map_append, List.nodup_append] at hnd
  obtain ⟨-, -, hdisj⟩ := hnd
  constructor
  · unfold outEntriesOf
    rw [List.filterMap_append]
    have hA : vx.connections_from.filterMap (fun p =>
        match g.get_edge p.2 with
        | some ed => if ed.from_ = v then some (ed.to_, p.2) else none
        | none => none) = [] := by
      rw [List.filterMap_eq_nil_iff]
      intro p hp
      obtain ⟨ed2, hed2, hfromeq, htoeq⟩ := hI3from p hp
      rw [hed2]
      simp only []
      rw [if_neg ?_]
      intro hfv
      obtain ⟨⟨fv, hfv2, hmemTo⟩, -⟩ := hinv.1 p.2 ed2 hed2
      rw [hfv, hvx] at hfv2
      have hfveq : fv = vx := (Option.some_injective _ hfv2).symm
      subst hfveq
      exact hdisj (List.mem_map.mpr ⟨p, hp, rfl⟩)
        (List.mem_map.mpr ⟨(ed2.to_, p.2), hmemTo, rfl⟩)
    have hB : vx.connections_to.filterMap (fun p =>
        match g.get_edge p.2 with
        | some ed => if ed.from_ = v then some (ed.to_, p.2) else none
        | none => none) = vx.connections_to := by
      have hcongr : vx.connections_to.filterMap (fun p =>
          match g.get_edge p.2 with
          | some ed => if ed.from_ = v then some (ed.to_, p.2) else none
          | none => none) = vx.connections_to.filterMap some := by
        refine List.filterMap_congr ?_
        intro p hp
        obtain ⟨ed2, hed2, hfromeq, htoeq⟩ := hI3to p hp
        rw [hed2]
        simp only []
        rw [if_pos hfromeq, htoeq]
      rw [hcongr, List.filterMap_some]
    rw [hA, hB, List.nil_append]
  · unfold inEntriesOf
    rw [List.filterMap_append]
    have hA : vx.connections_from.filterMap (fun p =>
        match g.get_edge p.2 with
        | some ed => if ed.to_ = v then some (ed.from_, p.2) else none
        | none => none) = vx.connections_from := by
      have hcongr : vx.connections_from.filterMap (fun p =>
          match g.get_edge p.2 with
          | some ed => if ed.to_ = v then some (ed.from_, p.2) else none
          | none => none) = vx.connections_from.filterMap some := by
        refine List.filterMap_congr ?_
        intro p hp
        obtain ⟨ed2, hed2, hfromeq, htoeq⟩ := hI3from p hp
        rw [hed2]
        simp only []
        rw [if_pos htoeq, hfromeq]
      rw [hcongr, List.filterMap_some]
    have hB : vx.connections_to.filterMap (fun p =>
        match g.get_edge p.2 with
        | some ed => if ed.to_ = v then some (ed.from_, p.2) else none
        | none => none) = [] := by
      rw [List.filterMap_eq_nil_iff]
      intro p hp
      obtain ⟨ed2, hed2, hfromeq, htoeq⟩ := hI3to p hp
      rw [hed2]
      simp only []
      rw [if_neg ?_]
      intro htv
      obtain ⟨-, ⟨tv, htv2, hmemFrom⟩⟩ := hinv.1 p.2 ed2 hed2
      rw [htv, hvx] at htv2
      have htveq : tv = vx := (Option.some_injective _ htv2).symm
      subst htveq
      exact hdisj (List.mem_map.mpr ⟨(ed2.from_, p.2), hmemFrom, rfl⟩)
        (List.mem_map.mpr ⟨p, hp, rfl⟩)
    rw [hA, hB, List.append_nil]

/-! Free-list chains across the mutating slot-table operations. -/

/-- Freeing an occupied slot and pushing it on the free list extends any
valid chain by that slot. -/
theorem ChainL.push {vec : List (Element T)} {o : Option Nat} {l : List Nat}
    {s : Nat} {t : T} {gen gen2 : Nat}
    (hch : ChainL vec o l) (hs : vec[s]? = some (.Occupied t gen)) :
    ChainL (vec.set s (.Open gen2 o)) (some s) (s :: l) := by
  have hlt : s < vec.length := (List.getElem?_eq_some.mp hs).1
  have hnotmem : s ∉ l := by
    intro hmem
    obtain ⟨gen3, nxt3, h3⟩ := hch.all_open s hmem
    rw [hs] at h3
    exact absurd (Option.some_injective _ h3) (by simp)
  refine ChainL.cons s gen2 o l ?_ ?_
  · exact List.getElem?_set_self hlt
  · refine hch.frame ?_
    intro c hc
    exact List.getElem?_set_ne (fun h => hnotmem (by rw [h]; exact hc))

/-- Writing through a live index (`setOcc`) leaves any free-list chain
valid. -/
theorem GenVec.setOcc_chain {v : GenVec T} {i : Index} {t t2 : T}
    {l : List Nat} (hg : v.get i = some t)
    (hch : ChainL v.vec v.next_open_slot l) :
    ChainL (v.setOcc i t2).vec (v.setOcc i t2).next_open_slot l := by
  rw [show (v.setOcc i t2).next_open_slot = v.next_open_slot from rfl]
  refine hch.frame ?_
  intro s hs
  obtain ⟨gen, nxt, hopen_s⟩ := hch.all_open s hs
  rw [GenVec.setOcc_open_frame hg s gen nxt hopen_s, hopen_s]

/-- `GenVec::add` never panics on a table with a valid free-list chain; it
returns a slot-fresh `Index`, the new value is visible exactly there, and
the free list remains a valid chain. -/
theorem GenVec.add_chain_spec {v : GenVec T} {l : List Nat}
    (hch : ChainL v.vec v.next_open_slot l) (x : T) :
    ∃ i v2, v.add x = some (i, v2) ∧
      (∀ j : Index, j.index = i.index → v.get j = none) ∧
      (∀ j : Index, v2.get j = if j = i then some x else v.get j) ∧
      ∃ l2, ChainL v2.vec v2.next_open_slot l2 := by
  cases hh : v.next_open_slot with
  | none =>
    refine ⟨⟨v.vec.length, 0⟩, ⟨v.vec ++ [.Occupied x 0], none⟩,
      GenVec.add_spec_append hh, ?_, ?_, ⟨[], ChainL.nil⟩⟩
    · intro j hj
      exact GenVec.get_none_of_ge (Nat.le_of_eq hj.symm)
    · intro j
      rw [GenVec.get_mk_append]
      by_cases hji : j.index = v.vec.length
      · rw [if_pos hji]
        by_cases hje : j = ⟨v.vec.length, 0⟩
        · rw [if_pos hje, hje]
          rfl
        · rw [if_neg hje]
          have hgen : j.generation ≠ 0 := by
            intro hg0
            exact hje (Index.ext_iff2.mpr ⟨hji, hg0⟩)
          rw [show elemLookup (Element.Occupied x 0) j.generation = none by
            unfold elemLookup
            exact if_neg (fun h => hgen h.symm)]
          rw [GenVec.get_none_of_ge (Nat.le_of_eq hji.symm)]
      · rw [if_neg hji]
        have hje : j ≠ ⟨v.vec.length, 0⟩ := by
          intro h; exact hji (congrArg Index.index h)
        rw [if_neg hje]
  | some s =>
    rw [hh] at hch
    cases hch with
    | cons _ gen nxt l2 hs hrest =>
      have hslt : s < v.vec.length := (List.getElem?_eq_some.mp hs).1
      have hsnone : ∀ j : Index, j.index = s → v.get j = none := by
        intro j hj
        rw [GenVec.get_eq_bind, hj, hs]
        rfl
      refine ⟨⟨s, gen⟩, ⟨v.vec.set s (.Occupied x gen), nxt⟩, ?_, hsnone, ?_, ?_⟩
      · rw [GenVec.add_spec_reuse hh hs]
        rfl
      · intro j
        rw [GenVec.get_mk_set v s _ nxt j hslt]
        by_cases hji : j.index = s
        · rw [if_pos hji]
          by_cases hje : j = ⟨s, gen⟩
          · rw [if_pos hje, hje]
            unfold elemLookup
            simp
          · rw [if_neg hje]
            have hgen : j.generation ≠ gen := by
              intro hg0
              exact hje (Index.ext_iff2.mpr ⟨hji, hg0⟩)
            rw [show elemLookup (Element.Occupied x gen) j.generation = none by
              unfold elemLookup
              exact if_neg (fun h => hgen h.symm)]
            rw [hsnone j hji]
        · rw [if_neg hji]
          have hje : j ≠ ⟨s, gen⟩ := by
            intro h; exact hji (congrArg Index.index h)
          rw [if_neg hje]
      · refine ⟨l2, ?_⟩
        have hnotmem : s ∉ l2 :=
          ChainL.head_not_mem (ChainL.cons s gen nxt l2 hs hrest)
        refine hrest.frame ?_
        intro c hc
        exact List.getElem?_set_ne (fun h => hnotmem (by rw [h]; exact hc))

/-! Soundness of the decidable invariant checks. -/

/-- `GenVec::iter` enumerates exactly the live `(Index, value)` pairs. -/
theorem GenVec.mem_iter {v : GenVec T} {i : Index} {t : T} :
    (i, t) ∈ v.iter ↔ v.vec[i.index]? = some (.Occupied t i.generation) := by
  unfold GenVec.iter
  rw [List.mem_filterMap]
  constructor
  · rintro ⟨p, hp, hf⟩
    rw [List.mem_enum_iff_getElem?] at hp
    cases he : p.2 with
    | Occupied value gen =>
      rw [he] at hf
      simp only [] at hf
      have h1 : (⟨p.1, gen⟩ : Index) = i := congrArg Prod.fst (Option.some_injective _ hf)
      have h2 : value = t := congrArg Prod.snd (Option.some_injective _ hf)
      rw [he] at hp
      rw [← h1, ← h2]
      exact hp
    | Open gen nxt =>
      rw [he] at hf
      cases hf
  · intro h
    refine ⟨(i.index, .Occupied t i.generation), ?_, ?_⟩
    · exact List.mem_enum_iff_getElem?.mpr h
    · rfl

/-- The boolean adjacency check implies the adjacency invariant. -/
theorem adjInvB_sound {g : Graph V E} (h : adjInvB g = true) : AdjInv g := by
  unfold adjInvB at h
  rw [Bool.and_eq_true] at h
  obtain ⟨h1, h2⟩ := h
  rw [List.all_eq_true] at h1
  rw [List.all_eq_true] at h2
  constructor
  · intro ei ed hei
    have hmem : (ei, ed) ∈ g.edges.iter :=
      GenVec.mem_iter.mpr (GenVec.get_eq_some_iff.mp hei)
    have ha := h1 (ei, ed) hmem
    simp only [] at ha
    rw [Bool.and_eq_true] at ha
    obtain ⟨haf, hat⟩ := ha
    constructor
    · cases hfv : g.get_vertex ed.from_ with
      | none => rw [hfv] at haf; cases haf
      | some fv =>
        rw [hfv] at haf
        exact ⟨fv, rfl, of_decide_eq_true haf⟩
    · cases htv : g.get_vertex ed.to_ with
      | none => rw [htv] at hat; cases hat
      | some tv =>
        rw [htv] at hat
        exact ⟨tv, rfl, of_decide_eq_true hat⟩
  · intro vi vx hvi
    have hmem : (vi, vx) ∈ g.verticies.iter :=
      GenVec.mem_iter.mpr (GenVec.get_eq_some_iff.mp hvi)
    have ha := h2 (vi, vx) hmem
    simp only [] at ha
    rw [Bool.and_eq_true] at ha
    obtain ⟨ha, hndf⟩ := ha
    rw [Bool.and_eq_true] at ha
    obtain ⟨ha, hndt⟩ := ha
    rw [Bool.and_eq_true] at ha
    obtain ⟨hato, hafrom⟩ := ha
    rw [List.all_eq_true] at hato
    rw [List.all_eq_true] at hafrom
    refine ⟨?_, ?_, of_decide_eq_true hndt, of_decide_eq_true hndf⟩
    · intro p hp
      have hc := hato p hp
      cases hed : g.get_edge p.2 with
      | none => rw [hed] at hc; cases hc
      | some ed =>
        rw [hed] at hc
        rw [Bool.and_eq_true] at hc
        exact ⟨ed, rfl, of_decide_eq_true hc.1, of_decide_eq_true hc.2⟩
    · intro p hp
      have hc := hafrom p hp
      cases hed : g.get_edge p.2 with
      | none => rw [hed] at hc; cases hc
      | some ed =>
        rw [hed] at hc
        rw [Bool.and_eq_true] at hc
        exact ⟨ed, rfl, of_decide_eq_true hc.1, of_decide_eq_true hc.2⟩

/-- A graph passing the decidable well-formedness check satisfies the
proof-level invariant. -/
theorem WF_invP {g : Graph V E} (h : WF g) : InvP g :=
  ⟨adjInvB_sound h.1, chainOk_chain h.2.1, chainOk_chain h.2.2⟩

/-! `add_vertex` and the invariant. -/

/-- `Graph::add_vertex` on a table with a valid free-list chain: it
succeeds, mints a slot-fresh index holding a fresh empty vertex, touches
nothing else, and keeps a valid vertex free list. -/
theorem Graph.add_vertex_spec {g : Graph V E} {l : List Nat}
    (hch : ChainL g.verticies.vec g.verticies.next_open_slot l) (x : V) :
    ∃ i g1, g.add_vertex x = some ((i, .AddVertex ⟨i, x⟩), g1) ∧
      (∀ j : Index, j.index = i.index → g.get_vertex j = none) ∧
      (∀ j : Index, g1.get_vertex j =
        if j = i then some (Vertex.new x) else g.get_vertex j) ∧
      g1.edges = g.edges ∧
      ∃ l2, ChainL g1.verticies.vec g1.verticies.next_open_slot l2 := by
  obtain ⟨i, v2, hadd, hfresh, hlook, l2, hch2⟩ :=
    GenVec.add_chain_spec hch (Vertex.new x)
  refine ⟨i, { g with verticies := v2 }, ?_, hfresh, hlook, rfl, ⟨l2, hch2⟩⟩
  unfold Graph.add_vertex
  rw [hadd]

/-- Adding a fresh, empty vertex preserves the adjacency invariant. -/
theorem AdjInv_after_vertex_add {g g1 : Graph V E} {i : Index} {x : V}
    (hinv : AdjInv g)
    (hfresh : ∀ j : Index, j.index = i.index → g.get_vertex j = none)
    (hlook : ∀ j : Index, g1.get_vertex j =
      if j = i then some (Vertex.new x) else g.get_vertex j)
    (hedges : ∀ j : Index, g1.get_edge j = g.get_edge j) :
    AdjInv g1 := by
  constructor
  · intro ei ed hei
    rw [hedges] at hei
    obtain ⟨⟨fv, hfv, hmemTo⟩, ⟨tv, htv, hmemFrom⟩⟩ := hinv.1 ei ed hei
    have hfne : ed.from_ ≠ i := by
      intro h
      rw [hfresh ed.from_ (congrArg Index.index h)] at hfv
      cases hfv
    have htne : ed.to_ ≠ i := by
      intro h
      rw [hfresh ed.to_ (congrArg Index.index h)] at htv
      cases htv
    refine ⟨⟨fv, ?_, hmemTo⟩, ⟨tv, ?_, hmemFrom⟩⟩
    · rw [hlook, if_neg hfne]; exact hfv
    · rw [hlook, if_neg htne]; exact htv
  · intro vi vx hvi
    rw [hlook] at hvi
    by_cases hvie : vi = i
    · rw [if_pos hvie] at hvi
      have hvx : vx = Vertex.new x := (Option.some_injective _ hvi).symm
      subst hvx
      refine ⟨?_, ?_, ?_, ?_⟩
      · intro p hp
        rw [show (Vertex.new x).connections_to = [] from rfl] at hp
        cases hp
      · intro p hp
        rw [show (Vertex.new x).connections_from = [] from rfl] at hp
        cases hp
      · rw [show (Vertex.new x).connections_to = [] from rfl]
        simp
      · rw [show (Vertex.new x).connections_from = [] from rfl]
        simp
    · rw [if_neg hvie] at hvi
      obtain ⟨hI3to, hI3from, hnd1, hnd2⟩ := hinv.2 vi vx hvi
      refine ⟨?_, ?_, hnd1, hnd2⟩
      · intro p hp
        obtain ⟨ed, hed, h1, h2⟩ := hI3to p hp
        exact ⟨ed, by rw [hedges]; exact hed, h1, h2⟩
      · intro p hp
        obtain ⟨ed, hed, h1, h2⟩ := hI3from p hp
        exact ⟨ed, by rw [hedges]; exact hed, h1, h2⟩

/-- Overwriting a live vertex with one carrying the same adjacency lists
(only the data may differ) preserves the adjacency invariant. -/
theorem AdjInv_setVertex_same_conn {g : Graph V E} {i : Index}
    {vx vx2 : Vertex V} (hinv : AdjInv g) (hvx : g.get_vertex i = some vx)
    (hfrom : vx2.connections_from = vx.connections_from)
    (hto : vx2.connections_to = vx.connections_to) :
    AdjInv (g.setVertex i vx2) := by
  have hlookup : ∀ j : Index, (g.setVertex i vx2).get_vertex j =
      if j = i then some vx2 else g.get_vertex j := by
    intro j
    by_cases hj : j = i
    · rw [if_pos hj, hj]; exact Graph.get_vertex_setVertex_self hvx
    · rw [if_neg hj]; exact Graph.get_vertex_setVertex_ne hvx hj
  constructor
  · intro ei ed hei
    rw [Graph.get_edge_setVertex] at hei
    obtain ⟨⟨fv, hfv, hmemTo⟩, ⟨tv, htv, hmemFrom⟩⟩ := hinv.1 ei ed hei
    constructor
    · by_cases hf : ed.from_ = i
      · refine ⟨vx2, by rw [hlookup, if_pos hf], ?_⟩
        rw [hf, hvx] at hfv
        have hfveq : vx = fv := Option.some_injective _ hfv
        rw [hto, hfveq]
        exact hmemTo
      · exact ⟨fv, by rw [hlookup, if_neg hf]; exact hfv, hmemTo⟩
    · by_cases ht : ed.to_ = i
      · refine ⟨vx2, by rw [hlookup, if_pos ht], ?_⟩
        rw [ht, hvx] at htv
        have htveq : vx = tv := Option.some_injective _ htv
        rw [hfrom, htveq]
        exact hmemFrom
      · exact ⟨tv, by rw [hlookup, if_neg ht]; exact htv, hmemFrom⟩
  · intro vi vxw hvi
    rw [hlookup] at hvi
    by_cases hv : vi = i
    · rw [if_pos hv] at hvi
      have hw : vxw = vx2 := (Option.some_injective _ hvi).symm
      subst hw
      obtain ⟨hI3to, hI3from, hnd1, hnd2⟩ := hinv.2 i vx hvx
      rw [hv]
      refine ⟨?_, ?_, by rw [hto]; exact hnd1, by rw [hfrom]; exact hnd2⟩
      · intro p hp
        rw [hto] at hp
        obtain ⟨ed, hed, h1, h2⟩ := hI3to p hp
        exact ⟨ed, by rw [Graph.get_edge_setVertex]; exact hed, h1, h2⟩
      · intro p hp
        rw [hfrom] at hp
        obtain ⟨ed, hed, h1, h2⟩ := hI3from p hp
        exact ⟨ed, by rw [Graph.get_edge_setVertex]; exact hed, h1, h2⟩
    · rw [if_neg hv] at hvi
      obtain ⟨hI3to, hI3from, hnd1, hnd2⟩ := hinv.2 vi vxw hvi
      refine ⟨?_, ?_, hnd1, hnd2⟩
      · intro p hp
        obtain ⟨ed, hed, h1, h2⟩ := hI3to p hp
        exact ⟨ed, by rw [Graph.get_edge_setVertex]; exact hed, h1, h2⟩
      · intro p hp
        obtain ⟨ed, hed, h1, h2⟩ := hI3from p hp
        exact ⟨ed, by rw [Graph.get_edge_setVertex]; exact hed, h1, h2⟩

/-- Overwriting a live edge with one carrying the same endpoints (only the
data may differ) preserves the adjacency invariant. -/
theorem AdjInv_setEdge_data {g : Graph V E} {i : Index} {ed ed2 : Edge E}
    (hinv : AdjInv g) (hed : g.get_edge i = some ed)
    (hfrom : ed2.from_ = ed.from_) (hto : ed2.to_ = ed.to_) :
    AdjInv { g with edges := g.edges.setOcc i ed2 } := by
  have hlook : ∀ j : Index,
      ({ g with edges := g.edges.setOcc i ed2 } : Graph V E).get_edge j =
        if j = i then some ed2 else g.get_edge j := by
    intro j
    by_cases hj : j = i
    · rw [if_pos hj, hj]; exact GenVec.get_setOcc_self hed
    · rw [if_neg hj]; exact GenVec.get_setOcc_ne hed hj
  have hvert : ∀ j : Index,
      ({ g with edges := g.edges.setOcc i ed2 } : Graph V E).get_vertex j =
        g.get_vertex j := fun _ => rfl
  constructor
  · intro ei ed' hei
    rw [hlook] at hei
    by_cases hj : ei = i
    · rw [if_pos hj] at hei
      have he : ed' = ed2 := (Option.some_injective _ hei).symm
      subst he
      obtain ⟨⟨fv, hfv, hmemTo⟩, ⟨tv, htv, hmemFrom⟩⟩ := hinv.1 i ed hed
      rw [hj, hfrom, hto]
      exact ⟨⟨fv, by rw [hvert]; exact hfv, hmemTo⟩,
        ⟨tv, by rw [hvert]; exact htv, hmemFrom⟩⟩
    · rw [if_neg hj] at hei
      obtain ⟨⟨fv, hfv, hmemTo⟩, ⟨tv, htv, hmemFrom⟩⟩ := hinv.1 ei ed' hei
      exact ⟨⟨fv, by rw [hvert]; exact hfv, hmemTo⟩,
        ⟨tv, by rw [hvert]; exact htv, hmemFrom⟩⟩
  · intro vi vx hvi
    rw [hvert] at hvi
    obtain ⟨hI3to, hI3from, hnd1, hnd2⟩ := hinv.2 vi vx hvi
    refine ⟨?_, ?_, hnd1, hnd2⟩
    · intro p hp
      obtain ⟨ed3, hed3, h1, h2⟩ := hI3to p hp
      by_cases hj : p.2 = i
      · rw [hj] at hed3
        rw [hed] at hed3
        have he : ed3 = ed := (Option.some_injective _ hed3).symm
        subst he
        refine ⟨ed2, by rw [hlook, if_pos hj], ?_, ?_⟩
        · rw [hfrom]; exact h1
        · rw [hto]; exact h2
      · exact ⟨ed3, by rw [hlook, if_neg hj]; exact hed3, h1, h2⟩
    · intro p hp
      obtain ⟨ed3, hed3, h1, h2⟩ := hI3from p hp
      by_cases hj : p.2 = i
      · rw [hj] at hed3
        rw [hed] at hed3
        have he : ed3 = ed := (Option.some_injective _ hed3).symm
        subst he
        refine ⟨ed2, by rw [hlook, if_pos hj], ?_, ?_⟩
        · rw [hfrom]; exact h1
        · rw [hto]; exact h2
      · exact ⟨ed3, by rw [hlook, if_neg hj]; exact hed3, h1, h2⟩

/-! `add_edge` and the invariant. -/

theorem Graph.assert_vertex_exists_none {g : Graph V E} {i : Index}
    {vx : Vertex V} (h : g.get_vertex i = some vx) :
    g.assert_vertex_exists i = none := by
  unfold Graph.assert_vertex_exists
  rw [show g.verticies.get i = g.get_vertex i from rfl, h]
  rfl

theorem Graph.assert_edge_exists_none {g : Graph V E} {i : Index}
    {ed : Edge E} (h : g.get_edge i = some ed) :
    g.assert_edge_exists i = none := by
  unfold Graph.assert_edge_exists
  rw [show g.edges.get i = g.get_edge i from rfl, h]
  rfl

/-- `Graph::add_edge` between two live vertices on a sound edge free list:
it succeeds with a slot-fresh edge index, the edge is visible exactly
there, each endpoint's matching adjacency list gains exactly the one new
entry at its end, and everything else (other vertices, vertex free list,
table shape) is untouched. -/
theorem Graph.add_edge_spec {g : Graph V E} {f t : Index} {fv tv : Vertex V}
    {l : List Nat} (hf : g.get_vertex f = some fv)
    (ht : g.get_vertex t = some tv)
    (hch : ChainL g.edges.vec g.edges.next_open_slot l) (x : E) :
    ∃ i g3, g.add_edge f t x = .ok (i, .AddEdge ⟨i, f, t, x⟩) g3 ∧
      (∀ j : Index, j.index = i.index → g.get_edge j = none) ∧
      (∀ j : Index, g3.get_edge j =
        if j = i then some ⟨f, t, x⟩ else g.get_edge j) ∧
      g3.verticies.next_open_slot = g.verticies.next_open_slot ∧
      g3.verticies.vec.length = g.verticies.vec.length ∧
      (∀ (s gen : Nat) (nxt : Option Nat),
        g.verticies.vec[s]? = some (.Open gen nxt) →
        g3.verticies.vec[s]? = some (.Open gen nxt)) ∧
      (∀ w, g.get_vertex w = none → g3.get_vertex w = none) ∧
      (∀ w wx, g.get_vertex w = some wx → ∃ wx',
        g3.get_vertex w = some wx' ∧ wx'.data = wx.data ∧
        wx'.connections_to =
          wx.connections_to ++ (if f = w then [(t, i)] else []) ∧
        wx'.connections_from =
          wx.connections_from ++ (if t = w then [(f, i)] else [])) ∧
      ∃ l2, ChainL g3.edges.vec g3.edges.next_open_slot l2 := by
  obtain ⟨i, es, hadd, hfresh, hlook, l2, hch2⟩ :=
    GenVec.add_chain_spec hch (Edge.mk f t x)
  have hg1f : ({ g with edges := es } : Graph V E).get_vertex f = some fv := hf
  have hfreshg : ∀ j : Index, j.index = i.index → g.get_edge j = none := hfresh
  by_cases htf : t = f
  · -- both endpoints are the same vertex
    subst htf
    have hg2t : (({ g with edges := es } : Graph V E).setVertex t
        (fv.add_to_unchecked t i)).get_vertex t =
        some (fv.add_to_unchecked t i) :=
      Graph.get_vertex_setVertex_self hg1f
    refine ⟨i, (({ g with edges := es } : Graph V E).setVertex t
        (fv.add_to_unchecked t i)).setVertex t
        ((fv.add_to_unchecked t i).add_from_unchecked t i),
      ?_, hfreshg, ?_, rfl, ?_, ?_, ?_, ?_, ⟨l2, hch2⟩⟩
    · unfold Graph.add_edge
      rw [Graph.assert_vertex_exists_none hf]
      simp only [hadd, hg1f, hg2t]
    · intro j
      exact hlook j
    · rw [Graph.setVertex_verticies_len, Graph.setVertex_verticies_len]
    · intro s gen nxt hs
      refine GenVec.setOcc_open_frame hg2t s gen nxt ?_
      exact GenVec.setOcc_open_frame hg1f s gen nxt hs
    · intro w hw
      have hw1 : ({ g with edges := es } : Graph V E).get_vertex w = none := hw
      exact Graph.get_vertex_setVertex_none hg2t
        (Graph.get_vertex_setVertex_none hg1f hw1)
    · intro w wx hwx
      by_cases hwt : w = t
      · subst hwt
        rw [hf] at hwx
        have hfw : fv = wx := Option.some_injective _ hwx
        subst hfw
        refine ⟨(fv.add_to_unchecked w i).add_from_unchecked w i,
          Graph.get_vertex_setVertex_self hg2t, rfl, ?_, ?_⟩
        · simp [Vertex.add_to_unchecked, Vertex.add_from_unchecked]
        · simp [Vertex.add_to_unchecked, Vertex.add_from_unchecked]
      · have hwne : w ≠ t := hwt
        have hw1 : ({ g with edges := es } : Graph V E).get_vertex w = some wx := hwx
        refine ⟨wx, ?_, rfl, ?_, ?_⟩
        · rw [Graph.get_vertex_setVertex_ne hg2t hwne,
            Graph.get_vertex_setVertex_ne hg1f hwne]
          exact hw1
        · rw [if_neg (fun h => hwne h.symm)]
          simp
        · rw [if_neg (fun h => hwne h.symm)]
          simp
  · -- distinct endpoints
    have hg2t : (({ g with edges := es } : Graph V E).setVertex f
        (fv.add_to_unchecked t i)).get_vertex t = some tv := by
      rw [Graph.get_vertex_setVertex_ne hg1f htf]
      exact ht
    refine ⟨i, (({ g with edges := es } : Graph V E).setVertex f
        (fv.add_to_unchecked t i)).setVertex t
        (tv.add_from_unchecked f i),
      ?_, hfreshg, ?_, rfl, ?_, ?_, ?_, ?_, ⟨l2, hch2⟩⟩
    · unfold Graph.add_edge
      rw [Graph.assert_vertex_exists_none hf, Graph.assert_vertex_exists_none ht]
      simp only [hadd, hg1f, hg2t]
    · intro j
      exact hlook j
    · rw [Graph.setVertex_verticies_len, Graph.setVertex_verticies_len]
    · intro s gen nxt hs
      refine GenVec.setOcc_open_frame hg2t s gen nxt ?_
      exact GenVec.setOcc_open_frame hg1f s gen nxt hs
    · intro w hw
      have hw1 : ({ g with edges := es } : Graph V E).get_vertex w = none := hw
      exact Graph.get_vertex_setVertex_none hg2t
        (Graph.get_vertex_setVertex_none hg1f hw1)
    · intro w wx hwx
      by_cases hwt : w = t
      · subst hwt
        rw [ht] at hwx
        have htw : tv = wx := Option.some_injective _ hwx
        subst htw
        refine ⟨tv.add_from_unchecked f i,
          Graph.get_vertex_setVertex_self hg2t, rfl, ?_, ?_⟩
        · rw [if_neg (fun h => htf h.symm)]
          simp [Vertex.add_from_unchecked]
        · simp [Vertex.add_to_unchecked, Vertex.add_from_unchecked]
      · by_cases hwf : w = f
        · subst hwf
          rw [hf] at hwx
          have hfw : fv = wx := Option.some_injective _ hwx
          subst hfw
          refine ⟨fv.add_to_unchecked t i, ?_, rfl, ?_, ?_⟩
          · rw [Graph.get_vertex_setVertex_ne hg2t hwt]
            exact Graph.get_vertex_setVertex_self hg1f
          · simp [Vertex.add_to_unchecked, Vertex.add_from_unchecked]
          · rw [if_neg (fun h => hwt h.symm)]
            simp [Vertex.add_to_unchecked]
        · have hw1 : ({ g with edges := es } : Graph V E).get_vertex w =
            some wx := hwx
          refine ⟨wx, ?_, rfl, ?_, ?_⟩
          · rw [Graph.get_vertex_setVertex_ne hg2t hwt,
              Graph.get_vertex_setVertex_ne hg1f hwf]
            exact hw1
          · rw [if_neg (fun h => hwf h.symm)]
            simp
          · rw [if_neg (fun h => hwt h.symm)]
            simp

/-- Writing a fresh edge `⟨f, t, x⟩` into a slot at which no edge was
visible, and appending the matching entry to each live endpoint's
adjacency list, preserves the adjacency invariant.  This is the common
shape of `add_edge`, `apply_add_edge_diff` and
`rollback_remove_edge_diff`. -/
theorem AdjInv_after_edge_link {g g3 : Graph V E} {i f t : Index} {x : E}
    {fv tv : Vertex V} (hinv : AdjInv g)
    (hf : g.get_vertex f = some fv) (ht : g.get_vertex t = some tv)
    (hfresh : ∀ j : Index, j.index = i.index → g.get_edge j = none)
    (hedge : ∀ j : Index, g3.get_edge j =
      if j = i then some ⟨f, t, x⟩ else g.get_edge j)
    (hnone : ∀ w, g.get_vertex w = none → g3.get_vertex w = none)
    (hsome : ∀ w wx, g.get_vertex w = some wx → ∃ wx',
      g3.get_vertex w = some wx' ∧ wx'.data = wx.data ∧
      wx'.connections_to =
        wx.connections_to ++ (if f = w then [(t, i)] else []) ∧
      wx'.connections_from =
        wx.connections_from ++ (if t = w then [(f, i)] else [])) :
    AdjInv g3 := by
  have hmem_snd_ne : ∀ (w : Index) (wx : Vertex V), g.get_vertex w = some wx →
      ∀ L, (L = wx.connections_to ∨ L = wx.connections_from) →
      ∀ p ∈ L, (p : Index × Index).2 ≠ i := by
    intro w wx hwx L hL p hp hpe
    obtain ⟨hI3to, hI3from, -, -⟩ := hinv.2 w wx hwx
    rcases hL with rfl | rfl
    · obtain ⟨ed2, hed2, -, -⟩ := hI3to p hp
      rw [hpe, hfresh i rfl] at hed2
      cases hed2
    · obtain ⟨ed2, hed2, -, -⟩ := hI3from p hp
      rw [hpe, hfresh i rfl] at hed2
      cases hed2
  constructor
  · intro ei ed' hei
    rw [hedge] at hei
    by_cases hje : ei = i
    · rw [if_pos hje] at hei
      have he : ed' = ⟨f, t, x⟩ := (Option.some_injective _ hei).symm
      subst he
      obtain ⟨fv', hfv', -, hto', -⟩ := hsome f fv hf
      obtain ⟨tv', htv', -, -, hfrom'⟩ := hsome t tv ht
      constructor
      · refine ⟨fv', hfv', ?_⟩
        rw [show (⟨f, t, x⟩ : Edge E).to_ = t from rfl, hje, hto', if_pos rfl]
        simp
      · refine ⟨tv', htv', ?_⟩
        rw [show (⟨f, t, x⟩ : Edge E).from_ = f from rfl, hje, hfrom', if_pos rfl]
        simp
    · rw [if_neg hje] at hei
      obtain ⟨⟨fv2, hfv2, hmemTo⟩, ⟨tv2, htv2, hmemFrom⟩⟩ := hinv.1 ei ed' hei
      obtain ⟨fv2', hfv2', -, hto2', -⟩ := hsome ed'.from_ fv2 hfv2
      obtain ⟨tv2', htv2', -, -, hfrom2'⟩ := hsome ed'.to_ tv2 htv2
      constructor
      · refine ⟨fv2', hfv2', ?_⟩
        rw [hto2']
        exact List.mem_append_left _ hmemTo
      · refine ⟨tv2', htv2', ?_⟩
        rw [hfrom2']
        exact List.mem_append_left _ hmemFrom
  · intro vi vx' hvi
    rcases hvx : g.get_vertex vi with - | vx
    · rw [hnone vi hvx] at hvi
      cases hvi
    · obtain ⟨vx'', hvx'', hdata, hto', hfrom'⟩ := hsome vi vx hvx
      rw [hvi] at hvx''
      have hvv : vx'' = vx' := (Option.some_injective _ hvx'').symm
      subst hvv
      obtain ⟨hI3to, hI3from, hndTo, hndFrom⟩ := hinv.2 vi vx hvx
      refine ⟨?_, ?_, ?_, ?_⟩
      · intro p hp
        rw [hto'] at hp
        rcases List.mem_append.mp hp with hold | hnew
        · obtain ⟨ed2, hed2, h1, h2⟩ := hI3to p hold
          refine ⟨ed2, ?_, h1, h2⟩
          rw [hedge, if_neg (hmem_snd_ne vi vx hvx _ (Or.inl rfl) p hold)]
          exact hed2
        · by_cases hcnd : f = vi
          · rw [if_pos hcnd] at hnew
            have hpv : p = (t, i) := by simpa using hnew
            subst hpv
            refine ⟨⟨f, t, x⟩, ?_, hcnd, rfl⟩
            rw [hedge, if_pos rfl]
          · rw [if_neg hcnd] at hnew
            cases hnew
      · intro p hp
        rw [hfrom'] at hp
        rcases List.mem_append.mp hp with hold | hnew
        · obtain ⟨ed2, hed2, h1, h2⟩ := hI3from p hold
          refine ⟨ed2, ?_, h1, h2⟩
          rw [hedge, if_neg (hmem_snd_ne vi vx hvx _ (Or.inr rfl) p hold)]
          exact hed2
        · by_cases hcnd : t = vi
          · rw [if_pos hcnd] at hnew
            have hpv : p = (f, i) := by simpa using hnew
            subst hpv
            refine ⟨⟨f, t, x⟩, ?_, rfl, hcnd⟩
            rw [hedge, if_pos rfl]
          · rw [if_neg hcnd] at hnew
            cases hnew
      · rw [hto']
        by_cases hcnd : f = vi
        · rw [if_pos hcnd, List.map_append, List.nodup_append]
          refine ⟨hndTo, by simp, ?_⟩
          intro a ha hb
          have hai : a = i := by simpa using hb
          subst hai
          obtain ⟨p, hp, hpe⟩ := List.mem_map.mp ha
          exact hmem_snd_ne vi vx hvx _ (Or.inl rfl) p hp hpe
        · rw [if_neg hcnd]
          simpa using hndTo
      · rw [hfrom']
        by_cases hcnd : t = vi
        · rw [if_pos hcnd, List.map_append, List.nodup_append]
          refine ⟨hndFrom, by simp, ?_⟩
          intro a ha hb
          have hai : a = i := by simpa using hb
          subst hai
          obtain ⟨p, hp, hpe⟩ := List.mem_map.mp ha
          exact hmem_snd_ne vi vx hvx _ (Or.inr rfl) p hp hpe
        · rw [if_neg hcnd]
          simpa using hndFrom

/-- Freeing the slot of a live vertex whose adjacency lists are already
empty (as after the edge-removal loop) preserves the adjacency
invariant. -/
theorem AdjInv_after_vertex_removal {g g1 : Graph V E} {v : Index}
    {vx1 : Vertex V} (hinv : AdjInv g) (hvx : g.get_vertex v = some vx1)
    (hto : vx1.connections_to = []) (hfrom : vx1.connections_from = [])
    (hlook : ∀ j : Index, g1.get_vertex j =
      if j.index = v.index then none else g.get_vertex j)
    (hedges : ∀ j : Index, g1.get_edge j = g.get_edge j) :
    AdjInv g1 := by
  constructor
  · intro ei ed hei
    rw [hedges] at hei
    obtain ⟨⟨fv, hfv, hmemTo⟩, ⟨tv, htv, hmemFrom⟩⟩ := hinv.1 ei ed hei
    have hfne : ed.from_.index ≠ v.index := by
      intro h
      have : ed.from_ = v := GenVec.live_same_slot hfv hvx h
      rw [this, hvx] at hfv
      have hfveq : vx1 = fv := Option.some_injective _ hfv
      rw [← hfveq, hto] at hmemTo
      cases hmemTo
    have htne : ed.to_.index ≠ v.index := by
      intro h
      have : ed.to_ = v := GenVec.live_same_slot htv hvx h
      rw [this, hvx] at htv
      have htveq : vx1 = tv := Option.some_injective _ htv
      rw [← htveq, hfrom] at hmemFrom
      cases hmemFrom
    refine ⟨⟨fv, ?_, hmemTo⟩, ⟨tv, ?_, hmemFrom⟩⟩
    · rw [hlook, if_neg hfne]; exact hfv
    · rw [hlook, if_neg htne]; exact htv
  · intro vi vx hvi
    rw [hlook] at hvi
    by_cases hvidx : vi.index = v.index
    · rw [if_pos hvidx] at hvi; cases hvi
    · rw [if_neg hvidx] at hvi
      obtain ⟨hI3to, hI3from, hnd1, hnd2⟩ := hinv.2 vi vx hvi
      refine ⟨?_, ?_, hnd1, hnd2⟩
      · intro p hp
        obtain ⟨ed, hed, h1, h2⟩ := hI3to p hp
        exact ⟨ed, by rw [hedges]; exact hed, h1, h2⟩
      · intro p hp
        obtain ⟨ed, hed, h1, h2⟩ := hI3from p hp
        exact ⟨ed, by rw [hedges]; exact hed, h1, h2⟩

/-- A successful run of the edge-removal loop keeps the edge free list a
valid chain (each step frees an occupied slot and pushes it). -/
theorem Graph.remove_edges_collect_chain :
    ∀ (entries : List (Index × Index)) {g : Graph V E}
      {ds : List (RemoveEdge E)} {g' : Graph V E} {l : List Nat},
      g.remove_edges_collect entries = .ok ds g' →
      ChainL g.edges.vec g.edges.next_open_slot l →
      ∃ l2, ChainL g'.edges.vec g'.edges.next_open_slot l2 := by
  intro entries
  induction entries with
  | nil =>
    intro g ds g' l h hch
    unfold Graph.remove_edges_collect at h
    injection h with h1 h2
    subst h2
    exact ⟨l, hch⟩
  | cons p rest ih =>
    intro g ds g' l h hch
    unfold Graph.remove_edges_collect at h
    cases h1 : g.remove_edge_internal p.2 with
    | ok x g1 =>
      rcases x with ⟨ex, dx⟩
      simp only [h1] at h
      cases h2 : g1.remove_edges_collect rest with
      | ok ds2 g2 =>
        simp only [h2] at h
        injection h with h3 h4
        subst h4
        obtain ⟨ed, hed, hvec, hhead, -, -, -⟩ :=
          Graph.remove_edge_internal_ok_edges h1
        have hocc : g.edges.vec[p.2.index]? =
            some (.Occupied ed p.2.generation) := GenVec.get_eq_some_iff.mp hed
        have hch1 : ChainL g1.edges.vec g1.edges.next_open_slot
            (p.2.index :: l) := by
          rw [hvec, hhead]
          exact ChainL.push hch hocc
        exact ih h2 hch1
      | err e2 g2 => rw [h2] at h; exact absurd h (by simp)
      | panicked => rw [h2] at h; exact absurd h (by simp)
    | err e1 gg =>
      simp only [h1] at h
      exact absurd h (by simp)
    | panicked =>
      simp only [h1] at h
      exact absurd h (by simp)

/-- Structural inversion of a successful `remove_vertex`: the vertex was
live, the edge-removal loop over its recorded connections succeeded, and
the vertex slot of the loop's result was freed with a generation bump. -/
theorem Graph.remove_vertex_ok_inv {g g1 : Graph V E} {v : Index} {xd : V}
    {dd : GraphDiff V E} (h : g.remove_vertex v = .ok (xd, dd) g1) :
    ∃ vx ds gmid vx1,
      g.get_vertex v = some vx ∧
      g.remove_edges_collect (vx.connections_from ++ vx.connections_to) =
        .ok ds gmid ∧
      gmid.get_vertex v = some vx1 ∧
      xd = vx1.data ∧ dd = .RemoveVertex ⟨v, vx1, ds⟩ ∧
      g1 = { gmid with verticies :=
        ⟨gmid.verticies.vec.set v.index
          (.Open (v.generation + 1) gmid.verticies.next_open_slot),
         some v.index⟩ } := by
  unfold Graph.remove_vertex at h
  rcases hvx : g.get_vertex v with - | vx
  · rw [hvx] at h; exact absurd h (by simp)
  · rw [hvx] at h
    simp only [] at h
    cases hfold : g.remove_edges_collect
        (vx.connections_from ++ vx.connections_to) with
    | ok ds gmid =>
      simp only [hfold] at h
      cases hrem : gmid.verticies.remove v with
      | none => rw [hrem] at h; exact absurd h (by simp)
      | some pr =>
        rcases pr with ⟨vx1, vs⟩
        simp only [hrem] at h
        injection h with h1 h2
        injection h1 with h1a h1b
        rcases hget : gmid.verticies.get v with - | value
        · rw [GenVec.remove, hget] at hrem
          exact absurd hrem (by simp)
        · rw [GenVec.remove_spec hget] at hrem
          have hpr := Option.some_injective _ hrem
          have hv1 : value = vx1 := congrArg Prod.fst hpr
          have hvs : (⟨gmid.verticies.vec.set v.index
              (.Open (v.generation + 1) gmid.verticies.next_open_slot),
              some v.index⟩ : GenVec (Vertex V)) = vs := congrArg Prod.snd hpr
          refine ⟨vx, ds, gmid, vx1, rfl, hfold, ?_, h1a.symm, h1b.symm, ?_⟩
          · show gmid.verticies.get v = some vx1
            rw [hget, hv1]
          · rw [← h2, ← hvs]
    | err e2 g2 =>
      simp only [hfold] at h
      exact absurd h (by simp)
    | panicked =>
      simp only [hfold] at h
      exact absurd h (by simp)

/-- A lookup through a slot holding an `Open` element is `None`. -/
theorem GenVec.get_none_of_open {v : GenVec T} {j : Index} {gen : Nat}
    {nxt : Option Nat} (h : v.vec[j.index]? = some (.Open gen nxt)) :
    v.get j = none := by
  rw [GenVec.get_eq_bind, h]
  rfl

/-- An `assert_vertex_exists` success means the vertex is live. -/
theorem Graph.assert_vertex_exists_none_inv {g : Graph V E} {i : Index}
    (h : g.assert_vertex_exists i = none) : ∃ vx, g.get_vertex i = some vx := by
  unfold Graph.assert_vertex_exists at h
  rcases hg : g.verticies.get i with - | vx
  · rw [hg] at h
    simp at h
  · exact ⟨vx, hg⟩

/-- An `assert_edge_exists` success means the edge is live. -/
theorem Graph.assert_edge_exists_none_inv {g : Graph V E} {i : Index}
    (h : g.assert_edge_exists i = none) : ∃ ed, g.get_edge i = some ed := by
  unfold Graph.assert_edge_exists at h
  rcases hg : g.edges.get i with - | ed
  · rw [hg] at h
    simp at h
  · exact ⟨ed, hg⟩

/-! Exact error classification of the apply/rollback paths: inversions of
the existence asserts, then a complete characterization of each path's
error return (first failing check determines the typed error). -/

theorem Graph.assert_vertex_exists_some {g : Graph V E} {i : Index}
    (h : g.get_vertex i = none) :
    g.assert_vertex_exists i = some (.VertexDoesNotExist i) := by
  unfold Graph.assert_vertex_exists
  rw [show g.verticies.get i = g.get_vertex i from rfl, h]
  rfl

theorem Graph.assert_edge_exists_some {g : Graph V E} {i : Index}
    (h : g.get_edge i = none) :
    g.assert_edge_exists i = some (.EdgeDoesNotExist i) := by
  unfold Graph.assert_edge_exists
  rw [show g.edges.get i = g.get_edge i from rfl, h]
  rfl

theorem Graph.assert_vertex_exists_some_inv {g : Graph V E} {i : Index}
    {e : GraphError} (h : g.assert_vertex_exists i = some e) :
    g.get_vertex i = none ∧ e = .VertexDoesNotExist i := by
  unfold Graph.assert_vertex_exists at h
  rcases hg : g.verticies.get i with - | vx
  · rw [hg] at h
    simp at h
    exact ⟨hg, h.symm⟩
  · rw [hg] at h
    simp at h

theorem Graph.assert_edge_exists_some_inv {g : Graph V E} {i : Index}
    {e : GraphError} (h : g.assert_edge_exists i = some e) :
    g.get_edge i = none ∧ e = .EdgeDoesNotExist i := by
  unfold Graph.assert_edge_exists at h
  rcases hg : g.edges.get i with - | ed
  · rw [hg] at h
    simp at h
    exact ⟨hg, h.symm⟩
  · rw [hg] at h
    simp at h

theorem Graph.apply_add_vertex_err_iff {g g' : Graph V E} {d : AddVertex V}
    {e : GraphError} :
    g.apply_add_vertex_diff d = .err e g' ↔
      (g' = g ∧
        g.verticies.is_replaceable_by_index_apply d.vertex_index =
          some false ∧ e = .InvalidDiff) := by
  constructor
  · intro h
    unfold Graph.apply_add_vertex_diff at h
    rcases hr : g.verticies.is_replaceable_by_index_apply d.vertex_index
      with - | b
    · rw [hr] at h; simp at h
    · rw [hr] at h
      cases b
      · simp at h
        exact ⟨h.2.symm, rfl, h.1.symm⟩
      · simp at h
  · rintro ⟨rfl, hr, rfl⟩
    unfold Graph.apply_add_vertex_diff
    rw [hr]

theorem Graph.apply_add_edge_err_iff {g g' : Graph V E} {d : AddEdge E}
    {e : GraphError} :
    g.apply_add_edge_diff d = .err e g' ↔
      (g' = g ∧
        ((g.get_vertex d.from_ = none ∧
           e = .VertexDoesNotExist d.from_) ∨
         ((∃ fv, g.get_vertex d.from_ = some fv) ∧
           g.get_vertex d.to_ = none ∧
           e = .VertexDoesNotExist d.to_) ∨
         ((∃ fv, g.get_vertex d.from_ = some fv) ∧
           (∃ tv, g.get_vertex d.to_ = some tv) ∧
           g.edges.is_replaceable_by_index_apply d.edge_index = some false ∧
           e = .InvalidDiff))) := by
  constructor
  · intro h
    unfold Graph.apply_add_edge_diff at h
    rcases ha : g.assert_vertex_exists d.from_ with - | e1
    · rw [ha] at h
      rcases hb : g.assert_vertex_exists d.to_ with - | e2
      · rw [hb] at h
        rcases hr : g.edges.is_replaceable_by_index_apply d.edge_index
          with - | b
        · rw [hr] at h; simp at h
        · rw [hr] at h
          cases b
          · simp at h
            exact ⟨h.2.symm, .inr (.inr
              ⟨Graph.assert_vertex_exists_none_inv ha,
               Graph.assert_vertex_exists_none_inv hb, rfl, h.1.symm⟩)⟩
          · exact absurd h Graph.link_edge_no_err
      · rw [hb] at h
        simp at h
        obtain ⟨hto, he2⟩ := Graph.assert_vertex_exists_some_inv hb
        exact ⟨h.2.symm, .inr (.inl
          ⟨Graph.assert_vertex_exists_none_inv ha, hto,
           by rw [← h.1, he2]⟩)⟩
    · rw [ha] at h
      simp at h
      obtain ⟨hfrom, he1⟩ := Graph.assert_vertex_exists_some_inv ha
      exact ⟨h.2.symm, .inl ⟨hfrom, by rw [← h.1, he1]⟩⟩
  · rintro ⟨rfl, hc⟩
    unfold Graph.apply_add_edge_diff
    rcases hc with ⟨hfrom, rfl⟩ | ⟨⟨fv, hfv⟩, hto, rfl⟩ |
      ⟨⟨fv, hfv⟩, ⟨tv, htv⟩, hr, rfl⟩
    · rw [Graph.assert_vertex_exists_some hfrom]
    · rw [Graph.assert_vertex_exists_none hfv,
        Graph.assert_vertex_exists_some hto]
    · rw [Graph.assert_vertex_exists_none hfv,
        Graph.assert_vertex_exists_none htv, hr]

theorem Graph.apply_update_vertex_err_iff {g g' : Graph V E}
    {d : UpdateVertexData V} {e : GraphError} :
    g.apply_update_vertex_diff d = .err e g' ↔
      (g' = g ∧ g.get_vertex_mut_lookup d.index = some none ∧
        e = .VertexDoesNotExist d.index) := by
  constructor
  · intro h
    unfold Graph.apply_update_vertex_diff at h
    rcases hm : g.get_vertex_mut_lookup d.index with - | r
    · rw [hm] at h; simp at h
    · rw [hm] at h
      rcases r with - | vx
      · simp at h
        exact ⟨h.2.symm, rfl, h.1.symm⟩
      · simp at h
  · rintro ⟨rfl, hm, rfl⟩
    unfold Graph.apply_update_vertex_diff
    rw [hm]

theorem Graph.apply_update_edge_err_iff {g g' : Graph V E}
    {d : UpdateEdgeData E} {e : GraphError} :
    g.apply_update_edge_diff d = .err e g' ↔
      (g' = g ∧ g.get_edge_mut_lookup d.index = some none ∧
        e = .EdgeDoesNotExist d.index) := by
  constructor
  · intro h
    unfold Graph.apply_update_edge_diff at h
    rcases hm : g.get_edge_mut_lookup d.index with - | r
    · rw [hm] at h; simp at h
    · rw [hm] at h
      rcases r with - | ed
      · simp at h
        exact ⟨h.2.symm, rfl, h.1.symm⟩
      · simp at h
  · rintro ⟨rfl, hm, rfl⟩
    unfold Graph.apply_update_edge_diff
    rw [hm]

theorem Graph.apply_remove_edge_err_iff {g g' : Graph V E} {d : RemoveEdge E}
    {e : GraphError} :
    g.apply_remove_edge_diff d = .err e g' ↔
      (g' = g ∧
        ((g.get_vertex d.edge.from_ = none ∧
           e = .VertexDoesNotExist d.edge.from_) ∨
         ((∃ fv, g.get_vertex d.edge.from_ = some fv) ∧
           g.get_vertex d.edge.to_ = none ∧
           e = .VertexDoesNotExist d.edge.to_) ∨
         ((∃ fv, g.get_vertex d.edge.from_ = some fv) ∧
           (∃ tv, g.get_vertex d.edge.to_ = some tv) ∧
           g.get_edge d.edge_index = none ∧
           e = .EdgeDoesNotExist d.edge_index))) := by
  constructor
  · intro h
    unfold Graph.apply_remove_edge_diff at h
    rcases ha : g.assert_vertex_exists d.edge.from_ with - | e1
    · rw [ha] at h
      rcases hb : g.assert_vertex_exists d.edge.to_ with - | e2
      · rw [hb] at h
        rcases hcx : g.assert_edge_exists d.edge_index with - | e3
        · simp only [hcx] at h
          cases hd : g.remove_edge d.edge_index with
          | ok a gr => simp only [hd] at h; simp at h
          | err ea gr => simp only [hd] at h; simp at h
          | panicked => simp only [hd] at h; simp at h
        · rw [hcx] at h
          simp at h
          obtain ⟨hedge, he3⟩ := Graph.assert_edge_exists_some_inv hcx
          exact ⟨h.2.symm, .inr (.inr
            ⟨Graph.assert_vertex_exists_none_inv ha,
             Graph.assert_vertex_exists_none_inv hb, hedge,
             by rw [← h.1, he3]⟩)⟩
      · rw [hb] at h
        simp at h
        obtain ⟨hto, he2⟩ := Graph.assert_vertex_exists_some_inv hb
        exact ⟨h.2.symm, .inr (.inl
          ⟨Graph.assert_vertex_exists_none_inv ha, hto,
           by rw [← h.1, he2]⟩)⟩
    · rw [ha] at h
      simp at h
      obtain ⟨hfrom, he1⟩ := Graph.assert_vertex_exists_some_inv ha
      exact ⟨h.2.symm, .inl ⟨hfrom, by rw [← h.1, he1]⟩⟩
  · rintro ⟨rfl, hc⟩
    unfold Graph.apply_remove_edge_diff
    rcases hc with ⟨hfrom, rfl⟩ | ⟨⟨fv, hfv⟩, hto, rfl⟩ |
      ⟨⟨fv, hfv⟩, ⟨tv, htv⟩, hedge, rfl⟩
    · rw [Graph.assert_vertex_exists_some hfrom]
    · rw [Graph.assert_vertex_exists_none hfv,
        Graph.assert_vertex_exists_some hto]
    · rw [Graph.assert_vertex_exists_none hfv,
        Graph.assert_vertex_exists_none htv,
        Graph.assert_edge_exists_some hedge]

theorem Graph.apply_remove_vertex_err_iff {g g' : Graph V E}
    {d : RemoveVertex V E} {e : GraphError} :
    g.apply_remove_vertex_diff d = .err e g' ↔
      (g' = g ∧ g.get_vertex d.vertex_index = none ∧
        e = .VertexDoesNotExist d.vertex_index) := by
  constructor
  · intro h
    unfold Graph.apply_remove_vertex_diff at h
    rcases ha : g.assert_vertex_exists d.vertex_index with - | e1
    · simp only [ha] at h
      cases hd : g.remove_vertex d.vertex_index with
      | ok a gr => simp only [hd] at h; simp at h
      | err ea gr => simp only [hd] at h; simp at h
      | panicked => simp only [hd] at h; simp at h
    · rw [ha] at h
      simp at h
      obtain ⟨hv, he1⟩ := Graph.assert_vertex_exists_some_inv ha
      exact ⟨h.2.symm, hv, by rw [← h.1, he1]⟩
  · rintro ⟨rfl, hv, rfl⟩
    unfold Graph.apply_remove_vertex_diff
    rw [Graph.assert_vertex_exists_some hv]

theorem Graph.rollback_add_vertex_err_iff {g g' : Graph V E}
    {d : AddVertex V} {e : GraphError} :
    g.rollback_add_vertex_diff d = .err e g' ↔
      (g' = g ∧ g.get_vertex d.vertex_index = none ∧
        e = .VertexDoesNotExist d.vertex_index) := by
  constructor
  · intro h
    unfold Graph.rollback_add_vertex_diff at h
    rcases ha : g.assert_vertex_exists d.vertex_index with - | e1
    · simp only [ha] at h
      cases hd : g.remove_vertex_and_reset d.vertex_index with
      | ok a gr => simp only [hd] at h; simp at h
      | err ea gr => simp only [hd] at h; simp at h
      | panicked => simp only [hd] at h; simp at h
    · rw [ha] at h
      simp at h
      obtain ⟨hv, he1⟩ := Graph.assert_vertex_exists_some_inv ha
      exact ⟨h.2.symm, hv, by rw [← h.1, he1]⟩
  · rintro ⟨rfl, hv, rfl⟩
    unfold Graph.rollback_add_vertex_diff
    rw [Graph.assert_vertex_exists_some hv]

theorem Graph.rollback_add_edge_err_iff {g g' : Graph V E} {d : AddEdge E}
    {e : GraphError} :
    g.rollback_add_edge_diff d = .err e g' ↔
      (g' = g ∧
        ((g.get_vertex d.from_ = none ∧
           e = .VertexDoesNotExist d.from_) ∨
         ((∃ fv, g.get_vertex d.from_ = some fv) ∧
           g.get_vertex d.to_ = none ∧
           e = .VertexDoesNotExist d.to_) ∨
         ((∃ fv, g.get_vertex d.from_ = some fv) ∧
           (∃ tv, g.get_vertex d.to_ = some tv) ∧
           g.get_edge d.edge_index = none ∧
           e = .EdgeDoesNotExist d.edge_index))) := by
  constructor
  · intro h
    unfold Graph.rollback_add_edge_diff at h
    rcases ha : g.assert_vertex_exists d.from_ with - | e1
    · rw [ha] at h
      rcases hb : g.assert_vertex_exists d.to_ with - | e2
      · rw [hb] at h
        rcases hcx : g.assert_edge_exists d.edge_index with - | e3
        · simp only [hcx] at h
          cases hd : g.remove_edge_and_reset d.edge_index with
          | ok a gr => simp only [hd] at h; simp at h
          | err ea gr => simp only [hd] at h; simp at h
          | panicked => simp only [hd] at h; simp at h
        · rw [hcx] at h
          simp at h
          obtain ⟨hedge, he3⟩ := Graph.assert_edge_exists_some_inv hcx
          exact ⟨h.2.symm, .inr (.inr
            ⟨Graph.assert_vertex_exists_none_inv ha,
             Graph.assert_vertex_exists_none_inv hb, hedge,
             by rw [← h.1, he3]⟩)⟩
      · rw [hb] at h
        simp at h
        obtain ⟨hto, he2⟩ := Graph.assert_vertex_exists_some_inv hb
        exact ⟨h.2.symm, .inr (.inl
          ⟨Graph.assert_vertex_exists_none_inv ha, hto,
           by rw [← h.1, he2]⟩)⟩
    · rw [ha] at h
      simp at h
      obtain ⟨hfrom, he1⟩ := Graph.assert_vertex_exists_some_inv ha
      exact ⟨h.2.symm, .inl ⟨hfrom, by rw [← h.1, he1]⟩⟩
  · rintro ⟨rfl, hc⟩
    unfold Graph.rollback_add_edge_diff
    rcases hc with ⟨hfrom, rfl⟩ | ⟨⟨fv, hfv⟩, hto, rfl⟩ |
      ⟨⟨fv, hfv⟩, ⟨tv, htv⟩, hedge, rfl⟩
    · rw [Graph.assert_vertex_exists_some hfrom]
    · rw [Graph.assert_vertex_exists_none hfv,
        Graph.assert_vertex_exists_some hto]
    · rw [Graph.assert_vertex_exists_none hfv,
        Graph.assert_vertex_exists_none htv,
        Graph.assert_edge_exists_some hedge]

theorem Graph.rollback_update_vertex_err_iff {g g' : Graph V E}
    {d : UpdateVertexData V} {e : GraphError} :
    g.rollback_update_vertex_diff d = .err e g' ↔
      (g' = g ∧ g.get_vertex_mut_lookup d.index = some none ∧
        e = .VertexDoesNotExist d.index) := by
  constructor
  · intro h
    unfold Graph.rollback_update_vertex_diff at h
    rcases hm : g.get_vertex_mut_lookup d.index with - | r
    · rw [hm] at h; simp at h
    · rw [hm] at h
      rcases r with - | vx
      · simp at h
        exact ⟨h.2.symm, rfl, h.1.symm⟩
      · simp at h
  · rintro ⟨rfl, hm, rfl⟩
    unfold Graph.rollback_update_vertex_diff
    rw [hm]

theorem Graph.rollback_update_edge_err_iff {g g' : Graph V E}
    {d : UpdateEdgeData E} {e : GraphError} :
    g.rollback_update_edge_diff d = .err e g' ↔
      (g' = g ∧ g.get_edge_mut_lookup d.index = some none ∧
        e = .EdgeDoesNotExist d.index) := by
  constructor
  · intro h
    unfold Graph.rollback_update_edge_diff at h
    rcases hm : g.get_edge_mut_lookup d.index with - | r
    · rw [hm] at h; simp at h
    · rw [hm] at h
      rcases r with - | ed
      · simp at h
        exact ⟨h.2.symm, rfl, h.1.symm⟩
      · simp at h
  · rintro ⟨rfl, hm, rfl⟩
    unfold Graph.rollback_update_edge_diff
    rw [hm]

theorem Graph.rollback_remove_edge_err_iff {g g' : Graph V E}
    {d : RemoveEdge E} {e : GraphError} :
    g.rollback_remove_edge_diff d = .err e g' ↔
      (g' = g ∧
        ((g.get_vertex d.edge.from_ = none ∧
           e = .VertexDoesNotExist d.edge.from_) ∨
         ((∃ fv, g.get_vertex d.edge.from_ = some fv) ∧
           g.get_vertex d.edge.to_ = none ∧
           e = .VertexDoesNotExist d.edge.to_) ∨
         ((∃ fv, g.get_vertex d.edge.from_ = some fv) ∧
           (∃ tv, g.get_vertex d.edge.to_ = some tv) ∧
           g.edges.is_replaceable_by_index_rollback d.edge_index =
             some false ∧
           e = .InvalidDiff))) := by
  constructor
  · intro h
    unfold Graph.rollback_remove_edge_diff at h
    rcases ha : g.assert_vertex_exists d.edge.from_ with - | e1
    · rw [ha] at h
      rcases hb : g.assert_vertex_exists d.edge.to_ with - | e2
      · rw [hb] at h
        rcases hr : g.edges.is_replaceable_by_index_rollback d.edge_index
          with - | b
        · rw [hr] at h; simp at h
        · rw [hr] at h
          cases b
          · simp at h
            exact ⟨h.2.symm, .inr (.inr
              ⟨Graph.assert_vertex_exists_none_inv ha,
               Graph.assert_vertex_exists_none_inv hb, rfl, h.1.symm⟩)⟩
          · exact absurd h Graph.link_edge_no_err
      · rw [hb] at h
        simp at h
        obtain ⟨hto, he2⟩ := Graph.assert_vertex_exists_some_inv hb
        exact ⟨h.2.symm, .inr (.inl
          ⟨Graph.assert_vertex_exists_none_inv ha, hto,
           by rw [← h.1, he2]⟩)⟩
    · rw [ha] at h
      simp at h
      obtain ⟨hfrom, he1⟩ := Graph.assert_vertex_exists_some_inv ha
      exact ⟨h.2.symm, .inl ⟨hfrom, by rw [← h.1, he1]⟩⟩
  · rintro ⟨rfl, hc⟩
    unfold Graph.rollback_remove_edge_diff
    rcases hc with ⟨hfrom, rfl⟩ | ⟨⟨fv, hfv⟩, hto, rfl⟩ |
      ⟨⟨fv, hfv⟩, ⟨tv, htv⟩, hr, rfl⟩
    · rw [Graph.assert_vertex_exists_some hfrom]
    · rw [Graph.assert_vertex_exists_none hfv,
        Graph.assert_vertex_exists_some hto]
    · rw [Graph.assert_vertex_exists_none hfv,
        Graph.assert_vertex_exists_none htv, hr]

theorem Graph.rollback_remove_vertex_err_iff {g g' : Graph V E}
    {d : RemoveVertex V E} {e : GraphError} :
    g.rollback_remove_vertex_diff d = .err e g' ↔
      (g' = g ∧
        ((g.verticies.is_replaceable_by_index_rollback d.vertex_index =
            some false ∧ e = .InvalidDiff) ∨
         (g.verticies.is_replaceable_by_index_rollback d.vertex_index =
            some true ∧
          Graph.check_edges_replaceable g.edges d.removed_edges =
            some false ∧
          e = .InvalidDiff))) := by
  constructor
  · intro h
    unfold Graph.rollback_remove_vertex_diff at h
    rcases hr : g.verticies.is_replaceable_by_index_rollback d.vertex_index
      with - | b
    · rw [hr] at h; simp at h
    · rw [hr] at h
      cases b
      · simp at h
        exact ⟨h.2.symm, .inl ⟨rfl, h.1.symm⟩⟩
      · simp only [] at h
        rcases hc : Graph.check_edges_replaceable g.edges d.removed_edges
          with - | b2
        · rw [hc] at h; simp at h
        · rw [hc] at h
          cases b2
          · simp at h
            exact ⟨h.2.symm, .inr ⟨rfl, rfl, h.1.symm⟩⟩
          · simp only [] at h
            exact absurd h Graph.restore_edges_no_err
  · rintro ⟨rfl, hc⟩
    unfold Graph.rollback_remove_vertex_diff
    rcases hc with ⟨hr, rfl⟩ | ⟨hr, hck, rfl⟩
    · rw [hr]
    · rw [hr, hck]

/-- The exact condition under which graph.rs's `apply_diff` answers an
error for each diff kind: the first failing precondition check on the
path, paired with the typed error the source returns for it —
`InvalidDiff` for a failed replaceability (recorded generation) check,
`VertexDoesNotExist`/`EdgeDoesNotExist` naming the offending index for a
failed existence check. -/
def applyDiffErr (g : Graph V E) : GraphDiff V E → GraphError → Prop
  | .AddVertex dv, e =>
      g.verticies.is_replaceable_by_index_apply dv.vertex_index =
        some false ∧ e = .InvalidDiff
  | .AddEdge de, e =>
      (g.get_vertex de.from_ = none ∧ e = .VertexDoesNotExist de.from_) ∨
      ((∃ fv, g.get_vertex de.from_ = some fv) ∧
        g.get_vertex de.to_ = none ∧ e = .VertexDoesNotExist de.to_) ∨
      ((∃ fv, g.get_vertex de.from_ = some fv) ∧
        (∃ tv, g.get_vertex de.to_ = some tv) ∧
        g.edges.is_replaceable_by_index_apply de.edge_index = some false ∧
        e = .InvalidDiff)
  | .UpdateVertexData du, e =>
      g.get_vertex_mut_lookup du.index = some none ∧
        e = .VertexDoesNotExist du.index
  | .UpdateEdgeData du, e =>
      g.get_edge_mut_lookup du.index = some none ∧
        e = .EdgeDoesNotExist du.index
  | .RemoveEdge dr, e =>
      (g.get_vertex dr.edge.from_ = none ∧
        e = .VertexDoesNotExist dr.edge.from_) ∨
      ((∃ fv, g.get_vertex dr.edge.from_ = some fv) ∧
        g.get_vertex dr.edge.to_ = none ∧
        e = .VertexDoesNotExist dr.edge.to_) ∨
      ((∃ fv, g.get_vertex dr.edge.from_ = some fv) ∧
        (∃ tv, g.get_vertex dr.edge.to_ = some tv) ∧
        g.get_edge dr.edge_index = none ∧
        e = .EdgeDoesNotExist dr.edge_index)
  | .RemoveVertex dr, e =>
      g.get_vertex dr.vertex_index = none ∧
        e = .VertexDoesNotExist dr.vertex_index

/-- The exact condition under which graph.rs's `rollback_diff` answers an
error for each diff kind, in the same form as `applyDiffErr`. -/
def rollbackDiffErr (g : Graph V E) : GraphDiff V E → GraphError → Prop
  | .AddVertex dv, e =>
      g.get_vertex dv.vertex_index = none ∧
        e = .VertexDoesNotExist dv.vertex_index
  | .AddEdge de, e =>
      (g.get_vertex de.from_ = none ∧ e = .VertexDoesNotExist de.from_) ∨
      ((∃ fv, g.get_vertex de.from_ = some fv) ∧
        g.get_vertex de.to_ = none ∧ e = .VertexDoesNotExist de.to_) ∨
      ((∃ fv, g.get_vertex de.from_ = some fv) ∧
        (∃ tv, g.get_vertex de.to_ = some tv) ∧
        g.get_edge de.edge_index = none ∧
        e = .EdgeDoesNotExist de.edge_index)
  | .UpdateVertexData du, e =>
      g.get_vertex_mut_lookup du.index = some none ∧
        e = .VertexDoesNotExist du.index
  | .UpdateEdgeData du, e =>
      g.get_edge_mut_lookup du.index = some none ∧
        e = .EdgeDoesNotExist du.index
  | .RemoveEdge dr, e =>
      (g.get_vertex dr.edge.from_ = none ∧
        e = .VertexDoesNotExist dr.edge.from_) ∨
      ((∃ fv, g.get_vertex dr.edge.from_ = some fv) ∧
        g.get_vertex dr.edge.to_ = none ∧
        e = .VertexDoesNotExist dr.edge.to_) ∨
      ((∃ fv, g.get_vertex dr.edge.from_ = some fv) ∧
        (∃ tv, g.get_vertex dr.edge.to_ = some tv) ∧
        g.edges.is_replaceable_by_index_rollback dr.edge_index =
          some false ∧
        e = .InvalidDiff)
  | .RemoveVertex dr, e =>
      (g.verticies.is_replaceable_by_index_rollback dr.vertex_index =
        some false ∧ e = .InvalidDiff) ∨
      (g.verticies.is_replaceable_by_index_rollback dr.vertex_index =
        some true ∧
       Graph.check_edges_replaceable g.edges dr.removed_edges =
         some false ∧
       e = .InvalidDiff)

/-- Claim C2 (amended): whenever `apply_diff` or `rollback_diff` answers
with an error — any failed precondition that does not panic — the graph is
left completely unchanged, and the returned error is exactly classified by
the first failing check of the path: `InvalidDiff` exactly when a recorded
generation fails a replaceability check, and
`VertexDoesNotExist`/`EdgeDoesNotExist` naming the offending index when an
existence check fails.  Stated as a complete characterization (an iff) of
the error outcome of both directions for every diff kind. -/
theorem C2_failed_diff_unchanged (g g' : Graph V E) (d : GraphDiff V E)
    (e : GraphError) :
    (g.apply_diff d = .err e g' ↔ (g' = g ∧ applyDiffErr g d e)) ∧
    (g.rollback_diff d = .err e g' ↔ (g' = g ∧ rollbackDiffErr g d e)) := by
  cases d with
  | AddVertex dv =>
    exact ⟨Graph.apply_add_vertex_err_iff, Graph.rollback_add_vertex_err_iff⟩
  | AddEdge de =>
    exact ⟨Graph.apply_add_edge_err_iff, Graph.rollback_add_edge_err_iff⟩
  | UpdateVertexData du =>
    exact ⟨Graph.apply_update_vertex_err_iff,
      Graph.rollback_update_vertex_err_iff⟩
  | UpdateEdgeData du =>
    exact ⟨Graph.apply_update_edge_err_iff,
      Graph.rollback_update_edge_err_iff⟩
  | RemoveEdge dr =>
    exact ⟨Graph.apply_remove_edge_err_iff,
      Graph.rollback_remove_edge_err_iff⟩
  | RemoveVertex dr =>
    exact ⟨Graph.apply_remove_vertex_err_iff,
      Graph.rollback_remove_vertex_err_iff⟩

/-- Witness for C2 at concrete failing diffs: an out-of-order apply of an
`AddVertex` diff (the slot has moved on to generation 1) fails the
replaceability check and is classified `InvalidDiff` with the graph
unchanged, and a rollback of an `AddVertex` diff whose vertex is gone
fails the existence check and is classified `VertexDoesNotExist`. -/
theorem C2_failed_diff_unchanged_witness :
    ((⟨⟨[.Open 1 none], some 0⟩, ⟨[], none⟩⟩ : Graph Nat Nat) =
        ⟨⟨[.Open 1 none], some 0⟩, ⟨[], none⟩⟩ ∧
      applyDiffErr (⟨⟨[.Open 1 none], some 0⟩, ⟨[], none⟩⟩ : Graph Nat Nat)
        (.AddVertex ⟨⟨0, 0⟩, 5⟩) .InvalidDiff) ∧
    ((⟨⟨[.Open 1 none], some 0⟩, ⟨[], none⟩⟩ : Graph Nat Nat) =
        ⟨⟨[.Open 1 none], some 0⟩, ⟨[], none⟩⟩ ∧
      rollbackDiffErr
        (⟨⟨[.Open 1 none], some 0⟩, ⟨[], none⟩⟩ : Graph Nat Nat)
        (.AddVertex ⟨⟨0, 0⟩, 5⟩) (.VertexDoesNotExist ⟨0, 0⟩)) :=
  ⟨(C2_failed_diff_unchanged
      (⟨⟨[.Open 1 none], some 0⟩, ⟨[], none⟩⟩ : Graph Nat Nat)
      (⟨⟨[.Open 1 none], some 0⟩, ⟨[], none⟩⟩ : Graph Nat Nat)
      (.AddVertex ⟨⟨0, 0⟩, 5⟩) .InvalidDiff).1.mp rfl,
   (C2_failed_diff_unchanged
      (⟨⟨[.Open 1 none], some 0⟩, ⟨[], none⟩⟩ : Graph Nat Nat)
      (⟨⟨[.Open 1 none], some 0⟩, ⟨[], none⟩⟩ : Graph Nat Nat)
      (.AddVertex ⟨⟨0, 0⟩, 5⟩) (.VertexDoesNotExist ⟨0, 0⟩)).2.mp rfl⟩

/-! Error returns leave the graph untouched (the source returns before
mutating). -/

theorem Graph.add_edge_err_state {g g2 : Graph V E} {f t : Index} {x : E}
    {e : GraphError} (h : g.add_edge f t x = .err e g2) : g2 = g := by
  unfold Graph.add_edge at h
  rcases haf : g.assert_vertex_exists f with - | e1
  · rw [haf] at h
    rcases hat : g.assert_vertex_exists t with - | e2
    · rw [hat] at h
      rcases hadd : g.edges.add (Edge.mk f t x) with - | pr
      · rw [hadd] at h; exact absurd h (by simp)
      · rcases pr with ⟨i, es⟩
        simp only [hadd] at h
        rcases hgf : ({ g with edges := es } : Graph V E).get_vertex f with - | fv
        · rw [hgf] at h; exact absurd h (by simp)
        · simp only [hgf] at h
          rcases hgt : (({ g with edges := es } : Graph V E).setVertex f
              (fv.add_to_unchecked t i)).get_vertex t with - | tv
          · rw [hgt] at h; exact absurd h (by simp)
          · simp only [hgt] at h
            exact absurd h (by simp)
    · rw [hat] at h
      injection h with h1 h2
      exact h2.symm
  · rw [haf] at h
    injection h with h1 h2
    exact h2.symm

theorem Graph.update_vertex_err_state {g g2 : Graph V E} {i : Index} {x : V}
    {e : GraphError} (h : g.update_vertex i x = .err e g2) : g2 = g := by
  unfold Graph.update_vertex at h
  rcases hm : g.get_vertex_mut_lookup i with - | r
  · rw [hm] at h; exact absurd h (by simp)
  · rcases r with - | vx
    · rw [hm] at h
      injection h with h1 h2
      exact h2.symm
    · rw [hm] at h
      exact absurd h (by simp)

theorem Graph.update_edge_err_state {g g2 : Graph V E} {i : Index} {x : E}
    {e : GraphError} (h : g.update_edge i x = .err e g2) : g2 = g := by
  unfold Graph.update_edge at h
  rcases hm : g.get_edge_mut_lookup i with - | r
  · rw [hm] at h; exact absurd h (by simp)
  · rcases r with - | ed
    · rw [hm] at h
      injection h with h1 h2
      exact h2.symm
    · rw [hm] at h
      exact absurd h (by simp)

theorem Graph.remove_edge_internal_err_state {g g2 : Graph V E} {i : Index}
    {e : GraphError} (h : g.remove_edge_internal i = .err e g2) : g2 = g := by
  unfold Graph.remove_edge_internal at h
  rcases hed : g.get_edge i with - | edge
  · rw [hed] at h
    injection h with h1 h2
    exact h2.symm
  · rw [hed] at h
    simp only [] at h
    rcases h1 : (g.get_vertex edge.from_).bind (fun v => v.remove_to i) with - | fv
    · rw [h1] at h; exact absurd h (by simp)
    · simp only [h1] at h
      rcases h2 : ((g.setVertex edge.from_ fv).get_vertex edge.to_).bind
          (fun v => v.remove_from i) with - | tv
      · rw [h2] at h; exact absurd h (by simp)
      · simp only [h2] at h
        rcases h3 : ((g.setVertex edge.from_ fv).setVertex edge.to_ tv).edges.remove i
            with - | pr
        · rw [h3] at h; exact absurd h (by simp)
        · rw [h3] at h
          rcases pr with ⟨prv, pre⟩
          exact absurd h (by simp)

theorem Graph.remove_edge_err_state {g g2 : Graph V E} {i : Index}
    {e : GraphError} (h : g.remove_edge i = .err e g2) : g2 = g := by
  unfold Graph.remove_edge at h
  cases hint : g.remove_edge_internal i with
  | ok x gx =>
    rcases x with ⟨d, diff⟩
    simp only [hint] at h
    exact absurd h (by simp)
  | err e1 gx =>
    simp only [hint] at h
    injection h with h1 h2
    subst h2
    exact Graph.remove_edge_internal_err_state hint
  | panicked =>
    simp only [hint] at h
    exact absurd h (by simp)

theorem Graph.remove_vertex_err_state {g g2 : Graph V E} {i : Index}
    {e : GraphError} (h : g.remove_vertex i = .err e g2) : g2 = g := by
  unfold Graph.remove_vertex at h
  rcases hvx : g.get_vertex i with - | vx
  · rw [hvx] at h
    injection h with h1 h2
    exact h2.symm
  · rw [hvx] at h
    simp only [] at h
    cases hfold : g.remove_edges_collect
        (vx.connections_from ++ vx.connections_to) with
    | ok ds gmid =>
      simp only [hfold] at h
      cases hrem : gmid.verticies.remove i with
      | none => rw [hrem] at h; exact absurd h (by simp)
      | some pr =>
        rcases pr with ⟨vx1, vs⟩
        simp only [hrem] at h
        exact absurd h (by simp)
    | err e2 gx =>
      simp only [hfold] at h
      exact absurd h (by simp)
    | panicked =>
      simp only [hfold] at h
      exact absurd h (by simp)

/-- Every public mutating operation that completes (normally or with a
typed error) preserves the adjacency invariant and the soundness of both
free lists. -/
theorem stepG_preserves_InvP {g g1 : Graph V E} {op : GOp V E}
    (hinv : InvP g) (h : stepG g op = some g1) : InvP g1 := by
  obtain ⟨hadj, ⟨lv, hchv⟩, ⟨le, hche⟩⟩ := hinv
  cases op with
  | addVertex d =>
    obtain ⟨i, g2, hrun, hfresh, hlook, hedges, l2, hch2⟩ :=
      Graph.add_vertex_spec hchv d
    unfold stepG at h
    simp only [] at h
    rw [hrun] at h
    have hg : g2 = g1 := by simpa using h
    subst hg
    refine ⟨?_, ⟨l2, hch2⟩, ⟨le, by rw [hedges]; exact hche⟩⟩
    refine AdjInv_after_vertex_add hadj hfresh hlook ?_
    intro j
    show g2.edges.get j = g.edges.get j
    rw [hedges]
  | addEdge f t d =>
    unfold stepG at h
    simp only [] at h
    cases hres : g.add_edge f t d with
    | ok r g2 =>
      rw [hres] at h
      have hg : g2 = g1 := by simpa using h
      subst hg
      rcases haf : g.assert_vertex_exists f with - | e1
      · rcases hat : g.assert_vertex_exists t with - | e2
        · obtain ⟨fv, hf⟩ := Graph.assert_vertex_exists_none_inv haf
          obtain ⟨tv, ht⟩ := Graph.assert_vertex_exists_none_inv hat
          obtain ⟨i, g3, hrun, hfresh, hlook, hvhead, hvlen, hvopen, hnone,
            hsome, l2, hch2⟩ := Graph.add_edge_spec hf ht hche d
          rw [hrun] at hres
          injection hres with h1 h2
          subst h2
          refine ⟨AdjInv_after_edge_link hadj hf ht hfresh hlook hnone hsome,
            ⟨lv, ?_⟩, ⟨l2, hch2⟩⟩
          rw [hvhead]
          refine hchv.frame ?_
          intro s hs
          obtain ⟨gen, nxt, hsv⟩ := hchv.all_open s hs
          rw [hvopen s gen nxt hsv, hsv]
        · exfalso
          unfold Graph.add_edge at hres
          rw [haf, hat] at hres
          exact absurd hres (by simp)
      · exfalso
        unfold Graph.add_edge at hres
        rw [haf] at hres
        exact absurd hres (by simp)
    | err e g2 =>
      rw [hres] at h
      have hg : g2 = g1 := by simpa using h
      subst hg
      have hgg : g2 = g := Graph.add_edge_err_state hres
      subst hgg
      exact ⟨hadj, ⟨lv, hchv⟩, ⟨le, hche⟩⟩
    | panicked =>
      rw [hres] at h
      cases h
  | updateVertex i d =>
    unfold stepG at h
    simp only [] at h
    cases hres : g.update_vertex i d with
    | ok r g2 =>
      rw [hres] at h
      have hg : g2 = g1 := by simpa using h
      subst hg
      rcases r with ⟨old, dd⟩
      obtain ⟨vx, hvx, -, hg1⟩ := Graph.update_vertex_ok_inv hres
      subst hg1
      refine ⟨AdjInv_setVertex_same_conn hadj hvx rfl rfl,
        ⟨lv, GenVec.setOcc_chain hvx hchv⟩, ⟨le, hche⟩⟩
    | err e g2 =>
      rw [hres] at h
      have hg : g2 = g1 := by simpa using h
      subst hg
      have hgg : g2 = g := Graph.update_vertex_err_state hres
      subst hgg
      exact ⟨hadj, ⟨lv, hchv⟩, ⟨le, hche⟩⟩
    | panicked =>
      rw [hres] at h
      cases h
  | updateEdge i d =>
    unfold stepG at h
    simp only [] at h
    cases hres : g.update_edge i d with
    | ok r g2 =>
      rw [hres] at h
      have hg : g2 = g1 := by simpa using h
      subst hg
      rcases r with ⟨old, dd⟩
      obtain ⟨ed, hed, -, hg1⟩ := Graph.update_edge_ok_inv hres
      subst hg1
      refine ⟨AdjInv_setEdge_data hadj hed rfl rfl,
        ⟨lv, hchv⟩, ⟨le, GenVec.setOcc_chain hed hche⟩⟩
    | err e g2 =>
      rw [hres] at h
      have hg : g2 = g1 := by simpa using h
      subst hg
      have hgg : g2 = g := Graph.update_edge_err_state hres
      subst hgg
      exact ⟨hadj, ⟨lv, hchv⟩, ⟨le, hche⟩⟩
    | panicked =>
      rw [hres] at h
      cases h
  | removeEdge i =>
    unfold stepG at h
    simp only [] at h
    cases hres : g.remove_edge i with
    | ok r g2 =>
      rw [hres] at h
      have hg : g2 = g1 := by simpa using h
      subst hg
      unfold Graph.remove_edge at hres
      cases hint : g.remove_edge_internal i with
      | ok x gx =>
        rcases x with ⟨d0, diff0⟩
        simp only [hint] at hres
        injection hres with h1 h2
        subst h2
        obtain ⟨ed, hed, -, -, -, -, -⟩ := Graph.remove_edge_internal_ok_edges hint
        obtain ⟨g', hrun, hevec, hehead, helook, hvhead, hvlen, hvopen,
          hvnone, hvsome⟩ := Graph.remove_edge_internal_spec hadj hed
        rw [hrun] at hint
        injection hint with h3 h4
        subst h4
        refine ⟨AdjInv_after_edge_removal hadj hed helook hvnone hvsome,
          ⟨lv, ?_⟩, ⟨i.index :: le, ?_⟩⟩
        · rw [hvhead]
          refine hchv.frame ?_
          intro s hs
          obtain ⟨gen, nxt, hsv⟩ := hchv.all_open s hs
          rw [hvopen s gen nxt hsv, hsv]
        · rw [hevec, hehead]
          exact ChainL.push hche (GenVec.get_eq_some_iff.mp hed)
      | err e1 gx =>
        simp only [hint] at hres
        exact absurd hres (by simp)
      | panicked =>
        simp only [hint] at hres
        exact absurd hres (by simp)
    | err e g2 =>
      rw [hres] at h
      have hg : g2 = g1 := by simpa using h
      subst hg
      have hgg : g2 = g := Graph.remove_edge_err_state hres
      subst hgg
      exact ⟨hadj, ⟨lv, hchv⟩, ⟨le, hche⟩⟩
    | panicked =>
      rw [hres] at h
      cases h
  | removeVertex i =>
    unfold stepG at h
    simp only [] at h
    cases hres : g.remove_vertex i with
    | ok r g2 =>
      rw [hres] at h
      have hg : g2 = g1 := by simpa using h
      subst hg
      rcases r with ⟨xd, dd⟩
      obtain ⟨vx, ds, gmid, vx1, hvx, hfold, hget, -, -, hg1form⟩ :=
        Graph.remove_vertex_ok_inv hres
      obtain ⟨hlive, hnd⟩ := Graph.remove_edges_collect_ok_facts _ g ds gmid hfold
      obtain ⟨ds', g'', hrun, hinvmid, hmap, hds, hsframe, hsopen, helen,
        hvhead, hvlen, hvopen, hvnone, hvsome⟩ :=
        Graph.remove_edges_collect_spec _ g hadj hlive hnd
      rw [hrun] at hfold
      injection hfold with h1 h2
      subst h1
      subst h2
      obtain ⟨hout, hin⟩ := entries_at_self hadj hvx hnd
      obtain ⟨vx1', hv1', hdata1, hto1, hfrom1⟩ := hvsome i vx hvx
      rw [hget] at hv1'
      have hv1eq : vx1' = vx1 := Option.some_injective _ hv1'.symm
      rw [hv1eq] at hdata1 hto1 hfrom1
      have htoz : vx1.connections_to = [] := by
        refine (Multiset.coe_eq_zero _).mp ?_
        rw [hto1, hout]
        exact tsub_self _
      have hfromz : vx1.connections_from = [] := by
        refine (Multiset.coe_eq_zero _).mp ?_
        rw [hfrom1, hin]
        exact tsub_self _
      have hvlt : i.index < g''.verticies.vec.length :=
        GenVec.get_index_lt hget
      have hlookv : ∀ j : Index, g2.get_vertex j =
          if j.index = i.index then none else g''.get_vertex j := by
        intro j
        rw [hg1form]
        rw [show ({ g'' with verticies :=
          ⟨g''.verticies.vec.set i.index
            (.Open (i.generation + 1) g''.verticies.next_open_slot),
           some i.index⟩ } : Graph V E).get_vertex j =
          (⟨g''.verticies.vec.set i.index
            (.Open (i.generation + 1) g''.verticies.next_open_slot),
           some i.index⟩ : GenVec (Vertex V)).get j from rfl]
        rw [GenVec.get_mk_set g''.verticies i.index _ _ j hvlt]
        rcases Nat.decEq j.index i.index with hj | hj
        · rw [if_neg hj, if_neg hj]
          rfl
        · rw [if_pos hj, if_pos hj]
          rfl
      have hlooke : ∀ j : Index, g2.get_edge j = g''.get_edge j := by
        intro j
        rw [hg1form]
        rfl
      refine ⟨AdjInv_after_vertex_removal hinvmid hget htoz hfromz hlookv hlooke,
        ⟨i.index :: lv, ?_⟩, ?_⟩
      · have hchmid : ChainL g''.verticies.vec g''.verticies.next_open_slot lv := by
          rw [hvhead]
          refine hchv.frame ?_
          intro s hs
          obtain ⟨gen, nxt, hsv⟩ := hchv.all_open s hs
          rw [hvopen s gen nxt hsv, hsv]
        have hocc : g''.verticies.vec[i.index]? =
            some (.Occupied vx1 i.generation) := GenVec.get_eq_some_iff.mp hget
        rw [hg1form]
        exact ChainL.push hchmid hocc
      · obtain ⟨le2, hche2⟩ := Graph.remove_edges_collect_chain _ hrun hche
        refine ⟨le2, ?_⟩
        rw [hg1form]
        exact hche2
    | err e g2 =>
      rw [hres] at h
      have hg : g2 = g1 := by simpa using h
      subst hg
      have hgg : g2 = g := Graph.remove_vertex_err_state hres
      subst hgg
      exact ⟨hadj, ⟨lv, hchv⟩, ⟨le, hche⟩⟩
    | panicked =>
      rw [hres] at h
      cases h

/-- The empty graph satisfies the proof-level invariant. -/
theorem InvP_new : InvP (Graph.new : Graph V E) := by
  refine ⟨⟨?_, ?_⟩, ⟨[], ChainL.nil⟩, ⟨[], ChainL.nil⟩⟩
  · intro ei ed hei
    rw [show (Graph.new : Graph V E).get_edge ei = none from
      GenVec.get_none_of_ge (Nat.zero_le _)] at hei
    cases hei
  · intro vi vx hvi
    rw [show (Graph.new : Graph V E).get_vertex vi = none from
      GenVec.get_none_of_ge (Nat.zero_le _)] at hvi
    cases hvi

/-- The invariant carries through every completed run of mutating
operations. -/
theorem runG_preserves_InvP :
    ∀ {ops : List (GOp V E)} {g gf : Graph V E},
      InvP g → runG g ops = some gf → InvP gf := by
  intro ops
  induction ops with
  | nil =>
    intro g gf hinv h
    unfold runG at h
    injection h with h1
    subst h1
    exact hinv
  | cons op rest ih =>
    intro g gf hinv h
    unfold runG at h
    cases hs : stepG g op with
    | none => rw [hs] at h; cases h
    | some g1 =>
      rw [hs] at h
      exact ih (stepG_preserves_InvP hinv hs) h

/-- Claim C4 (corrected): after any sequence of the six public mutating
operations (`add_vertex`, `add_edge`, `update_vertex`, `update_edge`,
`remove_edge`, `remove_vertex`) executed from `Graph::new`, each
completing normally or with a typed error, the bidirectional adjacency
invariant holds: every live edge is recorded exactly once in its source's
outgoing and its target's incoming adjacency list, and every adjacency
entry resolves to a live edge whose endpoints match.  (The diff-replay
operations must be excluded — see the counterexample.) -/
theorem C4_adjacency_invariant {ops : List (GOp V E)} {gf : Graph V E}
    (h : runG Graph.new ops = some gf) : AdjInv gf :=
  (runG_preserves_InvP InvP_new h).1

/-- Witness for C4: a concrete three-operation run, with the adjacency
invariant of the resulting graph obtained from the theorem. -/
theorem C4_adjacency_invariant_witness :
    runG (Graph.new : Graph Nat Nat)
        [.addVertex 5, .addVertex 6, .addEdge ⟨0, 0⟩ ⟨1, 0⟩ 7] =
      some ⟨⟨[.Occupied ⟨[], [(⟨1, 0⟩, ⟨0, 0⟩)], 5⟩ 0,
              .Occupied ⟨[(⟨0, 0⟩, ⟨0, 0⟩)], [], 6⟩ 0], none⟩,
            ⟨[.Occupied ⟨⟨0, 0⟩, ⟨1, 0⟩, 7⟩ 0], none⟩⟩ ∧
    AdjInv (⟨⟨[.Occupied ⟨[], [(⟨1, 0⟩, ⟨0, 0⟩)], 5⟩ 0,
               .Occupied ⟨[(⟨0, 0⟩, ⟨0, 0⟩)], [], 6⟩ 0], none⟩,
             ⟨[.Occupied ⟨⟨0, 0⟩, ⟨1, 0⟩, 7⟩ 0], none⟩⟩ : Graph Nat Nat) :=
  ⟨rfl, @C4_adjacency_invariant Nat Nat
    [.addVertex 5, .addVertex 6, .addEdge ⟨0, 0⟩ ⟨1, 0⟩ 7] _ rfl⟩

/-- The operation sequence refuting C4 as frozen: add two verticies, roll
the second addition back and re-apply it (both succeed, but the re-apply
writes the slot without popping the free list), add an edge to the second
vertex, then add one more vertex — `GenVec::add` follows the stale free
head and silently overwrites the live slot 1. -/
def c4DiffReplay : Option (Graph Nat Nat) :=
  match (Graph.new : Graph Nat Nat).add_vertex 10 with
  | none => none
  | some (_, gA) =>
    match gA.add_vertex 20 with
    | none => none
    | some ((_, d2), gB) =>
      match gB.rollback_diff d2 with
      | .ok _ gC =>
        match gC.apply_diff d2 with
        | .ok _ gD =>
          match gD.add_edge ⟨0, 0⟩ ⟨1, 0⟩ 30 with
          | .ok _ gE =>
            match gE.add_vertex 40 with
            | some (_, gF) => some gF
            | none => none
          | _ => none
        | _ => none
      | _ => none

/-- Counterexample to C4 as frozen ("after every completed public Graph
mutation"): the `c4DiffReplay` sequence of public operations — every one
completing without error or panic — ends in a graph holding a live edge
into vertex `(1,0)` whose incoming adjacency list is empty, violating the
bidirectional adjacency invariant. -/
theorem C4_diff_replay_breaks_adjacency :
    c4DiffReplay =
      some ⟨⟨[.Occupied ⟨[], [(⟨1, 0⟩, ⟨0, 0⟩)], 10⟩ 0,
              .Occupied ⟨[], [], 40⟩ 0], none⟩,
            ⟨[.Occupied ⟨⟨0, 0⟩, ⟨1, 0⟩, 30⟩ 0], none⟩⟩ ∧
    ¬ AdjInv (⟨⟨[.Occupied ⟨[], [(⟨1, 0⟩, ⟨0, 0⟩)], 10⟩ 0,
                 .Occupied ⟨[], [], 40⟩ 0], none⟩,
               ⟨[.Occupied ⟨⟨0, 0⟩, ⟨1, 0⟩, 30⟩ 0], none⟩⟩ : Graph Nat Nat) := by
  refine ⟨rfl, ?_⟩
  intro h
  obtain ⟨-, ⟨tv, htv, hmemFrom⟩⟩ :=
    h.1 ⟨0, 0⟩ ⟨⟨0, 0⟩, ⟨1, 0⟩, 30⟩ rfl
  rw [show (⟨⟨[.Occupied ⟨[], [(⟨1, 0⟩, ⟨0, 0⟩)], 10⟩ 0,
       .Occupied ⟨[], [], 40⟩ 0], none⟩,
      ⟨[.Occupied ⟨⟨0, 0⟩, ⟨1, 0⟩, 30⟩ 0], none⟩⟩ : Graph Nat Nat).get_vertex
      (⟨⟨0, 0⟩, ⟨1, 0⟩, 30⟩ : Edge Nat).to_ =
    some (⟨[], [], 40⟩ : Vertex Nat) from rfl] at htv
  have htveq : (⟨[], [], 40⟩ : Vertex Nat) = tv := Option.some_injective _ htv
  rw [← htveq] at hmemFrom
  cases hmemFrom

/-! Support for the diff round-trip (claim C1). -/

theorem OptVertexPerm_refl : ∀ (a : Option (Vertex V)), OptVertexPerm a a
  | none => trivial
  | some _ => ⟨rfl, List.Perm.refl _, List.Perm.refl _⟩

theorem Vertex.ext_of {a b : Vertex V}
    (hf : a.connections_from = b.connections_from)
    (ht : a.connections_to = b.connections_to)
    (hd : a.data = b.data) : a = b := by
  cases a
  cases b
  simp only [] at hf ht hd
  rw [hf, ht, hd]

/-- Removing the fresh entry just pushed at the end of a list takes the
list back exactly. -/
theorem removeFirst_append_fresh {l : List (Index × Index)} {u e : Index}
    (h : e ∉ l.map Prod.snd) : removeFirst (l ++ [(u, e)]) e = l := by
  induction l with
  | nil =>
    unfold removeFirst
    simp
  | cons c rest ih =>
    rw [List.cons_append]
    unfold removeFirst
    rw [List.map_cons] at h
    have hc : c.2 ≠ e := by
      intro hc
      exact h (List.mem_cons.mpr (Or.inl hc.symm))
    rw [if_neg hc, ih (fun hm => h (List.mem_cons.mpr (Or.inr hm)))]

/-- Under the adjacency invariant, no adjacency list of a live vertex
mentions an edge index whose slot holds no live edge. -/
theorem adj_snd_fresh {g : Graph V E} {i : Index} (hadj : AdjInv g)
    {w : Index} {wx : Vertex V} (hw : g.get_vertex w = some wx)
    (hfresh : ∀ j : Index, j.index = i.index → g.get_edge j = none) :
    i ∉ wx.connections_to.map Prod.snd ∧
    i ∉ wx.connections_from.map Prod.snd := by
  obtain ⟨hI3to, hI3from, -, -⟩ := hadj.2 w wx hw
  constructor
  · intro hm
    obtain ⟨p, hp, hpe⟩ := List.mem_map.mp hm
    obtain ⟨ed, hed, -, -⟩ := hI3to p hp
    rw [hpe, hfresh i rfl] at hed
    cases hed
  · intro hm
    obtain ⟨p, hp, hpe⟩ := List.mem_map.mp hm
    obtain ⟨ed, hed, -, -⟩ := hI3from p hp
    rw [hpe, hfresh i rfl] at hed
    cases hed

/-- The adjacency invariant transfers across observational equivalence. -/
theorem AdjInv_of_obsEq {g g1 : Graph V E} (hobs : GraphObsEq g g1)
    (hadj : AdjInv g) : AdjInv g1 := by
  obtain ⟨hv, he⟩ := hobs
  constructor
  · intro ei ed hei
    rw [← he ei] at hei
    obtain ⟨⟨fv, hfv, hmemTo⟩, ⟨tv, htv, hmemFrom⟩⟩ := hadj.1 ei ed hei
    constructor
    · have h1 := hv ed.from_
      rw [hfv] at h1
      rcases hX : g1.get_vertex ed.from_ with - | fv'
      · rw [hX] at h1
        exact h1.elim
      · rw [hX] at h1
        obtain ⟨-, -, hpt⟩ := h1
        exact ⟨fv', rfl, hpt.mem_iff.mp hmemTo⟩
    · have h1 := hv ed.to_
      rw [htv] at h1
      rcases hX : g1.get_vertex ed.to_ with - | tv'
      · rw [hX] at h1
        exact h1.elim
      · rw [hX] at h1
        obtain ⟨-, hpf, -⟩ := h1
        exact ⟨tv', rfl, hpf.mem_iff.mp hmemFrom⟩
  · intro vi vx1 hvi
    have h1 := hv vi
    rw [hvi] at h1
    rcases hX : g.get_vertex vi with - | vx
    · rw [hX] at h1
      exact h1.elim
    · rw [hX] at h1
      obtain ⟨-, hpf, hpt⟩ := h1
      obtain ⟨hI3to, hI3from, hndTo, hndFrom⟩ := hadj.2 vi vx hX
      refine ⟨?_, ?_, ?_, ?_⟩
      · intro p hp
        obtain ⟨ed, hed, h2, h3⟩ := hI3to p (hpt.mem_iff.mpr hp)
        exact ⟨ed, by rw [← he p.2]; exact hed, h2, h3⟩
      · intro p hp
        obtain ⟨ed, hed, h2, h3⟩ := hI3from p (hpf.mem_iff.mpr hp)
        exact ⟨ed, by rw [← he p.2]; exact hed, h2, h3⟩
      · exact ((hpt.map Prod.snd).nodup_iff).mp hndTo
      · exact ((hpf.map Prod.snd).nodup_iff).mp hndFrom

/-- A duplicate-free (by edge component) list of entries all drawn from a
list embeds into it as a multiset. -/
theorem coe_le_of_snd_nodup_mem {X Y : List (Index × Index)}
    (hnd : (X.map Prod.snd).Nodup) (hsub : ∀ a ∈ X, a ∈ Y) :
    (↑X : Multiset (Index × Index)) ≤ ↑Y := by
  rw [Multiset.le_iff_count]
  intro a
  by_cases ha : a ∈ X
  · have h1 : (↑X : Multiset (Index × Index)).count a ≤ 1 :=
      nodup_snd_count_le_one hnd a
    have h2 : 1 ≤ (↑Y : Multiset (Index × Index)).count a := by
      rw [Multiset.one_le_count_iff_mem]
      exact hsub a ha
    omega
  · rw [show (↑X : Multiset (Index × Index)).count a = 0 by
      rw [Multiset.count_eq_zero]
      simpa using ha]
    exact Nat.zero_le _

/-- The edge components selected by `outEntriesOf` form a sublist of the
scanned entries' edge components. -/
theorem outEntriesOf_snd_sublist (g : Graph V E)
    (entries : List (Index × Index)) (w : Index) :
    ((outEntriesOf g entries w).map Prod.snd).Sublist
      (entries.map Prod.snd) := by
  induction entries with
  | nil => simp [outEntriesOf]
  | cons p rest ih =>
    unfold outEntriesOf at ih ⊢
    rw [List.filterMap_cons, List.map_cons]
    rcases hed : g.get_edge p.2 with - | ed
    · simp only []
      exact ih.cons _
    · simp only []
      by_cases hc : ed.from_ = w
      · rw [if_pos hc]
        simp only []
        rw [List.map_cons]
        exact ih.cons₂ _
      · rw [if_neg hc]
        simp only []
        exact ih.cons _

theorem inEntriesOf_snd_sublist (g : Graph V E)
    (entries : List (Index × Index)) (w : Index) :
    ((inEntriesOf g entries w).map Prod.snd).Sublist
      (entries.map Prod.snd) := by
  induction entries with
  | nil => simp [inEntriesOf]
  | cons p rest ih =>
    unfold inEntriesOf at ih ⊢
    rw [List.filterMap_cons, List.map_cons]
    rcases hed : g.get_edge p.2 with - | ed
    · simp only []
      exact ih.cons _
    · simp only []
      by_cases hc : ed.to_ = w
      · rw [if_pos hc]
        simp only []
        rw [List.map_cons]
        exact ih.cons₂ _
      · rw [if_neg hc]
        simp only []
        exact ih.cons _

/-- The entries the restore loop re-links coincide with the entries the
removal loop deleted, when the preserved diffs record exactly the removed
edges. -/
theorem entriesD_eq_entriesOf (g : Graph V E) (w : Index) :
    ∀ (ds : List (RemoveEdge E)) (conn : List (Index × Index)),
      ds.map (fun d => d.edge_index) = conn.map Prod.snd →
      (∀ d ∈ ds, g.get_edge d.edge_index = some d.edge) →
      outEntriesD ds w = outEntriesOf g conn w ∧
      inEntriesD ds w = inEntriesOf g conn w := by
  intro ds
  induction ds with
  | nil =>
    intro conn hmap hds
    cases conn with
    | nil => exact ⟨rfl, rfl⟩
    | cons c cs => cases hmap
  | cons d rest ih =>
    intro conn hmap hds
    cases conn with
    | nil => cases hmap
    | cons c cs =>
      rw [List.map_cons, List.map_cons] at hmap
      injection hmap with h1 h2
      have hd := hds d (by simp)
      obtain ⟨ho, hi⟩ := ih cs h2 (fun d2 hd2 => hds d2 (by simp [hd2]))
      constructor
      · unfold outEntriesD outEntriesOf
        rw [List.filterMap_cons, List.filterMap_cons]
        rw [← h1, hd]
        unfold outEntriesD at ho
        unfold outEntriesOf at ho
        rw [ho]
      · unfold inEntriesD inEntriesOf
        rw [List.filterMap_cons, List.filterMap_cons]
        rw [← h1, hd]
        unfold inEntriesD at hi
        unfold inEntriesOf at hi
        rw [hi]

/-- The rollback replaceability loop accepts when every recorded edge slot
is `Open` at exactly the recorded generation plus one. -/
theorem check_edges_replaceable_spec {ev : GenVec (Edge E)} :
    ∀ {ds : List (RemoveEdge E)},
      (∀ d ∈ ds, ∃ nxt : Option Nat, ev.vec[d.edge_index.index]? =
        some (.Open (d.edge_index.generation + 1) nxt)) →
      Graph.check_edges_replaceable ev ds = some true := by
  intro ds
  induction ds with
  | nil => intro h; rfl
  | cons d rest ih =>
    intro h
    obtain ⟨nxt, hd⟩ := h d (by simp)
    unfold Graph.check_edges_replaceable
    rw [show ev.is_replaceable_by_index_rollback d.edge_index = some true by
      unfold GenVec.is_replaceable_by_index_rollback
      rw [hd]
      simp]
    exact ih (fun d2 hd2 => h d2 (by simp [hd2]))

theorem outEntriesD_cons (d : RemoveEdge E) (rest : List (RemoveEdge E))
    (w : Index) : outEntriesD (d :: rest) w =
      (if d.edge.from_ = w then [(d.edge.to_, d.edge_index)] else []) ++
        outEntriesD rest w := by
  unfold outEntriesD
  rw [List.filterMap_cons]
  by_cases hc : d.edge.from_ = w
  · rw [if_pos hc, if_pos hc]
    rfl
  · rw [if_neg hc, if_neg hc]
    rfl

theorem inEntriesD_cons (d : RemoveEdge E) (rest : List (RemoveEdge E))
    (w : Index) : inEntriesD (d :: rest) w =
      (if d.edge.to_ = w then [(d.edge.from_, d.edge_index)] else []) ++
        inEntriesD rest w := by
  unfold inEntriesD
  rw [List.filterMap_cons]
  by_cases hc : d.edge.to_ = w
  · rw [if_pos hc, if_pos hc]
    rfl
  · rw [if_neg hc, if_neg hc]
    rfl

/-- One step of the restore loop: both endpoint vertices get their entry
appended and the preserved edge is written back into its (in-range) slot;
stated as the resulting state's lookups. -/
theorem Graph.restore_edges_step {g : Graph V E} {d : RemoveEdge E}
    {fv : Vertex V} (hfv : g.get_vertex d.edge.from_ = some fv)
    (htl : ∃ wv, g.get_vertex d.edge.to_ = some wv)
    (hrange : d.edge_index.index < g.edges.vec.length)
    (rest : List (RemoveEdge E)) :
    ∃ gnext : Graph V E, g.restore_edges (d :: rest) = gnext.restore_edges rest ∧
      gnext.edges.vec = g.edges.vec.set d.edge_index.index
        (.Occupied d.edge d.edge_index.generation) ∧
      gnext.edges.next_open_slot = g.edges.next_open_slot ∧
      (∀ w, g.get_vertex w = none → gnext.get_vertex w = none) ∧
      (∀ w wx, g.get_vertex w = some wx → ∃ wx',
        gnext.get_vertex w = some wx' ∧ wx'.data = wx.data ∧
        wx'.connections_to = wx.connections_to ++
          (if d.edge.from_ = w then [(d.edge.to_, d.edge_index)] else []) ∧
        wx'.connections_from = wx.connections_from ++
          (if d.edge.to_ = w then [(d.edge.from_, d.edge_index)] else [])) := by
  by_cases htf : d.edge.to_ = d.edge.from_
  · have hg1t : (g.setVertex d.edge.from_
        (fv.add_to_unchecked d.edge.to_ d.edge_index)).get_vertex d.edge.to_ =
        some (fv.add_to_unchecked d.edge.to_ d.edge_index) := by
      rw [htf]
      exact Graph.get_vertex_setVertex_self hfv
    refine ⟨{ (g.setVertex d.edge.from_
        (fv.add_to_unchecked d.edge.to_ d.edge_index)).setVertex d.edge.to_
        ((fv.add_to_unchecked d.edge.to_ d.edge_index).add_from_unchecked
          d.edge.from_ d.edge_index) with
      edges := ⟨g.edges.vec.set d.edge_index.index
        (.Occupied d.edge d.edge_index.generation),
        g.edges.next_open_slot⟩ }, ?_, rfl, rfl, ?_, ?_⟩
    · conv_lhs => unfold Graph.restore_edges
      rw [hfv]
      simp only [hg1t]
      rw [show ((g.setVertex d.edge.from_
          (fv.add_to_unchecked d.edge.to_ d.edge_index)).setVertex d.edge.to_
          ((fv.add_to_unchecked d.edge.to_ d.edge_index).add_from_unchecked
            d.edge.from_ d.edge_index)).edges = g.edges from rfl]
      rw [if_pos hrange]
    · intro w hw
      have hw1 : (g.setVertex d.edge.from_
          (fv.add_to_unchecked d.edge.to_ d.edge_index)).get_vertex w = none :=
        Graph.get_vertex_setVertex_none hfv hw
      exact Graph.get_vertex_setVertex_none hg1t hw1
    · intro w wx hwx
      by_cases hwt : w = d.edge.to_
      · have hwf : w = d.edge.from_ := by rw [hwt, htf]
        rw [← hwf, hwx] at hfv
        have hfw : wx = fv := Option.some_injective _ hfv
        subst hfw
        refine ⟨(wx.add_to_unchecked d.edge.to_ d.edge_index).add_from_unchecked
            d.edge.from_ d.edge_index, ?_, rfl, ?_, ?_⟩
        · have hgoal : ((g.setVertex d.edge.from_
              (wx.add_to_unchecked d.edge.to_ d.edge_index)).setVertex d.edge.to_
              ((wx.add_to_unchecked d.edge.to_ d.edge_index).add_from_unchecked
                d.edge.from_ d.edge_index)).get_vertex w = some
              ((wx.add_to_unchecked d.edge.to_ d.edge_index).add_from_unchecked
                d.edge.from_ d.edge_index) := by
            rw [hwt]
            exact Graph.get_vertex_setVertex_self hg1t
          exact hgoal
        · rw [if_pos hwf.symm]
          rfl
        · rw [if_pos hwt.symm]
          rfl
      · have hwf : w ≠ d.edge.from_ := by rw [← htf]; exact hwt
        have hwne : w ≠ d.edge.to_ := hwt
        refine ⟨wx, ?_, rfl, ?_, ?_⟩
        · have hgoal : ((g.setVertex d.edge.from_
              (fv.add_to_unchecked d.edge.to_ d.edge_index)).setVertex d.edge.to_
              ((fv.add_to_unchecked d.edge.to_ d.edge_index).add_from_unchecked
                d.edge.from_ d.edge_index)).get_vertex w = some wx := by
            rw [Graph.get_vertex_setVertex_ne hg1t hwne,
              Graph.get_vertex_setVertex_ne hfv hwf]
            exact hwx
          exact hgoal
        · rw [if_neg (fun h => hwf h.symm)]
          simp
        · rw [if_neg (fun h => hwne h.symm)]
          simp
  · obtain ⟨tv, htv⟩ := htl
    have hg1t : (g.setVertex d.edge.from_
        (fv.add_to_unchecked d.edge.to_ d.edge_index)).get_vertex d.edge.to_ =
        some tv := by
      rw [Graph.get_vertex_setVertex_ne hfv htf]
      exact htv
    refine ⟨{ (g.setVertex d.edge.from_
        (fv.add_to_unchecked d.edge.to_ d.edge_index)).setVertex d.edge.to_
        (tv.add_from_unchecked d.edge.from_ d.edge_index) with
      edges := ⟨g.edges.vec.set d.edge_index.index
        (.Occupied d.edge d.edge_index.generation),
        g.edges.next_open_slot⟩ }, ?_, rfl, rfl, ?_, ?_⟩
    · conv_lhs => unfold Graph.restore_edges
      rw [hfv]
      simp only [hg1t]
      rw [show ((g.setVertex d.edge.from_
          (fv.add_to_unchecked d.edge.to_ d.edge_index)).setVertex d.edge.to_
          (tv.add_from_unchecked d.edge.from_ d.edge_index)).edges = g.edges
        from rfl]
      rw [if_pos hrange]
    · intro w hw
      have hw1 : (g.setVertex d.edge.from_
          (fv.add_to_unchecked d.edge.to_ d.edge_index)).get_vertex w = none :=
        Graph.get_vertex_setVertex_none hfv hw
      exact Graph.get_vertex_setVertex_none hg1t hw1
    · intro w wx hwx
      by_cases hwt : w = d.edge.to_
      · rw [hwt, htv] at hwx
        have htw : tv = wx := Option.some_injective _ hwx
        subst htw
        refine ⟨tv.add_from_unchecked d.edge.from_ d.edge_index, ?_, rfl, ?_, ?_⟩
        · have hgoal : ((g.setVertex d.edge.from_
              (fv.add_to_unchecked d.edge.to_ d.edge_index)).setVertex d.edge.to_
              (tv.add_from_unchecked d.edge.from_ d.edge_index)).get_vertex w =
              some (tv.add_from_unchecked d.edge.from_ d.edge_index) := by
            rw [hwt]
            exact Graph.get_vertex_setVertex_self hg1t
          exact hgoal
        · rw [if_neg (fun h => htf (by rw [← hwt, ← h]))]
          simp [Vertex.add_from_unchecked]
        · rw [if_pos hwt.symm]
          rfl
      · by_cases hwf : w = d.edge.from_
        · rw [hwf, hfv] at hwx
          have hfw : fv = wx := Option.some_injective _ hwx
          subst hfw
          refine ⟨fv.add_to_unchecked d.edge.to_ d.edge_index, ?_, rfl, ?_, ?_⟩
          · have hgoal : ((g.setVertex d.edge.from_
                (fv.add_to_unchecked d.edge.to_ d.edge_index)).setVertex d.edge.to_
                (tv.add_from_unchecked d.edge.from_ d.edge_index)).get_vertex w =
                some (fv.add_to_unchecked d.edge.to_ d.edge_index) := by
              rw [Graph.get_vertex_setVertex_ne hg1t hwt, hwf]
              exact Graph.get_vertex_setVertex_self hfv
            exact hgoal
          · rw [if_pos hwf.symm]
            rfl
          · rw [if_neg (fun h => hwt h.symm)]
            simp [Vertex.add_to_unchecked]
        · refine ⟨wx, ?_, rfl, ?_, ?_⟩
          · have hgoal : ((g.setVertex d.edge.from_
                (fv.add_to_unchecked d.edge.to_ d.edge_index)).setVertex d.edge.to_
                (tv.add_from_unchecked d.edge.from_ d.edge_index)).get_vertex w =
                some wx := by
              rw [Graph.get_vertex_setVertex_ne hg1t hwt,
                Graph.get_vertex_setVertex_ne hfv hwf]
              exact hwx
            exact hgoal
          · rw [if_neg (fun h => hwf h.symm)]
            simp
          · rw [if_neg (fun h => hwt h.symm)]
            simp

/-- The restore loop of `rollback_remove_vertex_diff` on live endpoints,
in-range and pairwise-distinct slots: it succeeds, writes each preserved
edge back into its slot at its recorded generation, touches no other edge
slot and no free list, and appends to each vertex exactly its recorded
entries, in loop order. -/
theorem Graph.restore_edges_spec :
    ∀ (ds : List (RemoveEdge E)) (g : Graph V E),
      (∀ d ∈ ds, ∃ wv, g.get_vertex d.edge.from_ = some wv) →
      (∀ d ∈ ds, ∃ wv, g.get_vertex d.edge.to_ = some wv) →
      (∀ d ∈ ds, d.edge_index.index < g.edges.vec.length) →
      (ds.map (fun d => d.edge_index.index)).Nodup →
      ∃ gr, g.restore_edges ds = .ok () gr ∧
        (∀ d ∈ ds, gr.edges.vec[d.edge_index.index]? =
          some (.Occupied d.edge d.edge_index.generation)) ∧
        (∀ s : Nat, s ∉ ds.map (fun d => d.edge_index.index) →
          gr.edges.vec[s]? = g.edges.vec[s]?) ∧
        gr.edges.next_open_slot = g.edges.next_open_slot ∧
        gr.edges.vec.length = g.edges.vec.length ∧
        (∀ w, g.get_vertex w = none → gr.get_vertex w = none) ∧
        (∀ w wx, g.get_vertex w = some wx → ∃ wx',
          gr.get_vertex w = some wx' ∧ wx'.data = wx.data ∧
          wx'.connections_to = wx.connections_to ++ outEntriesD ds w ∧
          wx'.connections_from = wx.connections_from ++ inEntriesD ds w) := by
  intro ds
  induction ds with
  | nil =>
    intro g hfl htl hrange hnd
    refine ⟨g, rfl, by simp, fun s _ => rfl, rfl, rfl, fun w h => h, ?_⟩
    intro w wx hwx
    exact ⟨wx, hwx, rfl, by simp [outEntriesD], by simp [inEntriesD]⟩
  | cons d rest ih =>
    intro g hfl htl hrange hnd
    obtain ⟨fv, hfv⟩ := hfl d (by simp)
    obtain ⟨gnext, hstep, hevec, hehead, hnone1, hsome1⟩ :=
      Graph.restore_edges_step hfv (htl d (by simp)) (hrange d (by simp)) rest
    rw [List.map_cons] at hnd
    have hdnotrest : d.edge_index.index ∉
        rest.map (fun d2 => d2.edge_index.index) := (List.nodup_cons.mp hnd).1
    have hndrest : (rest.map (fun d2 => d2.edge_index.index)).Nodup :=
      (List.nodup_cons.mp hnd).2
    have hlen1 : gnext.edges.vec.length = g.edges.vec.length := by
      rw [hevec]
      simp
    obtain ⟨gr, hrun, hslot, hframe, hhead, hlen, hnone2, hsome2⟩ :=
      ih gnext
        (fun d2 hd2 => by
          obtain ⟨wv, hwv⟩ := hfl d2 (by simp [hd2])
          obtain ⟨wx', hwx', -, -, -⟩ := hsome1 _ wv hwv
          exact ⟨wx', hwx'⟩)
        (fun d2 hd2 => by
          obtain ⟨wv, hwv⟩ := htl d2 (by simp [hd2])
          obtain ⟨wx', hwx', -, -, -⟩ := hsome1 _ wv hwv
          exact ⟨wx', hwx'⟩)
        (fun d2 hd2 => by
          rw [hlen1]
          exact hrange d2 (by simp [hd2]))
        hndrest
    refine ⟨gr, ?_, ?_, ?_, ?_, ?_, ?_, ?_⟩
    · rw [hstep]
      exact hrun
    · intro d2 hd2
      rcases List.mem_cons.mp hd2 with rfl | hd3
      · rw [hframe d2.edge_index.index hdnotrest, hevec]
        exact List.getElem?_set_self (hrange d2 (by simp))
      · exact hslot d2 hd3
    · intro s hs
      have hs1 : s ∉ rest.map (fun d2 => d2.edge_index.index) := by
        intro hm
        exact hs (by simp [hm])
      have hs2 : s ≠ d.edge_index.index := by
        intro hm
        exact hs (by simp [hm])
      rw [hframe s hs1, hevec]
      exact List.getElem?_set_ne (fun h => hs2 h.symm)
    · rw [hhead, hehead]
    · rw [hlen, hlen1]
    · intro w hw
      exact hnone2 w (hnone1 w hw)
    · intro w wx hwx
      obtain ⟨wx1, hwx1, hd1, ht1, hf1⟩ := hsome1 w wx hwx
      obtain ⟨wx', hwx', hd2, ht2, hf2⟩ := hsome2 w wx1 hwx1
      refine ⟨wx', hwx', by rw [hd2, hd1], ?_, ?_⟩
      · rw [ht2, ht1, outEntriesD_cons, List.append_assoc]
      · rw [hf2, hf1, inEntriesD_cons, List.append_assoc]

/-- The round-trip property of one diff `dd` produced by a mutation that
took `g` to `g1`: rolling it back on `g1` succeeds and restores a state
observationally equal to `g`, and re-applying it on that state succeeds
and restores a state observationally equal to `g1`. -/
def RoundTrip (g g1 : Graph V E) (dd : GraphDiff V E) : Prop :=
  ∃ g2, g1.rollback_diff dd = .ok () g2 ∧ GraphObsEq g2 g ∧
    ∃ g3, g2.apply_diff dd = .ok () g3 ∧ GraphObsEq g3 g1

theorem RoundTrip_add_vertex {g g1 : Graph V E} {d : V} {i : Index}
    {dd : GraphDiff V E} (hinv : InvP g)
    (h : g.add_vertex d = some ((i, dd), g1)) : RoundTrip g g1 dd := by
  obtain ⟨-, ⟨lv, hchv⟩, -⟩ := hinv
  obtain ⟨i', g1', hrun, hfresh, hlook, hedges, -, -⟩ :=
    Graph.add_vertex_spec hchv d
  rw [hrun] at h
  have hpair := Option.some_injective _ h
  have hii : i' = i := congrArg (fun p => p.1.1) hpair
  subst hii
  have hdd : GraphDiff.AddVertex ⟨i', d⟩ = dd :=
    congrArg (fun p => p.1.2) hpair
  subst hdd
  have hg1 : g1' = g1 := congrArg Prod.snd hpair
  subst hg1
  have hlvi : g1'.get_vertex i' = some (Vertex.new d) := by
    rw [hlook, if_pos rfl]
  have hilt : i'.index < g1'.verticies.vec.length := GenVec.get_index_lt hlvi
  have hrem : g1'.verticies.remove_but_maintain_generation i' =
      some (Vertex.new d, ⟨g1'.verticies.vec.set i'.index
        (.Open i'.generation g1'.verticies.next_open_slot), some i'.index⟩) :=
    GenVec.remove_but_maintain_generation_spec hlvi
  refine ⟨{ g1' with verticies := ⟨g1'.verticies.vec.set i'.index
      (.Open i'.generation g1'.verticies.next_open_slot), some i'.index⟩ },
    ?_, ?_, ?_⟩
  · show g1'.rollback_add_vertex_diff ⟨i', d⟩ = _
    unfold Graph.rollback_add_vertex_diff
    rw [Graph.assert_vertex_exists_none hlvi]
    unfold Graph.remove_vertex_and_reset
    rw [show (⟨i', d⟩ : AddVertex V).vertex_index = i' from rfl]
    rw [hlvi]
    simp only []
    rw [show (Vertex.new d).connections_from ++ (Vertex.new d).connections_to =
      ([] : List (Index × Index)) from rfl]
    rw [show g1'.remove_edges_and_reset [] = .ok () g1' from rfl]
    simp only [hrem]
  · refine ⟨?_, ?_⟩
    · intro j
      have hveq : ({ g1' with verticies := ⟨g1'.verticies.vec.set i'.index
          (.Open i'.generation g1'.verticies.next_open_slot), some i'.index⟩ } :
          Graph V E).get_vertex j = g.get_vertex j := by
        show (⟨g1'.verticies.vec.set i'.index
          (.Open i'.generation g1'.verticies.next_open_slot), some i'.index⟩ :
          GenVec (Vertex V)).get j = _
        rw [GenVec.get_mk_set g1'.verticies i'.index _ _ j hilt]
        by_cases hj : j.index = i'.index
        · rw [if_pos hj, hfresh j hj]
          rfl
        · rw [if_neg hj]
          show g1'.get_vertex j = g.get_vertex j
          rw [hlook j, if_neg (fun he => hj (congrArg Index.index he))]
      rw [hveq]
      exact OptVertexPerm_refl _
    · intro j
      show g1'.edges.get j = g.edges.get j
      rw [hedges]
  · have hrepl : (⟨g1'.verticies.vec.set i'.index
        (.Open i'.generation g1'.verticies.next_open_slot), some i'.index⟩ :
        GenVec (Vertex V)).is_replaceable_by_index_apply i' = some true := by
      unfold GenVec.is_replaceable_by_index_apply
      rw [show (⟨g1'.verticies.vec.set i'.index
        (.Open i'.generation g1'.verticies.next_open_slot), some i'.index⟩ :
        GenVec (Vertex V)).vec = g1'.verticies.vec.set i'.index
        (.Open i'.generation g1'.verticies.next_open_slot) from rfl]
      rw [List.getElem?_set_self hilt]
      simp
    have hilt2 : i'.index < (g1'.verticies.vec.set i'.index
        (.Open i'.generation g1'.verticies.next_open_slot)).length := by
      rw [List.length_set]
      exact hilt
    refine ⟨{ g1' with verticies :=
        ⟨(g1'.verticies.vec.set i'.index
          (.Open i'.generation g1'.verticies.next_open_slot)).set i'.index
          (.Occupied (Vertex.new d) i'.generation), some i'.index⟩ }, ?_, ?_, ?_⟩
    · show Graph.apply_add_vertex_diff _ ⟨i', d⟩ = _
      unfold Graph.apply_add_vertex_diff
      rw [show ({ g1' with verticies := ⟨g1'.verticies.vec.set i'.index
        (.Open i'.generation g1'.verticies.next_open_slot), some i'.index⟩ } :
        Graph V E).verticies.is_replaceable_by_index_apply
          (⟨i', d⟩ : AddVertex V).vertex_index = some true from hrepl]
    · intro j
      have hveq3 : ({ g1' with verticies :=
          ⟨(g1'.verticies.vec.set i'.index
            (.Open i'.generation g1'.verticies.next_open_slot)).set i'.index
            (.Occupied (Vertex.new d) i'.generation), some i'.index⟩ } :
          Graph V E).get_vertex j = g1'.get_vertex j := by
        show (⟨(g1'.verticies.vec.set i'.index
            (.Open i'.generation g1'.verticies.next_open_slot)).set i'.index
            (.Occupied (Vertex.new d) i'.generation), some i'.index⟩ :
          GenVec (Vertex V)).get j = _
        rw [GenVec.get_mk_set ⟨g1'.verticies.vec.set i'.index
          (.Open i'.generation g1'.verticies.next_open_slot), some i'.index⟩
          i'.index _ _ j hilt2]
        by_cases hj : j.index = i'.index
        · rw [if_pos hj, hlook j]
          by_cases hg : j = i'
          · rw [if_pos hg, hg]
            simp [elemLookup]
          · rw [if_neg hg]
            have hgen : i'.generation ≠ j.generation :=
              fun hgg => hg (Index.ext_iff2.mpr ⟨hj, hgg.symm⟩)
            rw [show elemLookup (Element.Occupied (Vertex.new d) i'.generation)
              j.generation = none from by unfold elemLookup; exact if_neg hgen]
            rw [hfresh j hj]
        · rw [if_neg hj]
          have hj2 : (⟨g1'.verticies.vec.set i'.index
              (.Open i'.generation g1'.verticies.next_open_slot),
              some i'.index⟩ : GenVec (Vertex V)).get j = g1'.verticies.get j := by
            rw [GenVec.get_mk_set g1'.verticies i'.index _ _ j hilt, if_neg hj]
          rw [hj2]
          rfl
      rw [hveq3]
      exact OptVertexPerm_refl _
    · intro j
      rfl

theorem RoundTrip_update_vertex {g g1 : Graph V E} {i : Index} {x old : V}
    {dd : GraphDiff V E} (h : g.update_vertex i x = .ok (old, dd) g1) :
    RoundTrip g g1 dd := by
  obtain ⟨vx, hvx, -, -⟩ := Graph.update_vertex_ok_inv h
  rw [Graph.update_vertex_spec hvx x] at h
  injection h with h1 h2
  have hdd : GraphDiff.UpdateVertexData ⟨i, vx.data, x⟩ = dd :=
    congrArg Prod.snd h1
  subst hdd
  subst h2
  have hlvi : (g.setVertex i { vx with data := x }).get_vertex i =
      some { vx with data := x } := Graph.get_vertex_setVertex_self hvx
  have hmut : (g.setVertex i { vx with data := x }).get_vertex_mut_lookup i =
      some (some { vx with data := x }) :=
    GenVec.get_mut_lookup_eq_get.mpr hlvi
  refine ⟨(g.setVertex i { vx with data := x }).setVertex i vx, ?_, ?_, ?_⟩
  · show Graph.rollback_update_vertex_diff _ ⟨i, vx.data, x⟩ = _
    unfold Graph.rollback_update_vertex_diff
    rw [hmut]
  · refine ⟨?_, fun j => rfl⟩
    intro j
    have hveq : ((g.setVertex i { vx with data := x }).setVertex i vx).get_vertex j
        = g.get_vertex j := by
      by_cases hj : j = i
      · rw [hj, Graph.get_vertex_setVertex_self hlvi, hvx]
      · rw [Graph.get_vertex_setVertex_ne hlvi hj,
          Graph.get_vertex_setVertex_ne hvx hj]
    rw [hveq]
    exact OptVertexPerm_refl _
  · have hlvi2 : ((g.setVertex i { vx with data := x }).setVertex i vx).get_vertex i
        = some vx := Graph.get_vertex_setVertex_self hlvi
    have hmut2 : ((g.setVertex i { vx with data := x }).setVertex i
        vx).get_vertex_mut_lookup i = some (some vx) :=
      GenVec.get_mut_lookup_eq_get.mpr hlvi2
    refine ⟨((g.setVertex i { vx with data := x }).setVertex i vx).setVertex i
      { vx with data := x }, ?_, ?_, ?_⟩
    · show Graph.apply_update_vertex_diff _ ⟨i, vx.data, x⟩ = _
      unfold Graph.apply_update_vertex_diff
      rw [hmut2]
    · intro j
      have hveq : (((g.setVertex i { vx with data := x }).setVertex i
          vx).setVertex i { vx with data := x }).get_vertex j =
          (g.setVertex i { vx with data := x }).get_vertex j := by
        by_cases hj : j = i
        · rw [hj, Graph.get_vertex_setVertex_self hlvi2, hlvi]
        · rw [Graph.get_vertex_setVertex_ne hlvi2 hj,
            Graph.get_vertex_setVertex_ne hlvi hj]
      rw [hveq]
      exact OptVertexPerm_refl _
    · intro j
      rfl

theorem RoundTrip_update_edge {g g1 : Graph V E} {i : Index} {x old : E}
    {dd : GraphDiff V E} (h : g.update_edge i x = .ok (old, dd) g1) :
    RoundTrip g g1 dd := by
  obtain ⟨ed, hed, -, -⟩ := Graph.update_edge_ok_inv h
  rw [Graph.update_edge_spec hed x] at h
  injection h with h1 h2
  have hdd : GraphDiff.UpdateEdgeData ⟨i, ed.data, x⟩ = dd :=
    congrArg Prod.snd h1
  subst hdd
  subst h2
  have hled : ({ g with edges := g.edges.setOcc i { ed with data := x } } :
      Graph V E).get_edge i = some { ed with data := x } :=
    GenVec.get_setOcc_self hed
  have hmut : ({ g with edges := g.edges.setOcc i { ed with data := x } } :
      Graph V E).get_edge_mut_lookup i = some (some { ed with data := x }) :=
    GenVec.get_mut_lookup_eq_get.mpr hled
  refine ⟨{ g with edges := (g.edges.setOcc i { ed with data := x }).setOcc i ed },
    ?_, ?_, ?_⟩
  · show Graph.rollback_update_edge_diff _ ⟨i, ed.data, x⟩ = _
    unfold Graph.rollback_update_edge_diff
    rw [hmut]
  · refine ⟨fun j => OptVertexPerm_refl _, ?_⟩
    intro j
    show ((g.edges.setOcc i { ed with data := x }).setOcc i ed).get j =
      g.edges.get j
    by_cases hj : j = i
    · rw [hj, GenVec.get_setOcc_self hled]
      exact hed.symm
    · rw [GenVec.get_setOcc_ne hled hj, GenVec.get_setOcc_ne hed hj]
  · have hled2 : ({ g with edges :=
        (g.edges.setOcc i { ed with data := x }).setOcc i ed } :
        Graph V E).get_edge i = some ed := GenVec.get_setOcc_self hled
    have hmut2 : ({ g with edges :=
        (g.edges.setOcc i { ed with data := x }).setOcc i ed } :
        Graph V E).get_edge_mut_lookup i = some (some ed) :=
      GenVec.get_mut_lookup_eq_get.mpr hled2
    refine ⟨{ g with
      edges := ((g.edges.setOcc i { ed with data := x }).setOcc i ed).setOcc i { ed with data := x } },
      ?_, ?_, ?_⟩
    · show Graph.apply_update_edge_diff _ ⟨i, ed.data, x⟩ = _
      unfold Graph.apply_update_edge_diff
      rw [hmut2]
    · intro j
      exact OptVertexPerm_refl _
    · intro j
      show (((g.edges.setOcc i { ed with data := x }).setOcc i ed).setOcc i
        { ed with data := x }).get j =
        (g.edges.setOcc i { ed with data := x }).get j
      by_cases hj : j = i
      · rw [hj, GenVec.get_setOcc_self hled2, GenVec.get_setOcc_self hed]
      · rw [GenVec.get_setOcc_ne hled2 hj, GenVec.get_setOcc_ne hled hj,
          GenVec.get_setOcc_ne hed hj]

theorem GraphObsEq_symm {g g1 : Graph V E} (h : GraphObsEq g g1) :
    GraphObsEq g1 g := by
  obtain ⟨hv, he⟩ := h
  refine ⟨fun i => ?_, fun i => (he i).symm⟩
  have h1 := hv i
  rcases ha : g.get_vertex i with - | a
  · rw [ha] at h1
    rcases hb : g1.get_vertex i with - | b
    · trivial
    · rw [hb] at h1
      exact h1.elim
  · rw [ha] at h1
    rcases hb : g1.get_vertex i with - | b
    · rw [hb] at h1
      exact h1.elim
    · rw [hb] at h1
      obtain ⟨h2, h3, h4⟩ := h1
      exact ⟨h2.symm, h3.symm, h4.symm⟩

/-- A lookup at the slot of a live entry with a different generation is
`None`. -/
theorem GenVec.get_other_gen {v : GenVec T} {i j : Index} {t : T}
    (h : v.vec[i.index]? = some (.Occupied t i.generation))
    (hij : j.index = i.index) (hne : j ≠ i) : v.get j = none := by
  rw [GenVec.get_eq_bind, hij, h]
  show elemLookup (.Occupied t i.generation) j.generation = none
  unfold elemLookup
  simp only []
  rw [if_neg]
  intro hg
  exact hne (Index.ext_iff2.mpr ⟨hij, hg.symm⟩)

/-- The adjacency-linking tail (`link_edge`) on live endpoints: it
succeeds, touches no edge slot, and appends exactly the matching entry to
each endpoint's list. -/
theorem Graph.link_edge_spec {G : Graph V E} {f t e : Index}
    {fvA tvA : Vertex V} (hf : G.get_vertex f = some fvA)
    (ht : G.get_vertex t = some tvA) :
    ∃ gr, G.link_edge f t e = .ok () gr ∧
      (∀ j : Index, gr.get_edge j = G.get_edge j) ∧
      (∀ w, G.get_vertex w = none → gr.get_vertex w = none) ∧
      (∀ w wx, G.get_vertex w = some wx → ∃ wx',
        gr.get_vertex w = some wx' ∧ wx'.data = wx.data ∧
        wx'.connections_to =
          wx.connections_to ++ (if f = w then [(t, e)] else []) ∧
        wx'.connections_from =
          wx.connections_from ++ (if t = w then [(f, e)] else [])) := by
  by_cases htf : t = f
  · subst htf
    have hg2t : (G.setVertex t (fvA.add_to_unchecked t e)).get_vertex t =
        some (fvA.add_to_unchecked t e) := Graph.get_vertex_setVertex_self hf
    refine ⟨(G.setVertex t (fvA.add_to_unchecked t e)).setVertex t
        ((fvA.add_to_unchecked t e).add_from_unchecked t e), ?_, ?_, ?_, ?_⟩
    · unfold Graph.link_edge
      rw [hf]
      simp only [hg2t]
    · intro j
      rfl
    · intro w hw
      exact Graph.get_vertex_setVertex_none hg2t
        (Graph.get_vertex_setVertex_none hf hw)
    · intro w wx hwx
      by_cases hwt : w = t
      · subst hwt
        rw [hf] at hwx
        have hfw : fvA = wx := Option.some_injective _ hwx
        subst hfw
        refine ⟨(fvA.add_to_unchecked w e).add_from_unchecked w e,
          Graph.get_vertex_setVertex_self hg2t, rfl, ?_, ?_⟩
        · rw [if_pos rfl]
          rfl
        · rw [if_pos rfl]
          rfl
      · refine ⟨wx, ?_, rfl, ?_, ?_⟩
        · rw [Graph.get_vertex_setVertex_ne hg2t hwt,
            Graph.get_vertex_setVertex_ne hf hwt]
          exact hwx
        · rw [if_neg (fun h2 => hwt h2.symm)]
          simp
        · rw [if_neg (fun h2 => hwt h2.symm)]
          simp
  · have hg2t : (G.setVertex f (fvA.add_to_unchecked t e)).get_vertex t =
        some tvA := by
      rw [Graph.get_vertex_setVertex_ne hf htf]
      exact ht
    refine ⟨(G.setVertex f (fvA.add_to_unchecked t e)).setVertex t
        (tvA.add_from_unchecked f e), ?_, ?_, ?_, ?_⟩
    · unfold Graph.link_edge
      rw [hf]
      simp only [hg2t]
    · intro j
      rfl
    · intro w hw
      exact Graph.get_vertex_setVertex_none hg2t
        (Graph.get_vertex_setVertex_none hf hw)
    · intro w wx hwx
      by_cases hwt : w = t
      · subst hwt
        rw [ht] at hwx
        have htw : tvA = wx := Option.some_injective _ hwx
        subst htw
        refine ⟨tvA.add_from_unchecked f e,
          Graph.get_vertex_setVertex_self hg2t, rfl, ?_, ?_⟩
        · rw [if_neg (fun h2 => htf h2.symm)]
          simp [Vertex.add_from_unchecked]
        · rw [if_pos rfl]
          rfl
      · by_cases hwf : w = f
        · subst hwf
          rw [hf] at hwx
          have hfw : fvA = wx := Option.some_injective _ hwx
          subst hfw
          refine ⟨fvA.add_to_unchecked t e, ?_, rfl, ?_, ?_⟩
          · rw [Graph.get_vertex_setVertex_ne hg2t hwt]
            exact Graph.get_vertex_setVertex_self hf
          · rw [if_pos rfl]
            rfl
          · rw [if_neg (fun h2 => hwt h2.symm)]
            simp [Vertex.add_to_unchecked]
        · refine ⟨wx, ?_, rfl, ?_, ?_⟩
          · rw [Graph.get_vertex_setVertex_ne hg2t hwt,
              Graph.get_vertex_setVertex_ne hf hwf]
            exact hwx
          · rw [if_neg (fun h2 => hwf h2.symm)]
            simp
          · rw [if_neg (fun h2 => hwt h2.symm)]
            simp

/-- Like `remove_edge_internal_spec` but for `remove_edge_and_reset` (the
rollback path of `AddEdge`): the freed edge slot keeps its generation. -/
theorem Graph.remove_edge_and_reset_spec {g : Graph V E} {e : Index} {ed : Edge E}
    (hinv : AdjInv g) (hed : g.get_edge e = some ed) :
    ∃ g', g.remove_edge_and_reset e = .ok ed.data g' ∧
      g'.edges.vec = g.edges.vec.set e.index
        (.Open e.generation g.edges.next_open_slot) ∧
      g'.edges.next_open_slot = some e.index ∧
      (∀ j : Index, g'.get_edge j = if j.index = e.index then none
        else g.get_edge j) ∧
      g'.verticies.next_open_slot = g.verticies.next_open_slot ∧
      g'.verticies.vec.length = g.verticies.vec.length ∧
      (∀ (s gen : Nat) (nxt : Option Nat),
        g.verticies.vec[s]? = some (.Open gen nxt) →
        g'.verticies.vec[s]? = some (.Open gen nxt)) ∧
      (∀ w, g.get_vertex w = none → g'.get_vertex w = none) ∧
      (∀ w wx, g.get_vertex w = some wx → ∃ wx',
        g'.get_vertex w = some wx' ∧
        wx'.data = wx.data ∧
        (↑wx'.connections_to : Multiset (Index × Index)) =
          ↑wx.connections_to - (if ed.from_ = w then {(ed.to_, e)} else 0) ∧
        (↑wx'.connections_from : Multiset (Index × Index)) =
          ↑wx.connections_from - (if ed.to_ = w then {(ed.from_, e)} else 0)) := by
  obtain ⟨⟨fv, hfv, hmemTo⟩, ⟨tv, htv, hmemFrom⟩⟩ := hinv.1 e ed hed
  obtain ⟨-, -, hndTo_f, hndFrom_f⟩ := hinv.2 ed.from_ fv hfv
  obtain ⟨-, -, hndTo_t, hndFrom_t⟩ := hinv.2 ed.to_ tv htv
  set fv1 : Vertex V :=
    { fv with connections_to := removeFirst fv.connections_to e } with hfv1
  have h1 : (g.get_vertex ed.from_).bind (fun v => v.remove_to e) = some fv1 := by
    rw [hfv]
    simpa using Vertex.remove_to_spec hmemTo
  set g1 := g.setVertex ed.from_ fv1 with hg1
  have hg1from : g1.get_vertex ed.from_ = some fv1 :=
    Graph.get_vertex_setVertex_self hfv
  by_cases hft : ed.to_ = ed.from_
  · -- self-loop: both detachments hit the same vertex
    have htvfv : tv = fv := by
      rw [hft, hfv] at htv
      exact (Option.some_injective _ htv).symm
    have hmemFrom1 : (ed.from_, e) ∈ fv1.connections_from := by
      rw [hfv1]
      exact htvfv ▸ hmemFrom
    set tv3 : Vertex V :=
      { fv1 with connections_from := removeFirst fv1.connections_from e } with htv3
    have h2 : (g1.get_vertex ed.to_).bind (fun v => v.remove_from e) = some tv3 := by
      rw [hft, hg1from]
      simpa using Vertex.remove_from_spec hmemFrom1
    set g2 := g1.setVertex ed.to_ tv3 with hg2
    have hedix : e.index < g.edges.vec.length := GenVec.get_index_lt hed
    have hrem : g2.edges.remove_but_maintain_generation e = some (ed,
        ⟨g.edges.vec.set e.index (.Open e.generation g.edges.next_open_slot),
         some e.index⟩) := by
      have : g2.edges = g.edges := rfl
      rw [this]
      exact GenVec.remove_but_maintain_generation_spec hed
    refine ⟨{ g2 with edges := ⟨g.edges.vec.set e.index
        (.Open e.generation g.edges.next_open_slot), some e.index⟩ },
      ?_, rfl, rfl, ?_, rfl, ?_, ?_, ?_, ?_⟩
    · unfold Graph.remove_edge_and_reset
      rw [hed]
      simp only [h1, hg1.symm, h2, hg2.symm, hrem]
    · intro j
      have := GenVec.get_mk_set g.edges e.index
        (.Open e.generation g.edges.next_open_slot) (some e.index) j hedix
      rw [show ({ g2 with edges := ⟨g.edges.vec.set e.index
          (.Open e.generation g.edges.next_open_slot), some e.index⟩} :
          Graph V E).get_edge j = (⟨g.edges.vec.set e.index
          (.Open e.generation g.edges.next_open_slot), some e.index⟩ :
          GenVec (Edge E)).get j from rfl]
      rw [this]
      rcases Nat.decEq j.index e.index with h | h
      · rw [if_neg h, if_neg h]
        rfl
      · rw [if_pos h, if_pos h]
        rfl
    · show g2.verticies.vec.length = _
      rw [hg2, Graph.setVertex_verticies_len, hg1, Graph.setVertex_verticies_len]
    · intro s gen nxt hs
      have hg1to : g1.get_vertex ed.to_ = some fv1 := by
        rw [hft]; exact hg1from
      exact GenVec.setOcc_open_frame hg1to s gen nxt
        (GenVec.setOcc_open_frame hfv s gen nxt hs)
    · intro w hw
      have hg1to : g1.get_vertex ed.to_ = some fv1 := by
        rw [hft]; exact hg1from
      exact Graph.get_vertex_setVertex_none hg1to
        (Graph.get_vertex_setVertex_none hfv hw)
    · intro w wx hwx
      by_cases hwf : w = ed.from_
      · have hwxfv : wx = fv := by
          rw [hwf, hfv] at hwx
          exact (Option.some_injective _ hwx).symm
        refine ⟨tv3, ?_, by rw [hwxfv], ?_, ?_⟩
        · show g2.get_vertex w = _
          rw [hg2, hft, hwf]
          exact Graph.get_vertex_setVertex_self hg1from
        · rw [if_pos hwf.symm, hwxfv, htv3, hfv1]
          exact removeFirst_multiset hmemTo hndTo_f
        · rw [if_pos (by rw [hft, hwf]), hwxfv, htv3, hfv1]
          exact removeFirst_multiset (htvfv ▸ hmemFrom) hndFrom_f
      · have hne : w ≠ ed.from_ := hwf
        refine ⟨wx, ?_, rfl, ?_, ?_⟩
        · show g2.get_vertex w = _
          rw [hg2, hft]
          rw [Graph.get_vertex_setVertex_ne hg1from hne, hg1,
            Graph.get_vertex_setVertex_ne hfv hne]
          exact hwx
        · rw [if_neg (fun h => hne h.symm)]
          simp
        · rw [if_neg (fun h => hne (hft ▸ h).symm)]
          simp
  · -- distinct endpoints
    have htv1 : g1.get_vertex ed.to_ = some tv := by
      rw [hg1, Graph.get_vertex_setVertex_ne hfv hft]
      exact htv
    set tv3 : Vertex V :=
      { tv with connections_from := removeFirst tv.connections_from e } with htv3
    have h2 : (g1.get_vertex ed.to_).bind (fun v => v.remove_from e) = some tv3 := by
      rw [htv1]
      simpa using Vertex.remove_from_spec hmemFrom
    set g2 := g1.setVertex ed.to_ tv3 with hg2
    have hedix : e.index < g.edges.vec.length := GenVec.get_index_lt hed
    have hrem : g2.edges.remove_but_maintain_generation e = some (ed,
        ⟨g.edges.vec.set e.index (.Open e.generation g.edges.next_open_slot),
         some e.index⟩) := by
      have : g2.edges = g.edges := rfl
      rw [this]
      exact GenVec.remove_but_maintain_generation_spec hed
    refine ⟨{ g2 with edges := ⟨g.edges.vec.set e.index
        (.Open e.generation g.edges.next_open_slot), some e.index⟩ },
      ?_, rfl, rfl, ?_, rfl, ?_, ?_, ?_, ?_⟩
    · unfold Graph.remove_edge_and_reset
      rw [hed]
      simp only [h1, hg1.symm, h2, hg2.symm, hrem]
    · intro j
      have := GenVec.get_mk_set g.edges e.index
        (.Open e.generation g.edges.next_open_slot) (some e.index) j hedix
      rw [show ({ g2 with edges := ⟨g.edges.vec.set e.index
          (.Open e.generation g.edges.next_open_slot), some e.index⟩} :
          Graph V E).get_edge j = (⟨g.edges.vec.set e.index
          (.Open e.generation g.edges.next_open_slot), some e.index⟩ :
          GenVec (Edge E)).get j from rfl]
      rw [this]
      rcases Nat.decEq j.index e.index with h | h
      · rw [if_neg h, if_neg h]
        rfl
      · rw [if_pos h, if_pos h]
        rfl
    · show g2.verticies.vec.length = _
      rw [hg2, Graph.setVertex_verticies_len, hg1, Graph.setVertex_verticies_len]
    · intro s gen nxt hs
      exact GenVec.setOcc_open_frame htv1 s gen nxt
        (GenVec.setOcc_open_frame hfv s gen nxt hs)
    · intro w hw
      exact Graph.get_vertex_setVertex_none htv1
        (Graph.get_vertex_setVertex_none hfv hw)
    · intro w wx hwx
      by_cases hwf : w = ed.from_
      · have hwxfv : wx = fv := by
          rw [hwf, hfv] at hwx
          exact (Option.some_injective _ hwx).symm
        refine ⟨fv1, ?_, by rw [hwxfv, hfv1], ?_, ?_⟩
        · show g2.get_vertex w = _
          rw [hg2, hwf]
          rw [Graph.get_vertex_setVertex_ne htv1 (fun h => hft h.symm)]
          exact hg1from
        · rw [if_pos hwf.symm, hwxfv, hfv1]
          exact removeFirst_multiset hmemTo hndTo_f
        · rw [if_neg (fun h => hft (hwf ▸ h)), hwxfv, hfv1]
          simp
      · by_cases hwt : w = ed.to_
        · have hwxtv : wx = tv := by
            rw [hwt, htv] at hwx
            exact (Option.some_injective _ hwx).symm
          refine ⟨tv3, ?_, by rw [hwxtv, htv3], ?_, ?_⟩
          · show g2.get_vertex w = _
            rw [hg2, hwt]
            exact Graph.get_vertex_setVertex_self htv1
          · rw [if_neg (fun h => hwf h.symm), hwxtv, htv3]
            simp
          · rw [if_pos hwt.symm, hwxtv, htv3]
            exact removeFirst_multiset hmemFrom hndFrom_t
        · refine ⟨wx, ?_, rfl, ?_, ?_⟩
          · show g2.get_vertex w = _
            rw [hg2, Graph.get_vertex_setVertex_ne htv1 hwt, hg1,
              Graph.get_vertex_setVertex_ne hfv hwf]
            exact hwx
          · rw [if_neg (fun h => hwf h.symm)]
            simp
          · rw [if_neg (fun h => hwt h.symm)]
            simp


theorem RoundTrip_remove_edge {g g1 : Graph V E} {i : Index} {x : E}
    {dd : GraphDiff V E} (hinv : InvP g)
    (h : g.remove_edge i = .ok (x, dd) g1) : RoundTrip g g1 dd := by
  obtain ⟨hadj, -, -⟩ := hinv
  unfold Graph.remove_edge at h
  cases hint : g.remove_edge_internal i with
  | err e1 gx =>
    simp only [hint] at h
    exact absurd h (by simp)
  | panicked =>
    simp only [hint] at h
    exact absurd h (by simp)
  | ok pr gx =>
    rcases pr with ⟨d0, diff0⟩
    simp only [hint] at h
    injection h with h1 h2
    subst h2
    have hdd : GraphDiff.RemoveEdge diff0 = dd := congrArg Prod.snd h1
    subst hdd
    obtain ⟨ed, hed, -, -, -, -, -⟩ := Graph.remove_edge_internal_ok_edges hint
    obtain ⟨g', hrun, hevec, hehead, helook, hvhead, hvlen, hvopen,
      hvnone, hvsome⟩ := Graph.remove_edge_internal_spec hadj hed
    rw [hrun] at hint
    injection hint with h3 h4
    subst h4
    have hdiff0 : diff0 = ⟨i, ed⟩ := (congrArg Prod.snd h3).symm
    subst hdiff0
    obtain ⟨⟨fv, hfv, hmemTo⟩, ⟨tv, htv, hmemFrom⟩⟩ := hadj.1 i ed hed
    have hocc : g.edges.vec[i.index]? = some (.Occupied ed i.generation) :=
      GenVec.get_eq_some_iff.mp hed
    have hilt : i.index < g.edges.vec.length := GenVec.get_index_lt hed
    have hilt1 : i.index < g'.edges.vec.length := by
      rw [hevec, List.length_set]
      exact hilt
    obtain ⟨fv1, hfv1, -, -, -⟩ := hvsome ed.from_ fv hfv
    obtain ⟨tv1, htv1, -, -, -⟩ := hvsome ed.to_ tv htv
    have hrepl : g'.edges.is_replaceable_by_index_rollback i = some true := by
      unfold GenVec.is_replaceable_by_index_rollback
      rw [hevec, List.getElem?_set_self hilt]
      simp
    -- the state after the rollback writes the edge slot back
    have hedge2 : ∀ j : Index,
        ({ g' with edges := ⟨g'.edges.vec.set i.index
          (.Occupied ed i.generation), g'.edges.next_open_slot⟩ } :
          Graph V E).get_edge j = g.get_edge j := by
      intro j
      show (⟨g'.edges.vec.set i.index (.Occupied ed i.generation),
        g'.edges.next_open_slot⟩ : GenVec (Edge E)).get j = _
      rw [GenVec.get_mk_set g'.edges i.index _ _ j hilt1]
      by_cases hj : j.index = i.index
      · rw [if_pos hj]
        by_cases hji : j = i
        · rw [hji]
          rw [show elemLookup (Element.Occupied ed i.generation) i.generation =
            some ed from by simp [elemLookup]]
          exact hed.symm
        · rw [show elemLookup (Element.Occupied ed i.generation) j.generation =
            none from by
              unfold elemLookup
              simp only []
              rw [if_neg]
              intro hg2
              exact hji (Index.ext_iff2.mpr ⟨hj, hg2.symm⟩)]
          exact (GenVec.get_other_gen hocc hj hji).symm
      · rw [if_neg hj]
        show g'.get_edge j = g.get_edge j
        rw [helook j, if_neg hj]
    have hfvE : ({ g' with edges := ⟨g'.edges.vec.set i.index
        (.Occupied ed i.generation), g'.edges.next_open_slot⟩ } :
        Graph V E).get_vertex ed.from_ = some fv1 := hfv1
    have htvE : ({ g' with edges := ⟨g'.edges.vec.set i.index
        (.Occupied ed i.generation), g'.edges.next_open_slot⟩ } :
        Graph V E).get_vertex ed.to_ = some tv1 := htv1
    obtain ⟨gr, hlrun, hledge, hlnone, hlsome⟩ := Graph.link_edge_spec hfvE htvE
    have hroll : g'.rollback_diff (.RemoveEdge ⟨i, ed⟩) = .ok () gr := by
      show g'.rollback_remove_edge_diff ⟨i, ed⟩ = _
      unfold Graph.rollback_remove_edge_diff
      simp only []
      rw [Graph.assert_vertex_exists_none hfv1,
        Graph.assert_vertex_exists_none htv1, hrepl]
      exact hlrun
    have hgr_edge : ∀ j : Index, gr.get_edge j = g.get_edge j := by
      intro j
      rw [hledge j]
      exact hedge2 j
    have hgr_none : ∀ w, g.get_vertex w = none → gr.get_vertex w = none := by
      intro w hw
      exact hlnone w (hvnone w hw)
    have hgr_some : ∀ w wx, g.get_vertex w = some wx → ∃ wxr,
        gr.get_vertex w = some wxr ∧ wxr.data = wx.data ∧
        (↑wxr.connections_to : Multiset (Index × Index)) =
          ↑wx.connections_to ∧
        (↑wxr.connections_from : Multiset (Index × Index)) =
          ↑wx.connections_from := by
      intro w wx hwx
      obtain ⟨wx1, hwx1, hd1, ht1, hf1⟩ := hvsome w wx hwx
      obtain ⟨wxr, hwxr, hd2, ht2, hf2⟩ := hlsome w wx1 hwx1
      refine ⟨wxr, hwxr, by rw [hd2, hd1], ?_, ?_⟩
      · rw [ht2]
        by_cases hcf : ed.from_ = w
        · rw [if_pos hcf]
          rw [if_pos hcf] at ht1
          have hwfv : wx = fv := by
            rw [← hcf, hfv] at hwx
            exact (Option.some_injective _ hwx).symm
          rw [show ((wx1.connections_to ++ [(ed.to_, i)] : List (Index × Index)) :
            Multiset (Index × Index)) =
            ↑wx1.connections_to + {(ed.to_, i)} from rfl]
          rw [ht1]
          refine tsub_add_cancel_of_le ?_
          rw [Multiset.singleton_le]
          rw [hwfv]
          exact Multiset.mem_coe.mpr hmemTo
        · rw [if_neg hcf]
          rw [if_neg hcf, Multiset.sub_zero] at ht1
          rw [List.append_nil, ht1]
      · rw [hf2]
        by_cases hct : ed.to_ = w
        · rw [if_pos hct]
          rw [if_pos hct] at hf1
          have hwtv : wx = tv := by
            rw [← hct, htv] at hwx
            exact (Option.some_injective _ hwx).symm
          rw [show ((wx1.connections_from ++ [(ed.from_, i)] : List (Index × Index)) :
            Multiset (Index × Index)) =
            ↑wx1.connections_from + {(ed.from_, i)} from rfl]
          rw [hf1]
          refine tsub_add_cancel_of_le ?_
          rw [Multiset.singleton_le]
          rw [hwtv]
          exact Multiset.mem_coe.mpr hmemFrom
        · rw [if_neg hct]
          rw [if_neg hct, Multiset.sub_zero] at hf1
          rw [List.append_nil, hf1]
    have hobs : GraphObsEq gr g := by
      refine ⟨?_, hgr_edge⟩
      intro w
      rcases hw : g.get_vertex w with - | wx
      · rw [hgr_none w hw]
        trivial
      · obtain ⟨wxr, hwxr, hd, ht2, hf2⟩ := hgr_some w wx hw
        rw [hwxr]
        exact ⟨hd, Multiset.coe_eq_coe.mp hf2, Multiset.coe_eq_coe.mp ht2⟩
    -- re-apply
    have hadjgr : AdjInv gr := AdjInv_of_obsEq (GraphObsEq_symm hobs) hadj
    have hedgr : gr.get_edge i = some ed := by
      rw [hgr_edge i]
      exact hed
    obtain ⟨ga, hrunA, heveca, heheada, helooka, -, -, -, hvnoneA, hvsomeA⟩ :=
      Graph.remove_edge_internal_spec hadjgr hedgr
    obtain ⟨fvr, hfvr, -, -, -⟩ := hgr_some ed.from_ fv hfv
    obtain ⟨tvr, htvr, -, -, -⟩ := hgr_some ed.to_ tv htv
    have happly : gr.apply_diff (.RemoveEdge ⟨i, ed⟩) = .ok () ga := by
      show gr.apply_remove_edge_diff ⟨i, ed⟩ = _
      unfold Graph.apply_remove_edge_diff
      simp only []
      rw [Graph.assert_vertex_exists_none hfvr,
        Graph.assert_vertex_exists_none htvr,
        Graph.assert_edge_exists_none hedgr]
      rw [show gr.remove_edge i = .ok (ed.data, .RemoveEdge ⟨i, ed⟩) ga from by
        unfold Graph.remove_edge
        rw [hrunA]]
    have hobsA : GraphObsEq ga g' := by
      constructor
      · intro w
        rcases hw : g.get_vertex w with - | wx
        · rw [hvnoneA w (hgr_none w hw), hvnone w hw]
          trivial
        · obtain ⟨wxr, hwxr, hdr, htr, hfr⟩ := hgr_some w wx hw
          obtain ⟨war, hwar, hdar, htar, hfar⟩ := hvsomeA w wxr hwxr
          obtain ⟨wx1, hwx1, hd1, ht1, hf1⟩ := hvsome w wx hw
          rw [hwar, hwx1]
          refine ⟨by rw [hdar, hdr, hd1], ?_, ?_⟩
        -- from-lists
          · refine Multiset.coe_eq_coe.mp ?_
            rw [hfar, hfr, hf1]
          · refine Multiset.coe_eq_coe.mp ?_
            rw [htar, htr, ht1]
      · intro j
        rw [helooka j, helook j, hgr_edge j]
    exact ⟨gr, hroll, hobs, ga, happly, hobsA⟩

theorem RoundTrip_add_edge {g g1 : Graph V E} {f t : Index} {x : E} {i : Index}
    {dd : GraphDiff V E} (hinv : InvP g)
    (h : g.add_edge f t x = .ok (i, dd) g1) : RoundTrip g g1 dd := by
  obtain ⟨hadj, -, ⟨le, hche⟩⟩ := hinv
  rcases haf : g.assert_vertex_exists f with - | e1
  · rcases hat : g.assert_vertex_exists t with - | e2
    · obtain ⟨fv, hf⟩ := Graph.assert_vertex_exists_none_inv haf
      obtain ⟨tv, ht⟩ := Graph.assert_vertex_exists_none_inv hat
      obtain ⟨i', g3, hrun2, hfresh, hlook, hvhead, hvlen, hvopen, hnone,
        hsome, l2, hch2⟩ := Graph.add_edge_spec hf ht hche x
      rw [hrun2] at h
      injection h with h1 h2
      subst h2
      have hii : i' = i := congrArg Prod.fst h1
      subst hii
      have hdd : GraphDiff.AddEdge ⟨i', f, t, x⟩ = dd := congrArg Prod.snd h1
      subst hdd
      have hedgei : g3.get_edge i' = some ⟨f, t, x⟩ := by
        rw [hlook, if_pos rfl]
      have hadj3 : AdjInv g3 :=
        AdjInv_after_edge_link hadj hf ht hfresh hlook hnone hsome
      obtain ⟨fv1, hfv1, -, -, -⟩ := hsome f fv hf
      obtain ⟨tv1, htv1, -, -, -⟩ := hsome t tv ht
      obtain ⟨gr, hrrun, hrevec, hrehead, hrelook, hrvhead, hrvlen, hrvopen,
        hrnone, hrsome⟩ := Graph.remove_edge_and_reset_spec hadj3 hedgei
      have hroll : g3.rollback_diff (.AddEdge ⟨i', f, t, x⟩) = .ok () gr := by
        show g3.rollback_add_edge_diff ⟨i', f, t, x⟩ = _
        unfold Graph.rollback_add_edge_diff
        simp only []
        rw [Graph.assert_vertex_exists_none hfv1,
          Graph.assert_vertex_exists_none htv1,
          Graph.assert_edge_exists_none hedgei, hrrun]
      have hgr_edge : ∀ j : Index, gr.get_edge j = g.get_edge j := by
        intro j
        rw [hrelook j]
        by_cases hj : j.index = i'.index
        · rw [if_pos hj, hfresh j hj]
        · rw [if_neg hj, hlook j,
            if_neg (fun he => hj (congrArg Index.index he))]
      have hgr_some : ∀ w wx, g.get_vertex w = some wx → ∃ wxr,
          gr.get_vertex w = some wxr ∧ wxr.data = wx.data ∧
          (↑wxr.connections_to : Multiset (Index × Index)) =
            ↑wx.connections_to ∧
          (↑wxr.connections_from : Multiset (Index × Index)) =
            ↑wx.connections_from := by
        intro w wx hwx
        obtain ⟨wx1, hwx1, hd1, ht1, hf1⟩ := hsome w wx hwx
        obtain ⟨wxr, hwxr, hd2, ht2, hf2⟩ := hrsome w wx1 hwx1
        refine ⟨wxr, hwxr, by rw [hd2, hd1], ?_, ?_⟩
        · rw [ht2, ht1]
          by_cases hcf : (⟨f, t, x⟩ : Edge E).from_ = w
          · rw [if_pos hcf]
            rw [if_pos (show f = w from hcf)]
            rw [show ((wx.connections_to ++ [(t, i')] : List (Index × Index)) :
              Multiset (Index × Index)) =
              ↑wx.connections_to + {((⟨f, t, x⟩ : Edge E).to_, i')} from rfl]
            exact add_tsub_cancel_right _ _
          · rw [if_neg hcf]
            rw [if_neg (show ¬ f = w from hcf), Multiset.sub_zero]
            simp
        · rw [hf2, hf1]
          by_cases hct : (⟨f, t, x⟩ : Edge E).to_ = w
          · rw [if_pos hct]
            rw [if_pos (show t = w from hct)]
            rw [show ((wx.connections_from ++ [(f, i')] : List (Index × Index)) :
              Multiset (Index × Index)) =
              ↑wx.connections_from + {((⟨f, t, x⟩ : Edge E).from_, i')} from rfl]
            exact add_tsub_cancel_right _ _
          · rw [if_neg hct]
            rw [if_neg (show ¬ t = w from hct), Multiset.sub_zero]
            simp
      have hgr_none : ∀ w, g.get_vertex w = none → gr.get_vertex w = none := by
        intro w hw
        exact hrnone w (hnone w hw)
      have hobs : GraphObsEq gr g := by
        refine ⟨?_, hgr_edge⟩
        intro w
        rcases hw : g.get_vertex w with - | wx
        · rw [hgr_none w hw]
          trivial
        · obtain ⟨wxr, hwxr, hd, ht2, hf2⟩ := hgr_some w wx hw
          rw [hwxr]
          exact ⟨hd, Multiset.coe_eq_coe.mp hf2, Multiset.coe_eq_coe.mp ht2⟩
      -- re-apply
      have hilt3 : i'.index < g3.edges.vec.length := GenVec.get_index_lt hedgei
      have hiltr : i'.index < gr.edges.vec.length := by
        rw [hrevec, List.length_set]
        exact hilt3
      have hreplA : gr.edges.is_replaceable_by_index_apply i' = some true := by
        unfold GenVec.is_replaceable_by_index_apply
        rw [hrevec, List.getElem?_set_self hilt3]
        simp
      obtain ⟨fvr, hfvr, -, -, -⟩ := hgr_some f fv hf
      obtain ⟨tvr, htvr, -, -, -⟩ := hgr_some t tv ht
      have hfvrA : ({ gr with edges := ⟨gr.edges.vec.set i'.index
          (.Occupied ⟨f, t, x⟩ i'.generation), gr.edges.next_open_slot⟩ } :
          Graph V E).get_vertex f = some fvr := hfvr
      have htvrA : ({ gr with edges := ⟨gr.edges.vec.set i'.index
          (.Occupied ⟨f, t, x⟩ i'.generation), gr.edges.next_open_slot⟩ } :
          Graph V E).get_vertex t = some tvr := htvr
      obtain ⟨ga, hlrun, hledge, hlnone, hlsome⟩ := Graph.link_edge_spec hfvrA htvrA
      have happly : gr.apply_diff (.AddEdge ⟨i', f, t, x⟩) = .ok () ga := by
        show gr.apply_add_edge_diff ⟨i', f, t, x⟩ = _
        unfold Graph.apply_add_edge_diff
        simp only []
        rw [Graph.assert_vertex_exists_none hfvr,
          Graph.assert_vertex_exists_none htvr, hreplA]
        exact hlrun
      have hga_edge : ∀ j : Index, ga.get_edge j = g3.get_edge j := by
        intro j
        rw [hledge j]
        show (⟨gr.edges.vec.set i'.index (.Occupied ⟨f, t, x⟩ i'.generation),
          gr.edges.next_open_slot⟩ : GenVec (Edge E)).get j = _
        rw [GenVec.get_mk_set gr.edges i'.index _ _ j hiltr]
        by_cases hj : j.index = i'.index
        · rw [if_pos hj]
          by_cases hji : j = i'
          · rw [hji]
            rw [show elemLookup (Element.Occupied (⟨f, t, x⟩ : Edge E)
              i'.generation) i'.generation = some ⟨f, t, x⟩ from by
                simp [elemLookup]]
            exact hedgei.symm
          · rw [show elemLookup (Element.Occupied (⟨f, t, x⟩ : Edge E)
              i'.generation) j.generation = none from by
                unfold elemLookup
                simp only []
                rw [if_neg]
                intro hg2
                exact hji (Index.ext_iff2.mpr ⟨hj, hg2.symm⟩)]
            rw [hlook j, if_neg hji, hfresh j hj]
        · rw [if_neg hj]
          show gr.get_edge j = g3.get_edge j
          rw [hgr_edge j, hlook j,
            if_neg (fun he => hj (congrArg Index.index he))]
      have hobsA : GraphObsEq ga g3 := by
        constructor
        · intro w
          rcases hw : g.get_vertex w with - | wx
          · rw [hlnone w (hgr_none w hw), hnone w hw]
            trivial
          · obtain ⟨wxr, hwxr, hdr, htr, hfr⟩ := hgr_some w wx hw
            have hwxrA : ({ gr with edges := ⟨gr.edges.vec.set i'.index
                (.Occupied ⟨f, t, x⟩ i'.generation),
                gr.edges.next_open_slot⟩ } : Graph V E).get_vertex w =
                some wxr := hwxr
            obtain ⟨war, hwar, hdar, htar, hfar⟩ := hlsome w wxr hwxrA
            obtain ⟨wx1, hwx1, hd1, ht1, hf1⟩ := hsome w wx hw
            rw [hwar, hwx1]
            refine ⟨by rw [hdar, hdr, hd1], ?_, ?_⟩
            · refine Multiset.coe_eq_coe.mp ?_
              rw [hfar, hf1]
              by_cases hct : t = w
              · rw [if_pos hct]
                rw [show ((wxr.connections_from ++ [(f, i')] :
                  List (Index × Index)) : Multiset (Index × Index)) =
                  ↑wxr.connections_from + {(f, i')} from rfl]
                rw [show ((wx.connections_from ++ [(f, i')] :
                  List (Index × Index)) : Multiset (Index × Index)) =
                  ↑wx.connections_from + {(f, i')} from rfl]
                rw [hfr]
              · rw [if_neg hct]
                rw [List.append_nil, List.append_nil]
                exact hfr
            · refine Multiset.coe_eq_coe.mp ?_
              rw [htar, ht1]
              by_cases hcf : f = w
              · rw [if_pos hcf]
                rw [show ((wxr.connections_to ++ [(t, i')] :
                  List (Index × Index)) : Multiset (Index × Index)) =
                  ↑wxr.connections_to + {(t, i')} from rfl]
                rw [show ((wx.connections_to ++ [(t, i')] :
                  List (Index × Index)) : Multiset (Index × Index)) =
                  ↑wx.connections_to + {(t, i')} from rfl]
                rw [htr]
              · rw [if_neg hcf]
                rw [List.append_nil, List.append_nil]
                exact htr
        · exact hga_edge
      exact ⟨gr, hroll, hobs, ga, happly, hobsA⟩
    · exfalso
      unfold Graph.add_edge at h
      rw [haf, hat] at h
      exact absurd h (by simp)
  · exfalso
    unfold Graph.add_edge at h
    rw [haf] at h
    exact absurd h (by simp)

/-- Every outgoing entry the removal loop deletes at a live vertex is
actually present in that vertex's outgoing list. -/
theorem outEntriesOf_subset {g : Graph V E} (hadj : AdjInv g)
    {conn : List (Index × Index)} {w : Index} {wx : Vertex V}
    (hw : g.get_vertex w = some wx) :
    ∀ a ∈ outEntriesOf g conn w, a ∈ wx.connections_to := by
  intro a ha
  unfold outEntriesOf at ha
  obtain ⟨p, hp, hfa⟩ := List.mem_filterMap.mp ha
  rcases hed : g.get_edge p.2 with - | ed
  · rw [hed] at hfa
    cases hfa
  · rw [hed] at hfa
    simp only [] at hfa
    by_cases hc : ed.from_ = w
    · rw [if_pos hc] at hfa
      have ha2 : a = (ed.to_, p.2) := (Option.some_injective _ hfa).symm
      subst ha2
      obtain ⟨⟨fv, hfv, hmem⟩, -⟩ := hadj.1 p.2 ed hed
      rw [hc, hw] at hfv
      have : wx = fv := Option.some_injective _ hfv
      rw [this]
      exact hmem
    · rw [if_neg hc] at hfa
      cases hfa

theorem inEntriesOf_subset {g : Graph V E} (hadj : AdjInv g)
    {conn : List (Index × Index)} {w : Index} {wx : Vertex V}
    (hw : g.get_vertex w = some wx) :
    ∀ a ∈ inEntriesOf g conn w, a ∈ wx.connections_from := by
  intro a ha
  unfold inEntriesOf at ha
  obtain ⟨p, hp, hfa⟩ := List.mem_filterMap.mp ha
  rcases hed : g.get_edge p.2 with - | ed
  · rw [hed] at hfa
    cases hfa
  · rw [hed] at hfa
    simp only [] at hfa
    by_cases hc : ed.to_ = w
    · rw [if_pos hc] at hfa
      have ha2 : a = (ed.from_, p.2) := (Option.some_injective _ hfa).symm
      subst ha2
      obtain ⟨-, ⟨tv, htv, hmem⟩⟩ := hadj.1 p.2 ed hed
      rw [hc, hw] at htv
      have : wx = tv := Option.some_injective _ htv
      rw [this]
      exact hmem
    · rw [if_neg hc] at hfa
      cases hfa

/-- Round trip of the diff produced by a successful `remove_vertex`:
rolling it back restores the pre-removal state observationally, and
re-applying it restores the post-removal state observationally. -/
theorem RoundTrip_remove_vertex {g g1 : Graph V E} {i : Index} {x : V}
    {dd : GraphDiff V E} (hinv : InvP g)
    (h : g.remove_vertex i = .ok (x, dd) g1) : RoundTrip g g1 dd := by
  obtain ⟨hadj, -, -⟩ := hinv
  obtain ⟨vx, ds0, gmid, vx1, hvx, hfold, hget, -, hddf, hg1form⟩ :=
    Graph.remove_vertex_ok_inv h
  subst hddf
  obtain ⟨hlive, hnd⟩ := Graph.remove_edges_collect_ok_facts
    (vx.connections_from ++ vx.connections_to) g ds0 gmid hfold
  obtain ⟨ds, g2, hrun, hinv2, hmap, hds, hsframe, hsopen, helen, hvhead,
    hvlen, hvopen, hvnone, hvsome⟩ :=
    Graph.remove_edges_collect_spec
      (vx.connections_from ++ vx.connections_to) g hadj hlive hnd
  rw [hrun] at hfold
  injection hfold with hds0 hgm
  subst hds0
  subst hgm
  obtain ⟨hout, hin⟩ := entries_at_self hadj hvx hnd
  obtain ⟨vx1', hvx1', hdata1, hto1, hfrom1⟩ := hvsome i vx hvx
  have hvx1eq : vx1' = vx1 := Option.some_injective _ (hvx1'.symm.trans hget)
  have hdataV : vx1.data = vx.data := by
    rw [← hvx1eq]
    exact hdata1
  have htoz : vx1.connections_to = [] := by
    refine (Multiset.coe_eq_zero _).mp ?_
    rw [← hvx1eq, hto1, hout, tsub_self]
  have hfromz : vx1.connections_from = [] := by
    refine (Multiset.coe_eq_zero _).mp ?_
    rw [← hvx1eq, hfrom1, hin, tsub_self]
  have hvlt2 : i.index < g2.verticies.vec.length := GenVec.get_index_lt hget
  have hv1vec : g1.verticies.vec = g2.verticies.vec.set i.index
      (.Open (i.generation + 1) g2.verticies.next_open_slot) := by
    rw [hg1form]
  have he1eq : g1.edges = g2.edges := by
    rw [hg1form]
  have hvltg1 : i.index < g1.verticies.vec.length := by
    rw [hv1vec, List.length_set]
    exact hvlt2
  have hlookv1 : ∀ j : Index, g1.get_vertex j =
      if j.index = i.index then none else g2.get_vertex j := by
    intro j
    rw [hg1form]
    show (⟨g2.verticies.vec.set i.index
        (.Open (i.generation + 1) g2.verticies.next_open_slot),
      some i.index⟩ : GenVec (Vertex V)).get j = _
    rw [GenVec.get_mk_set g2.verticies i.index
      (.Open (i.generation + 1) g2.verticies.next_open_slot)
      (some i.index) j hvlt2]
    by_cases hj : j.index = i.index
    · rw [if_pos hj, if_pos hj]
      rfl
    · rw [if_neg hj, if_neg hj]
      rfl
  have hlooke1 : ∀ j : Index, g1.get_edge j = g2.get_edge j := by
    intro j
    rw [hg1form]
    rfl
  have hgv1get : ∀ j : Index,
      ({ g1 with verticies := ⟨g1.verticies.vec.set i.index
          (.Occupied vx1 i.generation), g1.verticies.next_open_slot⟩ } :
        Graph V E).get_vertex j =
      if j.index = i.index then
        elemLookup (.Occupied vx1 i.generation) j.generation
      else g1.get_vertex j := by
    intro j
    show (⟨g1.verticies.vec.set i.index (.Occupied vx1 i.generation),
      g1.verticies.next_open_slot⟩ : GenVec (Vertex V)).get j = _
    exact GenVec.get_mk_set g1.verticies i.index
      (.Occupied vx1 i.generation) g1.verticies.next_open_slot j hvltg1
  have hgv1v :
      ({ g1 with verticies := ⟨g1.verticies.vec.set i.index
          (.Occupied vx1 i.generation), g1.verticies.next_open_slot⟩ } :
        Graph V E).get_vertex i = some vx1 := by
    rw [hgv1get i, if_pos rfl]
    simp [elemLookup]
  have hgv1ne : ∀ j : Index, j.index ≠ i.index →
      ({ g1 with verticies := ⟨g1.verticies.vec.set i.index
          (.Occupied vx1 i.generation), g1.verticies.next_open_slot⟩ } :
        Graph V E).get_vertex j = g2.get_vertex j := by
    intro j hj
    rw [hgv1get j, if_neg hj, hlookv1 j, if_neg hj]
  have hreplv : g1.verticies.is_replaceable_by_index_rollback i = some true := by
    unfold GenVec.is_replaceable_by_index_rollback
    rw [hv1vec, List.getElem?_set_self hvlt2]
    simp
  have hcheck : Graph.check_edges_replaceable g1.edges ds = some true := by
    refine check_edges_replaceable_spec ?_
    intro d hd
    have hdm : d.edge_index ∈
        (vx.connections_from ++ vx.connections_to).map Prod.snd := by
      rw [← hmap]
      exact List.mem_map.mpr ⟨d, hd, rfl⟩
    obtain ⟨p, hp, hpe⟩ := List.mem_map.mp hdm
    obtain ⟨nxt, hnxt⟩ := hsopen p hp
    refine ⟨nxt, ?_⟩
    rw [he1eq, ← hpe]
    exact hnxt
  have hmapidx : ds.map (fun d => d.edge_index.index) =
      ((vx.connections_from ++ vx.connections_to).map Prod.snd).map
        Index.index := by
    rw [← hmap, List.map_map]
    rfl
  have hdsnd : (ds.map (fun d => d.edge_index.index)).Nodup := by
    rw [hmapidx]
    refine List.Nodup.map_on ?_ hnd
    intro e1 he1 e2 he2 hee
    obtain ⟨p1, hp1, hp1e⟩ := List.mem_map.mp he1
    obtain ⟨p2, hp2, hp2e⟩ := List.mem_map.mp he2
    obtain ⟨ed1, hed1⟩ := hlive p1 hp1
    obtain ⟨ed2, hed2⟩ := hlive p2 hp2
    rw [hp1e] at hed1
    rw [hp2e] at hed2
    exact GenVec.live_same_slot hed1 hed2 hee
  have hfl : ∀ d ∈ ds, ∃ wv,
      ({ g1 with verticies := ⟨g1.verticies.vec.set i.index
          (.Occupied vx1 i.generation), g1.verticies.next_open_slot⟩ } :
        Graph V E).get_vertex d.edge.from_ = some wv := by
    intro d hd
    obtain ⟨⟨fv, hfv, -⟩, -⟩ := hadj.1 d.edge_index d.edge (hds d hd)
    by_cases hfi : d.edge.from_.index = i.index
    · have hfveq : d.edge.from_ = i := GenVec.live_same_slot hfv hvx hfi
      exact ⟨vx1, by rw [hfveq]; exact hgv1v⟩
    · obtain ⟨fv2, hfv2, -, -, -⟩ := hvsome d.edge.from_ fv hfv
      exact ⟨fv2, by rw [hgv1ne d.edge.from_ hfi]; exact hfv2⟩
  have htl : ∀ d ∈ ds, ∃ wv,
      ({ g1 with verticies := ⟨g1.verticies.vec.set i.index
          (.Occupied vx1 i.generation), g1.verticies.next_open_slot⟩ } :
        Graph V E).get_vertex d.edge.to_ = some wv := by
    intro d hd
    obtain ⟨-, ⟨tv, htv, -⟩⟩ := hadj.1 d.edge_index d.edge (hds d hd)
    by_cases hti : d.edge.to_.index = i.index
    · have htveq : d.edge.to_ = i := GenVec.live_same_slot htv hvx hti
      exact ⟨vx1, by rw [htveq]; exact hgv1v⟩
    · obtain ⟨tv2, htv2, -, -, -⟩ := hvsome d.edge.to_ tv htv
      exact ⟨tv2, by rw [hgv1ne d.edge.to_ hti]; exact htv2⟩
  have hrange : ∀ d ∈ ds, d.edge_index.index <
      ({ g1 with verticies := ⟨g1.verticies.vec.set i.index
          (.Occupied vx1 i.generation), g1.verticies.next_open_slot⟩ } :
        Graph V E).edges.vec.length := by
    intro d hd
    show d.edge_index.index < g1.edges.vec.length
    rw [he1eq, helen]
    exact GenVec.get_index_lt (hds d hd)
  obtain ⟨gr, hrrun, hrslot, hrframe, hrhead, hrlen, hrnone, hrsome⟩ :=
    Graph.restore_edges_spec ds
      ({ g1 with verticies := ⟨g1.verticies.vec.set i.index
          (.Occupied vx1 i.generation), g1.verticies.next_open_slot⟩ } :
        Graph V E) hfl htl hrange hdsnd
  have hroll : g1.rollback_diff (.RemoveVertex ⟨i, vx1, ds⟩) = .ok () gr := by
    show g1.rollback_remove_vertex_diff ⟨i, vx1, ds⟩ = _
    unfold Graph.rollback_remove_vertex_diff
    simp only []
    rw [hreplv, hcheck]
    exact hrrun
  have hgr_slot : ∀ s : Nat, gr.edges.vec[s]? = g.edges.vec[s]? := by
    intro s
    by_cases hs : s ∈ ds.map (fun d => d.edge_index.index)
    · obtain ⟨d, hd, hde⟩ := List.mem_map.mp hs
      have hde' : d.edge_index.index = s := hde
      rw [← hde', hrslot d hd]
      exact (GenVec.get_eq_some_iff.mp (hds d hd)).symm
    · rw [hrframe s hs]
      show g1.edges.vec[s]? = g.edges.vec[s]?
      rw [he1eq]
      refine hsframe s ?_
      intro hmem
      apply hs
      rw [hmapidx, List.map_map]
      exact hmem
  have hgr_edge : ∀ j : Index, gr.get_edge j = g.get_edge j := by
    intro j
    show gr.edges.get j = g.edges.get j
    rw [GenVec.get_eq_bind, GenVec.get_eq_bind, hgr_slot j.index]
  have hgr_none : ∀ w, g.get_vertex w = none → gr.get_vertex w = none := by
    intro w hw
    by_cases hwi : w.index = i.index
    · have hwv : w ≠ i := by
        intro he
        rw [he, hvx] at hw
        cases hw
      have hgen : w.generation ≠ i.generation := by
        intro hg
        exact hwv (Index.ext_iff2.mpr ⟨hwi, hg⟩)
      refine hrnone w ?_
      rw [hgv1get w, if_pos hwi]
      unfold elemLookup
      simp only []
      rw [if_neg (fun h2 => hgen h2.symm)]
    · refine hrnone w ?_
      rw [hgv1ne w hwi]
      exact hvnone w hw
  obtain ⟨vr, hvr, hvrd, hvrt, hvrf⟩ := hrsome i vx1 hgv1v
  obtain ⟨hoDi, hiDi⟩ := entriesD_eq_entriesOf g i ds
    (vx.connections_from ++ vx.connections_to) hmap hds
  have hvrt_exact : vr.connections_to = vx.connections_to := by
    rw [hvrt, htoz, List.nil_append, hoDi, hout]
  have hvrf_exact : vr.connections_from = vx.connections_from := by
    rw [hvrf, hfromz, List.nil_append, hiDi, hin]
  have hvrd_exact : vr.data = vx.data := by
    rw [hvrd, hdataV]
  have hgr_some : ∀ w wx, g.get_vertex w = some wx → w.index ≠ i.index →
      ∃ wxr, gr.get_vertex w = some wxr ∧ wxr.data = wx.data ∧
        (↑wxr.connections_to : Multiset (Index × Index)) =
          ↑wx.connections_to ∧
        (↑wxr.connections_from : Multiset (Index × Index)) =
          ↑wx.connections_from := by
    intro w wx hw hwi
    obtain ⟨wx2, hwx2, hd2, ht2, hf2⟩ := hvsome w wx hw
    obtain ⟨wxr, hwxr, hdr, htr, hfr⟩ := hrsome w wx2
      (by rw [hgv1ne w hwi]; exact hwx2)
    obtain ⟨hoD, hiD⟩ := entriesD_eq_entriesOf g w ds
      (vx.connections_from ++ vx.connections_to) hmap hds
    refine ⟨wxr, hwxr, by rw [hdr, hd2], ?_, ?_⟩
    · rw [htr]
      rw [show ((wx2.connections_to ++ outEntriesD ds w :
          List (Index × Index)) : Multiset (Index × Index)) =
        ↑wx2.connections_to + ↑(outEntriesD ds w) from rfl]
      rw [ht2, hoD]
      refine tsub_add_cancel_of_le ?_
      refine coe_le_of_snd_nodup_mem ?_ ?_
      · exact (outEntriesOf_snd_sublist g
          (vx.connections_from ++ vx.connections_to) w).nodup hnd
      · exact outEntriesOf_subset hadj hw
    · rw [hfr]
      rw [show ((wx2.connections_from ++ inEntriesD ds w :
          List (Index × Index)) : Multiset (Index × Index)) =
        ↑wx2.connections_from + ↑(inEntriesD ds w) from rfl]
      rw [hf2, hiD]
      refine tsub_add_cancel_of_le ?_
      refine coe_le_of_snd_nodup_mem ?_ ?_
      · exact (inEntriesOf_snd_sublist g
          (vx.connections_from ++ vx.connections_to) w).nodup hnd
      · exact inEntriesOf_subset hadj hw
  have hgr_vert : ∀ w : Index,
      OptVertexPerm (gr.get_vertex w) (g.get_vertex w) := by
    intro w
    rcases hw : g.get_vertex w with - | wx
    · rw [hgr_none w hw]
      trivial
    · by_cases hwi : w.index = i.index
      · have hwv : w = i := GenVec.live_same_slot hw hvx hwi
        have hwxvx : wx = vx := by
          rw [hwv, hvx] at hw
          exact (Option.some_injective _ hw).symm
        rw [hwv, hvr, hwxvx]
        exact ⟨hvrd_exact,
          Multiset.coe_eq_coe.mp (by rw [hvrf_exact]),
          Multiset.coe_eq_coe.mp (by rw [hvrt_exact])⟩
      · obtain ⟨wxr, hwxr, hdr, htr, hfr⟩ := hgr_some w wx hw hwi
        rw [hwxr]
        exact ⟨hdr, Multiset.coe_eq_coe.mp hfr, Multiset.coe_eq_coe.mp htr⟩
  have hobs : GraphObsEq gr g := ⟨hgr_vert, hgr_edge⟩
  have hadjgr : AdjInv gr := AdjInv_of_obsEq (GraphObsEq_symm hobs) hadj
  have hliveA : ∀ p ∈ vx.connections_from ++ vx.connections_to,
      ∃ ed, gr.get_edge p.2 = some ed := by
    intro p hp
    obtain ⟨ed, hed⟩ := hlive p hp
    exact ⟨ed, by rw [hgr_edge p.2]; exact hed⟩
  obtain ⟨dsA, gA2, hrunA, hinvA2, hmapA, hdsA, hsframeA, hsopenA, helenA,
    hvheadA, hvlenA, hvopenA, hvnoneA, hvsomeA⟩ :=
    Graph.remove_edges_collect_spec
      (vx.connections_from ++ vx.connections_to) gr hadjgr hliveA hnd
  obtain ⟨vrA, hvrA, hdA, htA, hfA⟩ := hvsomeA i vr hvr
  have hvrA2 : gA2.verticies.get i = some vrA := hvrA
  have hvltA2 : i.index < gA2.verticies.vec.length := GenVec.get_index_lt hvrA2
  have hremA : gA2.verticies.remove i = some (vrA,
      ⟨gA2.verticies.vec.set i.index
        (.Open (i.generation + 1) gA2.verticies.next_open_slot),
       some i.index⟩) := GenVec.remove_spec hvrA2
  have happly_rv : gr.remove_vertex i = .ok (vrA.data,
      .RemoveVertex ⟨i, vrA, dsA⟩)
      { gA2 with verticies := ⟨gA2.verticies.vec.set i.index
          (.Open (i.generation + 1) gA2.verticies.next_open_slot),
        some i.index⟩ } := by
    unfold Graph.remove_vertex
    rw [hvr]
    simp only []
    rw [hvrf_exact, hvrt_exact]
    rw [hrunA]
    simp only []
    rw [hremA]
  have happly : gr.apply_diff (.RemoveVertex ⟨i, vx1, ds⟩) = .ok ()
      { gA2 with verticies := ⟨gA2.verticies.vec.set i.index
          (.Open (i.generation + 1) gA2.verticies.next_open_slot),
        some i.index⟩ } := by
    show gr.apply_remove_vertex_diff ⟨i, vx1, ds⟩ = _
    unfold Graph.apply_remove_vertex_diff
    simp only []
    rw [Graph.assert_vertex_exists_none hvr, happly_rv]
  have hAg2 : ∀ j : Index, gA2.get_edge j = g2.get_edge j := by
    intro j
    by_cases hjm : j.index ∈ (vx.connections_from ++
        vx.connections_to).map (fun p => p.2.index)
    · obtain ⟨p, hp, hpe⟩ := List.mem_map.mp hjm
      have hpe' : p.2.index = j.index := hpe
      obtain ⟨nxtA, hA⟩ := hsopenA p hp
      obtain ⟨nxt2, h2⟩ := hsopen p hp
      rw [hpe'] at hA h2
      show gA2.edges.get j = g2.edges.get j
      rw [GenVec.get_none_of_open hA, GenVec.get_none_of_open h2]
    · have hA := hsframeA j.index hjm
      have h2 := hsframe j.index hjm
      show gA2.edges.get j = g2.edges.get j
      rw [GenVec.get_eq_bind, GenVec.get_eq_bind, hA, h2, hgr_slot j.index]
  have hedgeA : ∀ j : Index,
      ({ gA2 with verticies := ⟨gA2.verticies.vec.set i.index
          (.Open (i.generation + 1) gA2.verticies.next_open_slot),
        some i.index⟩ } : Graph V E).get_edge j = g1.get_edge j := by
    intro j
    show gA2.get_edge j = g1.get_edge j
    rw [hAg2 j, hlooke1 j]
  have hlookvA : ∀ j : Index,
      ({ gA2 with verticies := ⟨gA2.verticies.vec.set i.index
          (.Open (i.generation + 1) gA2.verticies.next_open_slot),
        some i.index⟩ } : Graph V E).get_vertex j =
      if j.index = i.index then none else gA2.get_vertex j := by
    intro j
    show (⟨gA2.verticies.vec.set i.index
        (.Open (i.generation + 1) gA2.verticies.next_open_slot),
      some i.index⟩ : GenVec (Vertex V)).get j = _
    rw [GenVec.get_mk_set gA2.verticies i.index
      (.Open (i.generation + 1) gA2.verticies.next_open_slot)
      (some i.index) j hvltA2]
    by_cases hj : j.index = i.index
    · rw [if_pos hj, if_pos hj]
      rfl
    · rw [if_neg hj, if_neg hj]
      rfl
  have hvertA : ∀ w : Index, OptVertexPerm
      (({ gA2 with verticies := ⟨gA2.verticies.vec.set i.index
          (.Open (i.generation + 1) gA2.verticies.next_open_slot),
        some i.index⟩ } : Graph V E).get_vertex w) (g1.get_vertex w) := by
    intro w
    rw [hlookvA w, hlookv1 w]
    by_cases hwi : w.index = i.index
    · rw [if_pos hwi, if_pos hwi]
      trivial
    · rw [if_neg hwi, if_neg hwi]
      rcases hw : g.get_vertex w with - | wx
      · rw [hvnoneA w (hgr_none w hw), hvnone w hw]
        trivial
      · obtain ⟨wxr, hwxr, hdr, htr, hfr⟩ := hgr_some w wx hw hwi
        obtain ⟨wxA, hwxA, hdA2, htA2, hfA2⟩ := hvsomeA w wxr hwxr
        obtain ⟨wx2, hwx2, hd22, ht22, hf22⟩ := hvsome w wx hw
        rw [hwxA, hwx2]
        refine ⟨by rw [hdA2, hdr, hd22], ?_, ?_⟩
        · refine Multiset.coe_eq_coe.mp ?_
          rw [hfA2, hf22,
            inEntriesOf_congr (fun q hq => hgr_edge q.2) w, hfr]
        · refine Multiset.coe_eq_coe.mp ?_
          rw [htA2, ht22,
            outEntriesOf_congr (fun q hq => hgr_edge q.2) w, htr]
  exact ⟨gr, hroll, hobs,
    { gA2 with verticies := ⟨gA2.verticies.vec.set i.index
        (.Open (i.generation + 1) gA2.verticies.next_open_slot),
      some i.index⟩ },
    happly, hvertA, hedgeA⟩

/-- The round-trip property for every diff any of the six public mutations
can produce on `g`: the rollback succeeds and restores a state
observationally equal to `g`, and re-applying the diff afterwards succeeds
and restores a state observationally equal to the post-mutation state. -/
def RoundTrips (g : Graph V E) : Prop :=
  (∀ (d : V) (i : Index) (dd : GraphDiff V E) (g1 : Graph V E),
    g.add_vertex d = some ((i, dd), g1) → RoundTrip g g1 dd) ∧
  (∀ (f t : Index) (x : E) (i : Index) (dd : GraphDiff V E) (g1 : Graph V E),
    g.add_edge f t x = .ok (i, dd) g1 → RoundTrip g g1 dd) ∧
  (∀ (i : Index) (x old : V) (dd : GraphDiff V E) (g1 : Graph V E),
    g.update_vertex i x = .ok (old, dd) g1 → RoundTrip g g1 dd) ∧
  (∀ (i : Index) (x old : E) (dd : GraphDiff V E) (g1 : Graph V E),
    g.update_edge i x = .ok (old, dd) g1 → RoundTrip g g1 dd) ∧
  (∀ (i : Index) (x : E) (dd : GraphDiff V E) (g1 : Graph V E),
    g.remove_edge i = .ok (x, dd) g1 → RoundTrip g g1 dd) ∧
  (∀ (i : Index) (x : V) (dd : GraphDiff V E) (g1 : Graph V E),
    g.remove_vertex i = .ok (x, dd) g1 → RoundTrip g g1 dd)

/-- C1: on a well-formed graph (sound adjacency and free lists), every
diff produced by any of the six public mutations (add_vertex, add_edge,
update_vertex, update_edge, remove_edge, remove_vertex) rolls back to a
state observationally identical to the pre-mutation state (same live
entries at the same Index values, same adjacency up to entry order), and
re-applying the same diff afterwards succeeds and restores a state
observationally identical to the post-mutation state.  The claim's
stronger "exactly, including the same Index" part fails: the free-list
internals are not restored, so a later add may assign a different Index
(see the counterexample). -/
theorem C1_diff_round_trip {g : Graph V E} (hwf : WF g) : RoundTrips g := by
  have hinv := WF_invP hwf
  refine ⟨?_, ?_, ?_, ?_, ?_, ?_⟩
  · intro d i dd g1 h
    exact RoundTrip_add_vertex hinv h
  · intro f t x i dd g1 h
    exact RoundTrip_add_edge hinv h
  · intro i x old dd g1 h
    exact RoundTrip_update_vertex h
  · intro i x old dd g1 h
    exact RoundTrip_update_edge h
  · intro i x dd g1 h
    exact RoundTrip_remove_edge hinv h
  · intro i x dd g1 h
    exact RoundTrip_remove_vertex hinv h

/-- Witness for C1 on a concrete well-formed two-vertex, one-edge graph. -/
theorem C1_diff_round_trip_witness :
    WF (⟨⟨[.Occupied ⟨[], [(⟨1, 0⟩, ⟨0, 0⟩)], 10⟩ 0,
        .Occupied ⟨[(⟨0, 0⟩, ⟨0, 0⟩)], [], 20⟩ 0], none⟩,
       ⟨[.Occupied ⟨⟨0, 0⟩, ⟨1, 0⟩, 5⟩ 0], none⟩⟩ : Graph Nat Nat) ∧
    RoundTrips (⟨⟨[.Occupied ⟨[], [(⟨1, 0⟩, ⟨0, 0⟩)], 10⟩ 0,
        .Occupied ⟨[(⟨0, 0⟩, ⟨0, 0⟩)], [], 20⟩ 0], none⟩,
       ⟨[.Occupied ⟨⟨0, 0⟩, ⟨1, 0⟩, 5⟩ 0], none⟩⟩ : Graph Nat Nat) :=
  ⟨by unfold WF; decide, C1_diff_round_trip (by unfold WF; decide)⟩

/-- C1 counterexample to the exact-state part of the claim: adding a
vertex to the empty graph, rolling the diff back and re-applying it yields
a state that differs from the original post-mutation state (the rollback
pushed the slot on the vertex free list and `apply_diff` re-fills the slot
without unlinking it), and the divergence is observable through the public
API: the next `add_vertex` returns Index (0,0) instead of (1,0). -/
theorem C1_apply_does_not_restore_exactly :
    (Graph.new : Graph Nat Nat).add_vertex 0 =
      some ((⟨0, 0⟩, .AddVertex ⟨⟨0, 0⟩, 0⟩),
        ⟨⟨[.Occupied ⟨[], [], 0⟩ 0], none⟩, ⟨[], none⟩⟩) ∧
    Graph.rollback_diff
        (⟨⟨[.Occupied ⟨[], [], 0⟩ 0], none⟩, ⟨[], none⟩⟩ : Graph Nat Nat)
        (.AddVertex ⟨⟨0, 0⟩, 0⟩) =
      .ok () ⟨⟨[.Open 0 none], some 0⟩, ⟨[], none⟩⟩ ∧
    Graph.apply_diff
        (⟨⟨[.Open 0 none], some 0⟩, ⟨[], none⟩⟩ : Graph Nat Nat)
        (.AddVertex ⟨⟨0, 0⟩, 0⟩) =
      .ok () ⟨⟨[.Occupied ⟨[], [], 0⟩ 0], some 0⟩, ⟨[], none⟩⟩ ∧
    (⟨⟨[.Occupied ⟨[], [], 0⟩ 0], some 0⟩, ⟨[], none⟩⟩ : Graph Nat Nat) ≠
      ⟨⟨[.Occupied ⟨[], [], 0⟩ 0], none⟩, ⟨[], none⟩⟩ ∧
    (Graph.add_vertex
        (⟨⟨[.Occupied ⟨[], [], 0⟩ 0], some 0⟩, ⟨[], none⟩⟩ : Graph Nat Nat)
        1).map (fun r => r.1.1) = some ⟨0, 0⟩ ∧
    (Graph.add_vertex
        (⟨⟨[.Occupied ⟨[], [], 0⟩ 0], none⟩, ⟨[], none⟩⟩ : Graph Nat Nat)
        1).map (fun r => r.1.1) = some ⟨1, 0⟩ :=
  ⟨rfl, rfl, rfl, by decide, rfl, rfl⟩

end Ddgg
